import Mathlib

/-!
# Verification of the anti-scam-crawler core

Shallow embedding of the repository's crawl frontier manager
(`src/extraction/archival_crawler.py`), evidence extraction engine
(`src/extraction/data_extractor.py`) and offline archive scanner
(`src/extraction/archive_scanner.py`), together with the parts of
CPython's `urllib.parse` that those modules call.

Modelling conventions:
* Python strings are modelled as `List Char` (`Str`), restricted to
  ASCII text; `str.lower`, `str.strip` and character classes are the
  ASCII restrictions of their Python counterparts.
* External collaborators (the Playwright browser, `tldextract`'s
  public-suffix data, the filesystem, the stdlib HTML tokenizer and
  `html.unescape`) are modelled as explicit oracle parameters.
* Fallible Python code returns `Option`/`Except`; an uncaught Python
  exception is an `Except.error` (or, inside `_normalize_url`, a `none`
  result, since a raising candidate is never accepted).
-/

abbrev Str := List Char

namespace PyStr

def lstr (s : String) : Str := s.data

def is_ascii_upper (c : Char) : Bool := 'A' ≤ c && c ≤ 'Z'

def is_ascii_lower (c : Char) : Bool := 'a' ≤ c && c ≤ 'z'

def is_ascii_digit (c : Char) : Bool := '0' ≤ c && c ≤ '9'

def is_ascii_alpha (c : Char) : Bool := is_ascii_upper c || is_ascii_lower c

def is_ascii_alnum (c : Char) : Bool := is_ascii_alpha c || is_ascii_digit c

/-- ASCII restriction of Python's `str.lower`. -/
def to_lower_char (c : Char) : Char :=
  if is_ascii_upper c then Char.ofNat (c.toNat + 32) else c

def lower (s : Str) : Str := s.map to_lower_char

/-- ASCII whitespace, the characters Python's `str.strip()` removes. -/
def is_space_char (c : Char) : Bool :=
  c = ' ' || c = '\t' || c = '\n' || c = '\x0d' || c = '\x0b' || c = '\x0c'

/-- Python `str.strip()` (ASCII whitespace). -/
def strip (s : Str) : Str :=
  ((s.dropWhile is_space_char).reverse.dropWhile is_space_char).reverse

/-- Python `s.lstrip(chars)`: drops leading characters drawn from `chars`
(a character *set*, not a literal prefix). -/
def lstrip_set (chars : Str) (s : Str) : Str :=
  s.dropWhile (fun c => chars.contains c)

/-- Python `hay.find(needle)` (first index, `none` for -1). -/
def find_sub (hay needle : Str) : Option Nat :=
  if needle.isPrefixOf hay then some 0
  else
    match hay with
    | [] => none
    | _ :: t => (find_sub t needle).map (· + 1)

/-- Python `needle in hay` on strings. -/
def contains_sub (hay needle : Str) : Bool := (find_sub hay needle).isSome

/-- Python `s.partition(sep)` for a single-character separator:
`(before, found?, after)` splitting at the first occurrence. -/
def partition_char (s : Str) (c : Char) : Str × Bool × Str :=
  let pre := s.takeWhile (· ≠ c)
  let rest := s.dropWhile (· ≠ c)
  match rest with
  | [] => (pre, false, [])
  | _ :: t => (pre, true, t)

/-- Python `s.rpartition(sep)` for a single-character separator:
`(before, found?, after)` splitting at the last occurrence. -/
def rpartition_char (s : Str) (c : Char) : Str × Bool × Str :=
  let p := partition_char s.reverse c
  (p.2.2.reverse, p.2.1, p.1.reverse)

theorem length_dropWhile_le (p : Char → Bool) (s : Str) :
    (s.dropWhile p).length ≤ s.length := by
  induction s with
  | nil => simp
  | cons a as ih =>
    by_cases h : p a
    · simpa [List.dropWhile_cons, h] using Nat.le_succ_of_le ih
    · simp [List.dropWhile_cons, h]

/-- Python `s.split(sep)` for a single-character separator. -/
def split_char : Str → Char → List Str
  | [], _ => [[]]
  | a :: rest, c =>
    if a = c then [] :: split_char rest c
    else
      match split_char rest c with
      | [] => [[a]]
      | x :: xs => (a :: x) :: xs

/-- Python `sep.join(parts)` for a single-character separator. -/
def join_char (c : Char) : List Str → Str
  | [] => []
  | [x] => x
  | x :: xs => x ++ c :: join_char c xs

/-- Python `sep.join(parts)` for a string separator. -/
def join_str (sep : Str) : List Str → Str
  | [] => []
  | [x] => x
  | x :: xs => x ++ sep ++ join_str sep xs

/-- Decimal rendering of a natural number, as Python's `str(n)`/f-string
formatting of a non-negative int (`fuel ≥ n` suffices; digits accumulate
from the right). -/
def nat_render_go : Nat → Nat → Str → Str
  | _, 0, acc => acc
  | 0, _, acc => acc
  | fuel + 1, n + 1, acc =>
    nat_render_go fuel ((n + 1) / 10) (Char.ofNat (48 + (n + 1) % 10) :: acc)

def nat_render (n : Nat) : Str :=
  if n = 0 then ['0'] else nat_render_go n n []

/-- Python `f"{n:02d}"` for a natural number. -/
def zero_pad2 (n : Nat) : Str :=
  if n < 10 then '0' :: nat_render n else nat_render n

/-- Shape of the digit part Python's `int(s, 10)` accepts: ASCII digits
with single underscores allowed only between two digits. -/
def digits_with_underscores : Str → Bool
  | [] => false
  | [c] => is_ascii_digit c
  | c :: '_' :: rest => is_ascii_digit c && digits_with_underscores rest
  | c :: rest => is_ascii_digit c && digits_with_underscores rest

/-- Value of a digit string (underscores already removed). -/
def digits_val (s : Str) : Nat :=
  s.foldl (fun acc c => acc * 10 + (c.toNat - 48)) 0

/-- Python `int(s, 10)`: optional surrounding whitespace, optional single
sign, then digits with optional single underscores between digits.
`none` models the `ValueError`. -/
def py_int_parse (s : Str) : Option Int :=
  let t := strip s
  match t with
  | '+' :: rest =>
    if digits_with_underscores rest then some (digits_val (rest.filter (· ≠ '_')))
    else none
  | '-' :: rest =>
    if digits_with_underscores rest then some (-(digits_val (rest.filter (· ≠ '_')) : Int))
    else none
  | rest =>
    if digits_with_underscores rest then some (digits_val (rest.filter (· ≠ '_')))
    else none

end PyStr

namespace UrlLib

open PyStr

/-- Result of CPython `urllib.parse.urlsplit`. -/
structure SplitResult where
  scheme : Str
  netloc : Str
  path : Str
  query : Str
  fragment : Str
deriving Repr, DecidableEq

/-- Result of CPython `urllib.parse.urlparse`. -/
structure ParseResult where
  scheme : Str
  netloc : Str
  path : Str
  params : Str
  query : Str
  fragment : Str
deriving Repr, DecidableEq

def scheme_chars : Str :=
  lstr "abcdefghijklmnopqrstuvwxyzABCDEFGHIJKLMNOPQRSTUVWXYZ0123456789+-."

def uses_relative : List Str :=
  [lstr "", lstr "ftp", lstr "http", lstr "gopher", lstr "nntp", lstr "imap",
   lstr "wais", lstr "file", lstr "https", lstr "shttp", lstr "mms",
   lstr "prospero", lstr "rtsp", lstr "rtspu", lstr "sftp", lstr "svn",
   lstr "svn+ssh", lstr "ws", lstr "wss"]

def uses_netloc : List Str :=
  [lstr "", lstr "ftp", lstr "http", lstr "gopher", lstr "nntp", lstr "telnet",
   lstr "imap", lstr "wais", lstr "file", lstr "mms", lstr "https", lstr "shttp",
   lstr "snews", lstr "prospero", lstr "rtsp", lstr "rtspu", lstr "rsync",
   lstr "svn", lstr "svn+ssh", lstr "sftp", lstr "nfs", lstr "git",
   lstr "git+ssh", lstr "ws", lstr "wss", lstr "itms-services"]

def uses_params : List Str :=
  [lstr "", lstr "ftp", lstr "hdl", lstr "prospero", lstr "http", lstr "imap",
   lstr "https", lstr "shttp", lstr "rtsp", lstr "rtspu", lstr "sip",
   lstr "sips", lstr "mms", lstr "sftp", lstr "tel"]

def not_netloc_delim (c : Char) : Bool := c ≠ '/' && c ≠ '?' && c ≠ '#'

/-- CPython `urllib.parse.urlsplit` (3.11), on ASCII input.  The removal of
tab/CR/LF bytes and the `ValueError`s for mismatched or non-IP bracketed
hosts are omitted: candidates are modelled as control-character-free, and
the theorems touching bracketed hosts carry explicit hypotheses on `[`. -/
def split_scheme (url : Str) (default_scheme : Str) : Str × Str :=
  let pc := partition_char url ':'
  let has_scheme :=
    pc.2.1 &&
      (match pc.1 with
       | [] => false
       | c :: restc => is_ascii_alpha c && restc.all (fun ch => scheme_chars.contains ch))
  if has_scheme then (lower pc.1, pc.2.2) else (default_scheme, url)

def split_netloc : Str → Str × Str
  | '/' :: '/' :: r => (r.takeWhile not_netloc_delim, r.dropWhile not_netloc_delim)
  | rest => ([], rest)

def urlsplit (url : Str) (default_scheme : Str := []) : SplitResult :=
  let sr := split_scheme url default_scheme
  let nr := split_netloc sr.2
  let pf := partition_char nr.2 '#'
  let pq := partition_char pf.1 '?'
  ⟨sr.1, nr.1, pq.1, pq.2.2, pf.2.2⟩

/-- CPython `urllib.parse._splitparams`. -/
def splitparams (path : Str) : Str × Str :=
  if path.contains '/' then
    let rp := rpartition_char path '/'
    let pb := partition_char rp.2.2 ';'
    if pb.2.1 then (rp.1 ++ '/' :: pb.1, pb.2.2) else (path, [])
  else
    let pp := partition_char path ';'
    if pp.2.1 then (pp.1, pp.2.2) else (path, [])

/-- CPython `urllib.parse.urlparse`. -/
def urlparse (url : Str) (default_scheme : Str := []) : ParseResult :=
  let s := urlsplit url default_scheme
  let pp :=
    if uses_params.contains s.scheme && s.path.contains ';' then splitparams s.path
    else (s.path, [])
  ⟨s.scheme, s.netloc, pp.1, pp.2, s.query, s.fragment⟩

/-- CPython `urllib.parse.urlunsplit`. -/
def urlunsplit (scheme netloc path query fragment : Str) : Str :=
  let url1 :=
    if netloc ≠ [] || (path ≠ [] && path.take 2 = lstr "//") then
      (lstr "//") ++ netloc ++
        (if path ≠ [] && path.take 1 ≠ lstr "/" then '/' :: path else path)
    else path
  let url2 := if scheme ≠ [] then scheme ++ ':' :: url1 else url1
  let url3 := if query ≠ [] then url2 ++ '?' :: query else url2
  if fragment ≠ [] then url3 ++ '#' :: fragment else url3

/-- CPython `urllib.parse.urlunparse`. -/
def urlunparse (p : ParseResult) : Str :=
  let path := if p.params ≠ [] then p.path ++ ';' :: p.params else p.path
  urlunsplit p.scheme p.netloc path p.query p.fragment

/-- CPython `_NetlocResultMixinStr._hostinfo`: `(hostname, port-string)`. -/
def hostinfo (netloc : Str) : Str × Option Str :=
  let hi := (rpartition_char netloc '@').2.2
  let br := partition_char hi '['
  if br.2.1 then
    let hn := partition_char br.2.2 ']'
    let port := (partition_char hn.2.2 ':').2.2
    (hn.1, if port = [] then none else some port)
  else
    let hp := partition_char hi ':'
    (hp.1, if hp.2.2 = [] then none else some hp.2.2)

/-- CPython `hostname` property; Python's `None` is collapsed to `[]`,
exactly as every call site immediately does via `parsed.hostname or ""`. -/
def hostname (netloc : Str) : Str := lower (hostinfo netloc).1

/-- CPython `port` property: `.ok none` = no port; `.error` models the
`ValueError` raised for an unparsable or out-of-range port. -/
def port (netloc : Str) : Except Unit (Option Nat) :=
  match (hostinfo netloc).2 with
  | none => .ok none
  | some p =>
    match py_int_parse p with
    | none => .error ()
    | some v => if 0 ≤ v ∧ v ≤ 65535 then .ok v.toNat else .error ()

/-- CPython `urllib.parse.urljoin` (3.11). -/
def urljoin (base url : Str) : Str :=
  if base = [] then url
  else if url = [] then base
  else
    let b := urlparse base
    let u := urlparse url b.scheme
    if u.scheme ≠ b.scheme || !(uses_relative.contains u.scheme) then url
    else if uses_netloc.contains u.scheme && u.netloc ≠ [] then
      urlunparse ⟨u.scheme, u.netloc, u.path, u.params, u.query, u.fragment⟩
    else
      let netloc :=
        if uses_netloc.contains u.scheme then b.netloc else u.netloc
      if u.path = [] && u.params = [] then
        let query := if u.query = [] then b.query else u.query
        urlunparse ⟨u.scheme, netloc, b.path, b.params, query, u.fragment⟩
      else
        let base_parts0 := split_char b.path '/'
        let base_parts :=
          if base_parts0.getLast? ≠ some [] then base_parts0.dropLast else base_parts0
        let segments :=
          if u.path.take 1 = lstr "/" then split_char u.path '/'
          else
            match base_parts ++ split_char u.path '/' with
            | [] => []
            | x :: xs =>
              match xs.getLast? with
              | none => [x]
              | some lastSeg => x :: (xs.dropLast.filter (fun s => s ≠ [])) ++ [lastSeg]
        let resolved := segments.foldl
          (fun acc seg =>
            if seg = lstr ".." then acc.dropLast
            else if seg = lstr "." then acc
            else acc ++ [seg]) ([] : List Str)
        let resolved2 :=
          if segments.getLast? = some (lstr ".") || segments.getLast? = some (lstr "..") then
            resolved ++ [[]]
          else resolved
        let joined := join_char '/' resolved2
        let path := if joined = [] then lstr "/" else joined
        urlunparse ⟨u.scheme, netloc, path, u.params, u.query, u.fragment⟩

end UrlLib

namespace Crawler

open PyStr UrlLib

/-- `tldextract.TLDExtract(suffix_list_urls=None)`, an external library with
bundled public-suffix data: modelled as an oracle `host ↦ (domain, suffix)`. -/
abbrev TldExtractor := Str → Str × Str

def LOGIN_PATH_HINTS : List Str :=
  [lstr "login", lstr "signin", lstr "sign-in", lstr "sign_in"]

def LOGOUT_PATH_HINTS : List Str :=
  [lstr "logout", lstr "log-out", lstr "signout", lstr "signout",
   lstr "sign-out", lstr "logoff"]

def REGISTER_PATH_HINTS : List Str :=
  [lstr "register", lstr "signup", lstr "sign-up", lstr "create-account",
   lstr "create_account", lstr "sign-up"]

def SKIP_EXTENSIONS : List Str :=
  [lstr ".png", lstr ".jpg", lstr ".jpeg", lstr ".gif", lstr ".svg",
   lstr ".css", lstr ".js", lstr ".ico", lstr ".pdf", lstr ".zip",
   lstr ".rar", lstr ".7z", lstr ".tar", lstr ".gz", lstr ".mp4",
   lstr ".mp3", lstr ".webm", lstr ".webp"]

def ALLOWED_SCHEMES : List Str := [lstr "http", lstr "https"]

def INFRA_DOMAIN_BLOCKLIST : List Str :=
  [lstr "google.com", lstr "google.ch", lstr "consent.google.com",
   lstr "policies.google.com", lstr "about.google.com", lstr "about.google",
   lstr "youtube.com", lstr "consent.youtube.com", lstr "accounts.google.com",
   lstr "g.co", lstr "goo.gl", lstr "facebook.com", lstr "instagram.com",
   lstr "twitter.com", lstr "x.com"]

def HIGH_VALUE_EXTERNAL_DOMAINS : List Str := []

def AUTH_WALL_REDIRECT_THRESHOLD : Nat := 2

/-- Python `s.endswith(suffixes)` for a single suffix. -/
def ends_with (s suffix_str : Str) : Bool :=
  suffix_str.reverse.isPrefixOf s.reverse

/-- `_extract_host`. -/
def extract_host (url : Str) : Str :=
  lstrip_set (lstr "www.") (lower (hostname (urlparse url).netloc))

/-- `_registrable_domain`. -/
def registrable_domain (tldx : TldExtractor) (url : Str) : Str :=
  let host := extract_host url
  if host = [] then []
  else
    let (dom, suf) := tldx host
    if dom ≠ [] && suf ≠ [] then lower (dom ++ '.' :: suf) else host

/-- `_is_same_site`. -/
def is_same_site (tldx : TldExtractor) (url home_domain : Str) : Bool :=
  if home_domain = [] then false
  else registrable_domain tldx url = home_domain

/-- `_normalize_url`.  The `ValueError` CPython's `parsed.port` can raise is
collapsed to `none`: a raising candidate is never an accepted one. -/
def normalize_url (candidate : Str) : Option Str :=
  if candidate = [] then none
  else
    let parsed := urlparse candidate
    if parsed.scheme = [] || parsed.scheme = lstr "mailto" || parsed.scheme = lstr "tel" then
      none
    else if !(ALLOWED_SCHEMES.contains (lower parsed.scheme)) then none
    else
      let host := lstrip_set (lstr "www.") (lower (hostname parsed.netloc))
      if host = [] then none
      else
        match port parsed.netloc with
        | .error _ => none
        | .ok portv =>
          let portstr :=
            match portv with
            | some p => if p ≠ 0 then ':' :: nat_render p else []
            | none => []
          some (urlunparse
            { parsed with scheme := lower parsed.scheme,
                          netloc := host ++ portstr, fragment := [] })

/-- `_path_and_query`. -/
def path_and_query (url : Str) : Str × Str :=
  let p := urlparse url
  (lower p.path, lower p.query)

/-- `_contains_hint`. -/
def contains_hint (url : Str) (hints : List Str) : Bool :=
  let pq := path_and_query url
  hints.any (fun h => h ≠ [] && (contains_sub pq.1 h || contains_sub pq.2 h))

def looks_like_login (url : Str) : Bool := contains_hint url LOGIN_PATH_HINTS

def looks_like_logout (url : Str) : Bool := contains_hint url LOGOUT_PATH_HINTS

def looks_like_register (url : Str) : Bool := contains_hint url REGISTER_PATH_HINTS

/-- `_is_static_asset`. -/
def is_static_asset (url : Str) : Bool :=
  let l := lower url
  SKIP_EXTENSIONS.any (fun ext => ends_with l ext)

/-- `_is_infra_domain`: membership is tested against the module-level
`INFRA_DOMAIN_BLOCKLIST`. -/
def is_infra_domain (domain home_domain : Str) : Bool :=
  domain ≠ [] && domain ≠ home_domain && INFRA_DOMAIN_BLOCKLIST.contains domain

/-- Python truthiness of an optional set argument (`if blocked_domains and …`). -/
def opt_truthy (o : Option (List Str)) : Bool :=
  match o with
  | none => false
  | some l => l ≠ []

def opt_member (o : Option (List Str)) (x : Str) : Bool :=
  match o with
  | none => false
  | some l => l.contains x

/-- The per-anchor pipeline of `extract_links` (the body of its `for` loop);
`acc` is the `(candidates, seen)` pair. -/
def link_step (tldx : TldExtractor) (base_url home_domain : Str)
    (allow_external avoid_auth_links : Bool) (allowlist : List Str)
    (infra_blocklist blocked_domains : Option (List Str))
    (acc : List Str × List Str) (href : Str) : List Str × List Str :=
  let absolute := urljoin base_url href
  match normalize_url absolute with
  | none => acc
  | some normalized =>
    if acc.2.contains normalized then acc
    else
      let domain := registrable_domain tldx normalized
      if opt_truthy blocked_domains && opt_member blocked_domains domain then acc
      else if opt_truthy infra_blocklist && is_infra_domain domain home_domain then acc
      else if is_static_asset normalized then acc
      else if looks_like_logout normalized then acc
      else if avoid_auth_links &&
          (looks_like_login normalized || looks_like_register normalized) then acc
      else
        let same_site := is_same_site tldx normalized home_domain
        if !same_site && !allow_external then acc
        else if !same_site && !(allowlist.contains domain) then acc
        else (acc.1 ++ [normalized], normalized :: acc.2)

/-- `extract_links`.  The live page is external: `raw_links` is the list of
anchor `href`s the browser reports (`none` models the `PlaywrightError`
branch, which returns `[]`). -/
def extract_links (tldx : TldExtractor) (raw_links : Option (List Str))
    (base_url home_domain : Str) (allow_external : Bool)
    (avoid_auth_links : Bool) (external_allowlist : Option (List Str))
    (infra_blocklist : Option (List Str)) (blocked_domains : Option (List Str)) :
    List Str :=
  match raw_links with
  | none => []
  | some links =>
    let allowlist := external_allowlist.getD HIGH_VALUE_EXTERNAL_DOMAINS
    (links.foldl
      (link_step tldx base_url home_domain allow_external avoid_auth_links
        allowlist infra_blocklist blocked_domains) ([], [])).1

/-- `PageRecord`. -/
structure PageRecord where
  url : Str
  original_url : Str
  status_code : Option Int
  content_path : Option Str
  screenshot_path : Option Str
  depth : Nat
  error : Option Str
deriving Repr, DecidableEq

/-- Outcome of one `archive_page` call's two capture attempts; `some e`
is the text of the `PlaywrightError` raised by that half. -/
structure CaptureOutcome where
  html_err : Option Str
  shot_err : Option Str
deriving Repr, DecidableEq

/-- `archive_page`; `run_pref` stands for the run directory's
relative-artifact prefix produced by `RunPaths`/`relative_artifact_path`. -/
def archive_page (run_pref : Str) (cap : CaptureOutcome) (counter : Nat)
    (original_url final_url : Str) (depth : Nat) (status_code : Option Int) :
    PageRecord :=
  let base := zero_pad2 counter ++ lstr "_page"
  let html_path :=
    match cap.html_err with
    | none => some (run_pref ++ base ++ lstr ".html")
    | some _ => none
  let err1 :=
    match cap.html_err with
    | none => (none : Option Str)
    | some e => some (lstr "html_capture_failed: " ++ e)
  let shot_path :=
    match cap.shot_err with
    | none => some (run_pref ++ base ++ lstr ".png")
    | some _ => none
  let err2 :=
    match cap.shot_err with
    | none => err1
    | some e => if err1 = none then some (lstr "screenshot_failed: " ++ e) else err1
  ⟨final_url, original_url, status_code, html_path, shot_path, depth, err2⟩

/-- Result of one `safe_goto` navigation: a raised
`PlaywrightTimeoutError`/`PlaywrightError`/other exception (all three are
recorded identically), or success with the landed `page.url` and the
response status. -/
inductive NavOutcome where
  | fail (err : Str)
  | ok (page_url : Str) (status : Option Int)
deriving Repr, DecidableEq

/-- The external world `run_mapping` interacts with: browser session,
authentication collaborator, `tldextract` data, artifact paths. -/
structure CrawlEnv where
  tldx : TldExtractor
  /-- A run-fatal exception raised before the crawl loop (session setup,
  entry `goto`, or an exception escaping `perform_login`). -/
  pre_loop_exn : Option Str
  login_success : Bool
  login_status : Str
  login_notes : List Str
  /-- `page.url` after the login attempt. -/
  post_login_url : Str
  /-- `safe_goto` outcome, keyed by the normalized target being navigated. -/
  nav : Str → NavOutcome
  /-- capture outcome for the `archive_page` call with this counter. -/
  capture : Nat → CaptureOutcome
  /-- anchor `href`s of the page reached by navigating this normalized
  target (`none` = the anchor enumeration raised). -/
  raw_links : Str → Option (List Str)
  run_pref : Str
  run_id : Str

/-- `MappingInputs` (the fields the loop reads). -/
structure MappingInputs where
  start_url : Str
  max_pages : Nat
  max_depth : Nat
  same_origin_only : Bool
  allow_external : Bool

structure MappingResult where
  run_id : Str
  start_url : Str
  pages : List PageRecord
  status : Str
  notes : Str
deriving Repr, DecidableEq

/-- The crawl loop's mutable state. -/
structure CrawlState where
  sameQ : List (Str × Nat)
  extQ : List (Str × Nat)
  seen : List Str
  blocked : List Str
  counts : List (Str × Nat)
  records : List PageRecord
  counter : Nat
deriving Repr, DecidableEq

/-- `login_redirect_counts[k]` (a `defaultdict(int)`). -/
def lookup_count (counts : List (Str × Nat)) (k : Str) : Nat :=
  (counts.lookup k).getD 0

def set_count (counts : List (Str × Nat)) (k : Str) (v : Nat) : List (Str × Nat) :=
  match counts.lookup k with
  | some _ => counts.map (fun p => if p.1 = k then (k, v) else p)
  | none => counts ++ [(k, v)]

/-- Enqueueing of a single surviving link (the body of `for link in links`). -/
def enqueue_one (tldx : TldExtractor) (max_depth : Nat) (home_domain : Str)
    (depth : Nat) (st : CrawlState) (link : Str) : CrawlState :=
  if st.seen.contains link then st
  else if st.blocked.contains (registrable_domain tldx link) then st
  else if depth + 1 > max_depth then st
  else if is_same_site tldx link home_domain then
    { st with sameQ := st.sameQ ++ [(link, depth + 1)] }
  else
    { st with extQ := st.extQ ++ [(link, depth + 1)] }

/-- Enqueueing of surviving links (`for link in links: …`). -/
def enqueue_links (tldx : TldExtractor) (max_depth : Nat) (home_domain : Str)
    (st : CrawlState) (links : List Str) (depth : Nat) : CrawlState :=
  links.foldl (enqueue_one tldx max_depth home_domain depth) st

/-- The auth-wall sentinel block (`if _looks_like_login(final_url): …`):
returns the updated `(login_redirect_counts, blocked_auth_domains,
skip_link_expansion)` triple. -/
def auth_wall_update (home_domain : Str) (counts : List (Str × Nat))
    (blocked : List Str) (final_url final_domain : Str) :
    List (Str × Nat) × List Str × Bool :=
  if looks_like_login final_url then
    let rc := lookup_count counts final_domain + 1
    let counts2 := set_count counts final_domain rc
    if final_domain ≠ [] ∧ final_domain ≠ home_domain ∧
        rc ≥ AUTH_WALL_REDIRECT_THRESHOLD then
      (counts2, final_domain :: blocked, true)
    else (counts2, blocked, false)
  else if blocked.contains final_domain then
    (counts, blocked, true)
  else (counts, blocked, false)

/-- The successful-navigation tail of the loop body: sentinel check,
archiving, and conditional link expansion.  `st1` already carries the
target in `seen`. -/
def process_nav_ok (env : CrawlEnv) (inputs : MappingInputs)
    (allow_external : Bool) (home_domain : Str) (st1 : CrawlState)
    (target : Str) (depth : Nat) (normalized page_url : Str)
    (status : Option Int) : CrawlState :=
  let final_url := (normalize_url page_url).getD page_url
  let final_domain := registrable_domain env.tldx final_url
  let sentinel := auth_wall_update home_domain st1.counts st1.blocked
    final_url final_domain
  let record := archive_page env.run_pref (env.capture st1.counter)
    st1.counter target final_url depth status
  let st2 := { st1 with
    counts := sentinel.1,
    blocked := sentinel.2.1,
    records := st1.records ++ [record],
    counter := st1.counter + 1 }
  if depth ≥ inputs.max_depth || sentinel.2.2 then st2
  else
    let links := extract_links env.tldx (env.raw_links normalized)
      final_url home_domain allow_external true
      (some HIGH_VALUE_EXTERNAL_DOMAINS) (some INFRA_DOMAIN_BLOCKLIST)
      (some st2.blocked)
    enqueue_links env.tldx inputs.max_depth home_domain st2 links depth

/-- One dequeued target's processing (the body of the `while` loop after
the dequeue), starting from the state with the target already popped. -/
def process_target (env : CrawlEnv) (inputs : MappingInputs)
    (allow_external : Bool) (home_domain : Str) (st : CrawlState)
    (target : Str) (depth : Nat) : CrawlState :=
  match normalize_url target with
  | none => st
  | some normalized =>
    if st.seen.contains normalized then st
    else
      let domain := registrable_domain env.tldx normalized
      if is_infra_domain domain home_domain then
        { st with seen := normalized :: st.seen }
      else if st.blocked.contains domain then
        { st with seen := normalized :: st.seen }
      else
        let st1 := { st with seen := normalized :: st.seen }
        match env.nav normalized with
        | .fail err =>
          { st1 with records :=
              st1.records ++ [⟨normalized, target, none, none, none, depth, some err⟩] }
        | .ok page_url status =>
          process_nav_ok env inputs allow_external home_domain st1 target depth
            normalized page_url status

/-- One iteration of the `while` loop: dequeue (same-site queue first,
external queue second) and process. -/
def crawl_step (env : CrawlEnv) (inputs : MappingInputs)
    (allow_external : Bool) (home_domain : Str) (st : CrawlState) : CrawlState :=
  match st.sameQ, st.extQ with
  | [], [] => st
  | (t, d) :: rest, _ =>
    process_target env inputs allow_external home_domain { st with sameQ := rest } t d
  | [], (t, d) :: rest =>
    process_target env inputs allow_external home_domain { st with extQ := rest } t d

theorem enqueue_one_fields (tldx : TldExtractor) (md : Nat) (home : Str)
    (depth : Nat) (st : CrawlState) (link : Str) :
    (enqueue_one tldx md home depth st link).records = st.records ∧
    (enqueue_one tldx md home depth st link).seen = st.seen ∧
    (enqueue_one tldx md home depth st link).blocked = st.blocked ∧
    (enqueue_one tldx md home depth st link).counts = st.counts ∧
    (enqueue_one tldx md home depth st link).counter = st.counter := by
  unfold enqueue_one
  split
  · exact ⟨rfl, rfl, rfl, rfl, rfl⟩
  · split
    · exact ⟨rfl, rfl, rfl, rfl, rfl⟩
    · split
      · exact ⟨rfl, rfl, rfl, rfl, rfl⟩
      · split
        · exact ⟨rfl, rfl, rfl, rfl, rfl⟩
        · exact ⟨rfl, rfl, rfl, rfl, rfl⟩

theorem enqueue_links_fields (tldx : TldExtractor) (md : Nat) (home : Str)
    (links : List Str) (depth : Nat) : ∀ st : CrawlState,
    (enqueue_links tldx md home st links depth).records = st.records ∧
    (enqueue_links tldx md home st links depth).seen = st.seen ∧
    (enqueue_links tldx md home st links depth).blocked = st.blocked ∧
    (enqueue_links tldx md home st links depth).counts = st.counts ∧
    (enqueue_links tldx md home st links depth).counter = st.counter := by
  induction links with
  | nil => intro st; exact ⟨rfl, rfl, rfl, rfl, rfl⟩
  | cons l ls ih =>
    intro st
    have h1 := enqueue_one_fields tldx md home depth st l
    have h2 := ih (enqueue_one tldx md home depth st l)
    simp only [enqueue_links, List.foldl_cons] at h2 ⊢
    exact ⟨h2.1.trans h1.1, h2.2.1.trans h1.2.1, h2.2.2.1.trans h1.2.2.1,
      h2.2.2.2.1.trans h1.2.2.2.1, h2.2.2.2.2.trans h1.2.2.2.2⟩


theorem process_nav_ok_records_len (env : CrawlEnv) (inputs : MappingInputs)
    (ae : Bool) (home : Str) (st1 : CrawlState) (target : Str) (depth : Nat)
    (normalized page_url : Str) (status : Option Int) :
    (process_nav_ok env inputs ae home st1 target depth normalized page_url
      status).records.length = st1.records.length + 1 := by
  simp only [process_nav_ok]
  split
  · simp
  · rw [((enqueue_links_fields env.tldx inputs.max_depth home _ depth) _).1]
    simp

theorem process_target_eq_none (env : CrawlEnv) (inputs : MappingInputs)
    (ae : Bool) (home : Str) (st : CrawlState) (t : Str) (d : Nat)
    (hn : normalize_url t = none) :
    process_target env inputs ae home st t d = st := by
  simp [process_target, hn]

theorem process_target_eq_seen (env : CrawlEnv) (inputs : MappingInputs)
    (ae : Bool) (home : Str) (st : CrawlState) (t : Str) (d : Nat) (n : Str)
    (hn : normalize_url t = some n) (hs : n ∈ st.seen) :
    process_target env inputs ae home st t d = st := by
  simp [process_target, hn, hs]

theorem process_target_eq_infra (env : CrawlEnv) (inputs : MappingInputs)
    (ae : Bool) (home : Str) (st : CrawlState) (t : Str) (d : Nat) (n : Str)
    (hn : normalize_url t = some n) (hs : n ∉ st.seen)
    (hi : is_infra_domain (registrable_domain env.tldx n) home = true) :
    process_target env inputs ae home st t d = { st with seen := n :: st.seen } := by
  simp [process_target, hn, hs, hi]

theorem process_target_eq_blocked (env : CrawlEnv) (inputs : MappingInputs)
    (ae : Bool) (home : Str) (st : CrawlState) (t : Str) (d : Nat) (n : Str)
    (hn : normalize_url t = some n) (hs : n ∉ st.seen)
    (hi : ¬ is_infra_domain (registrable_domain env.tldx n) home = true)
    (hb : registrable_domain env.tldx n ∈ st.blocked) :
    process_target env inputs ae home st t d = { st with seen := n :: st.seen } := by
  simp [process_target, hn, hs, hi, hb]

theorem process_target_eq_navfail (env : CrawlEnv) (inputs : MappingInputs)
    (ae : Bool) (home : Str) (st : CrawlState) (t : Str) (d : Nat) (n err : Str)
    (hn : normalize_url t = some n) (hs : n ∉ st.seen)
    (hi : ¬ is_infra_domain (registrable_domain env.tldx n) home = true)
    (hb : registrable_domain env.tldx n ∉ st.blocked)
    (hnav : env.nav n = NavOutcome.fail err) :
    process_target env inputs ae home st t d =
      { st with seen := n :: st.seen,
                records := st.records ++ [⟨n, t, none, none, none, d, some err⟩] } := by
  simp [process_target, hn, hs, hi, hb, hnav]

theorem process_target_eq_navok (env : CrawlEnv) (inputs : MappingInputs)
    (ae : Bool) (home : Str) (st : CrawlState) (t : Str) (d : Nat) (n purl : Str)
    (pstat : Option Int)
    (hn : normalize_url t = some n) (hs : n ∉ st.seen)
    (hi : ¬ is_infra_domain (registrable_domain env.tldx n) home = true)
    (hb : registrable_domain env.tldx n ∉ st.blocked)
    (hnav : env.nav n = NavOutcome.ok purl pstat) :
    process_target env inputs ae home st t d =
      process_nav_ok env inputs ae home { st with seen := n :: st.seen } t d
        n purl pstat := by
  simp [process_target, hn, hs, hi, hb, hnav]

theorem process_target_measure (env : CrawlEnv) (inputs : MappingInputs)
    (ae : Bool) (home : Str) (st : CrawlState) (t : Str) (d : Nat) :
    ((process_target env inputs ae home st t d).records = st.records ∧
     (process_target env inputs ae home st t d).sameQ = st.sameQ ∧
     (process_target env inputs ae home st t d).extQ = st.extQ) ∨
    (process_target env inputs ae home st t d).records.length =
      st.records.length + 1 := by
  rcases hn : normalize_url t with _ | n
  · rw [process_target_eq_none env inputs ae home st t d hn]
    exact Or.inl ⟨rfl, rfl, rfl⟩
  · by_cases hs : n ∈ st.seen
    · rw [process_target_eq_seen env inputs ae home st t d n hn hs]
      exact Or.inl ⟨rfl, rfl, rfl⟩
    · by_cases hi : is_infra_domain (registrable_domain env.tldx n) home = true
      · rw [process_target_eq_infra env inputs ae home st t d n hn hs hi]
        exact Or.inl ⟨rfl, rfl, rfl⟩
      · by_cases hb : registrable_domain env.tldx n ∈ st.blocked
        · rw [process_target_eq_blocked env inputs ae home st t d n hn hs hi hb]
          exact Or.inl ⟨rfl, rfl, rfl⟩
        · rcases hnav : env.nav n with err | ⟨purl, pstat⟩
          · rw [process_target_eq_navfail env inputs ae home st t d n err hn hs hi hb hnav]
            right; simp
          · rw [process_target_eq_navok env inputs ae home st t d n purl pstat hn hs hi hb hnav]
            right
            exact process_nav_ok_records_len env inputs ae home _ t d n purl pstat

theorem crawl_step_measure (env : CrawlEnv) (inputs : MappingInputs)
    (ae : Bool) (home : Str) (st : CrawlState)
    (hq : st.sameQ ≠ [] ∨ st.extQ ≠ []) :
    ((crawl_step env inputs ae home st).records.length = st.records.length ∧
     (crawl_step env inputs ae home st).sameQ.length +
       (crawl_step env inputs ae home st).extQ.length + 1 =
         st.sameQ.length + st.extQ.length) ∨
    (crawl_step env inputs ae home st).records.length =
      st.records.length + 1 := by
  obtain ⟨sq, exq, seen, blocked, counts, records, counter⟩ := st
  cases sq with
  | nil =>
    cases exq with
    | nil => simp at hq
    | cons hd tl =>
      obtain ⟨t, d⟩ := hd
      have hm := process_target_measure env inputs ae home
        ⟨[], tl, seen, blocked, counts, records, counter⟩ t d
      rcases hm with ⟨hr, hs, he⟩ | hr
      · left
        refine ⟨congrArg List.length hr, ?_⟩
        show (process_target env inputs ae home
            ⟨[], tl, seen, blocked, counts, records, counter⟩ t d).sameQ.length +
          (process_target env inputs ae home
            ⟨[], tl, seen, blocked, counts, records, counter⟩ t d).extQ.length + 1 =
          ([] : List (Str × Nat)).length + ((t, d) :: tl).length
        rw [hs, he]
        simp
      · exact Or.inr hr
  | cons hd tl =>
    obtain ⟨t, d⟩ := hd
    have hm := process_target_measure env inputs ae home
      ⟨tl, exq, seen, blocked, counts, records, counter⟩ t d
    rcases hm with ⟨hr, hs, he⟩ | hr
    · left
      refine ⟨congrArg List.length hr, ?_⟩
      show (process_target env inputs ae home
          ⟨tl, exq, seen, blocked, counts, records, counter⟩ t d).sameQ.length +
        (process_target env inputs ae home
          ⟨tl, exq, seen, blocked, counts, records, counter⟩ t d).extQ.length + 1 =
        ((t, d) :: tl).length + exq.length
      rw [hs, he]
      simp only [List.length_cons, List.length_nil]
      omega
    · exact Or.inr hr

/-- The `while (same_site_queue or external_queue) and len(page_records) <
max_pages` loop of `run_mapping`. -/
def crawl_loop (env : CrawlEnv) (inputs : MappingInputs) (allow_external : Bool)
    (home_domain : Str) (st : CrawlState) : CrawlState :=
  if h : (st.sameQ ≠ [] ∨ st.extQ ≠ []) ∧ st.records.length < inputs.max_pages then
    crawl_loop env inputs allow_external home_domain
      (crawl_step env inputs allow_external home_domain st)
  else st
termination_by (inputs.max_pages - st.records.length, st.sameQ.length + st.extQ.length)
decreasing_by
  rcases crawl_step_measure env inputs allow_external home_domain st h.1 with
    ⟨hrec, hql⟩ | hrec
  · rw [hrec]
    exact Prod.Lex.right _ (by omega)
  · apply Prod.Lex.left
    have := h.2
    omega

/-- The loop's initial state (`same_site_queue.append((start_url, 0))`,
`page_counter = 1`). -/
def init_state (start_url : Str) : CrawlState :=
  { sameQ := [(start_url, 0)], extQ := [], seen := [], blocked := [],
    counts := [], records := [], counter := 1 }

/-- `run_mapping`.  Per-target navigation failures are data (`NavOutcome`);
`pre_loop_exn` is a run-fatal exception raised before the crawl loop starts
(session setup, the entry `goto`, or one escaping `perform_login`), which the
outer `except` converts into an error result. -/
def run_mapping (env : CrawlEnv) (inputs : MappingInputs) : MappingResult :=
  let start_url0 := (normalize_url inputs.start_url).getD inputs.start_url
  let allow_external := inputs.allow_external || !inputs.same_origin_only
  match env.pre_loop_exn with
  | some exc =>
    { run_id := env.run_id, start_url := start_url0, pages := [],
      status := lstr "error", notes := exc }
  | none =>
    let start_url := (normalize_url env.post_login_url).getD env.post_login_url
    let home_domain := registrable_domain env.tldx start_url
    if !env.login_success then
      { run_id := env.run_id, start_url := start_url, pages := [],
        status := env.login_status,
        notes := join_str (lstr " | ") env.login_notes }
    else
      let final := crawl_loop env inputs allow_external home_domain
        (init_state start_url)
      if final.records = [] then
        { run_id := env.run_id, start_url := start_url, pages := [],
          status := lstr "error",
          notes := lstr "No pages were archived during mapping." }
      else if final.records.length ≥ inputs.max_pages then
        { run_id := env.run_id, start_url := start_url, pages := final.records,
          status := lstr "partial", notes := lstr "Reached page crawl limit." }
      else
        { run_id := env.run_id, start_url := start_url, pages := final.records,
          status := lstr "complete", notes := lstr "" }

end Crawler

namespace Extractor

open PyStr UrlLib

/-- `ExtractedData`. -/
structure ExtractedData where
  type : Str
  value : Str
  context : Str
deriving Repr, DecidableEq

/-- ASCII model of the regex `\w` used by `\b` boundaries. -/
def word_char (c : Char) : Bool := is_ascii_alnum c || c = '_'

/-- `[A-HJ-NP-Za-km-z1-9]` (BTC legacy base58 charset). -/
def base58_legacy_char (c : Char) : Bool :=
  ('A' ≤ c && c ≤ 'H') || ('J' ≤ c && c ≤ 'N') || ('P' ≤ c && c ≤ 'Z') ||
  ('a' ≤ c && c ≤ 'k') || ('m' ≤ c && c ≤ 'z') || ('1' ≤ c && c ≤ '9')

/-- `[qpzry9x8gf2tvdw0s3jn54khce6mua7l]` under `re.IGNORECASE`. -/
def bech32_char_ci (c : Char) : Bool :=
  (lstr "qpzry9x8gf2tvdw0s3jn54khce6mua7l").contains (to_lower_char c)

/-- `[a-fA-F0-9]`. -/
def hex_char (c : Char) : Bool :=
  is_ascii_digit c || ('a' ≤ c && c ≤ 'f') || ('A' ≤ c && c ≤ 'F')

/-- `[1-9A-HJ-NP-Za-km-z]` (TRON base58 charset). -/
def tron_char (c : Char) : Bool :=
  ('1' ≤ c && c ≤ '9') || ('A' ≤ c && c ≤ 'H') || ('J' ≤ c && c ≤ 'N') ||
  ('P' ≤ c && c ≤ 'Z') || ('a' ≤ c && c ≤ 'k') || ('m' ≤ c && c ≤ 'z')

/-- `[A-Z0-9]` (IBAN body). -/
def iban_body_char (c : Char) : Bool := is_ascii_upper c || is_ascii_digit c

/-- `[A-Za-z0-9 ,.'&()-]` (beneficiary/bank free-text span). -/
def name_class_char (c : Char) : Bool :=
  is_ascii_alnum c || c = ' ' || c = ',' || c = '.' || c = '\'' || c = '&' ||
  c = '(' || c = ')' || c = '-'

/-- A compiled pattern of shape `\b h₁h₂… body{lo,hi} \b` (all the crypto and
IBAN patterns have this shape; every character either pattern can consume is
a `\w` character, so the leading `\b` reduces to "previous char not `\w`"). -/
structure TailPat where
  heads : List (Char → Bool)
  body : Char → Bool
  lo : Nat
  hi : Nat

def match_heads : List (Char → Bool) → Str → Option Str
  | [], s => some s
  | p :: ps, c :: s => if p c then match_heads ps s else none
  | _ :: _, [] => none

/-- Is there a `\b` after `k` body characters (next char absent or non-word)? -/
def boundary_after (rest : Str) (k : Nat) : Bool :=
  match rest.drop k with
  | [] => true
  | c :: _ => !word_char c

/-- Greedy `{lo,…}` backtracking: the largest `k ≤ kmax` with `lo ≤ k` and a
word boundary after position `k`. -/
def greedy_k (rest : Str) (lo : Nat) : Nat → Option Nat
  | 0 => if lo = 0 && boundary_after rest 0 then some 0 else none
  | k + 1 =>
    if k + 1 < lo then none
    else if boundary_after rest (k + 1) then some (k + 1)
    else greedy_k rest lo k

/-- Match `p` at the start of `s`: total matched length, or `none`. -/
def match_tail_at (p : TailPat) (s : Str) : Option Nat :=
  match match_heads p.heads s with
  | none => none
  | some rest =>
    let run := (rest.takeWhile p.body).length
    (greedy_k rest p.lo (min run p.hi)).map (fun k => p.heads.length + k)

/-- `pattern.finditer`: leftmost, non-overlapping `(start, stop)` spans.
`prev_word` tracks whether the previous character was a `\w` character
(the state the leading `\b` consults); `fuel ≥ s.length` suffices, since
every step consumes at least one character. -/
def find_iter_go (p : TailPat) : Nat → Str → Nat → Bool → List (Nat × Nat)
  | 0, _, _, _ => []
  | _, [], _, _ => []
  | fuel + 1, c :: rest, pos, prev_word =>
    if !prev_word then
      match match_tail_at p (c :: rest) with
      | some len =>
        (pos, pos + len) :: find_iter_go p fuel (rest.drop (len - 1)) (pos + len) true
      | none => find_iter_go p fuel rest (pos + 1) (word_char c)
    else find_iter_go p fuel rest (pos + 1) (word_char c)

def find_iter (p : TailPat) (s : Str) : List (Nat × Nat) :=
  find_iter_go p s.length s 0 false

/-- Spans together with the matched substrings. -/
def pat_matches (p : TailPat) (s : Str) : List (Nat × Nat × Str) :=
  (find_iter p s).map (fun se => (se.1, se.2, (s.drop se.1).take (se.2 - se.1)))

/-- `BTC_LEGACY_PATTERN = \b[13][A-HJ-NP-Za-km-z1-9]{25,34}\b`. -/
def BTC_LEGACY_PAT : TailPat :=
  ⟨[fun c => c = '1' || c = '3'], base58_legacy_char, 25, 34⟩

/-- `BTC_BECH32_PATTERN = \bbc1[…]{11,71}\b` with `re.IGNORECASE`. -/
def BTC_BECH32_PAT : TailPat :=
  ⟨[fun c => c = 'b' || c = 'B', fun c => c = 'c' || c = 'C', fun c => c = '1'],
   bech32_char_ci, 11, 71⟩

/-- `ETH_PATTERN = \b0x[a-fA-F0-9]{40}\b`. -/
def ETH_PAT : TailPat := ⟨[fun c => c = '0', fun c => c = 'x'], hex_char, 40, 40⟩

/-- `TRON_PATTERN = \bT[1-9A-HJ-NP-Za-km-z]{33}\b`. -/
def TRON_PAT : TailPat := ⟨[fun c => c = 'T'], tron_char, 33, 33⟩

/-- `IBAN_PATTERN = \b[A-Z]{2}[0-9]{2}[A-Z0-9]{10,30}\b`. -/
def IBAN_PAT : TailPat :=
  ⟨[is_ascii_upper, is_ascii_upper, is_ascii_digit, is_ascii_digit],
   iban_body_char, 10, 30⟩

/-- `_is_bech32_case_valid`. -/
def is_bech32_case_valid (value : Str) : Bool :=
  !(value.any is_ascii_lower && value.any is_ascii_upper)

/-- One crypto match of `_iter_crypto_matches`: `(type, value, start, stop)`. -/
structure CMatch where
  ty : Str
  value : Str
  ms : Nat
  me : Nat
deriving Repr, DecidableEq

/-- `_iter_crypto_matches`. -/
def iter_crypto_matches (text : Str) : List CMatch :=
  if text = [] then []
  else
    ((pat_matches BTC_LEGACY_PAT text).map
      (fun m => CMatch.mk (lstr "BTC") m.2.2 m.1 m.2.1)) ++
    (((pat_matches BTC_BECH32_PAT text).filter
      (fun m => is_bech32_case_valid m.2.2)).map
      (fun m => CMatch.mk (lstr "BTC") m.2.2 m.1 m.2.1)) ++
    ((pat_matches ETH_PAT text).map
      (fun m => CMatch.mk (lstr "ETH") m.2.2 m.1 m.2.1)) ++
    ((pat_matches TRON_PAT text).map
      (fun m => CMatch.mk (lstr "TRON") m.2.2 m.1 m.2.1))

/-- Case-insensitive literal match (a label under `re.IGNORECASE`);
returns the remainder on success. -/
def match_lit_ci : Str → Str → Option Str
  | [], s => some s
  | l :: ls, c :: s => if to_lower_char c = to_lower_char l then match_lit_ci ls s else none
  | _ :: _, [] => none

/-- Backtracking of the second `\s*` against the capture group
`([A-Za-z0-9 ,.'&()-]{3,120})`: try lending `j = m, m-1, …, 0` whitespace
characters to the gap, group = run of class characters clipped to 120,
succeed when its length is ≥ 3.  Returns `(gap, group length)`. -/
def backtrack_group (rest : Str) : Nat → Option (Nat × Nat)
  | 0 =>
    let r := (rest.takeWhile name_class_char).length
    let k := min r 120
    if k ≥ 3 then some (0, k) else none
  | j + 1 =>
    let r := ((rest.drop (j + 1)).takeWhile name_class_char).length
    let k := min r 120
    if k ≥ 3 then some (j + 1, k) else backtrack_group rest j

/-- `\s*[:\-]\s*(CLASS{3,120})` after a matched label: `(group offset,
group length)` measured from the start of `s`. -/
def match_sep_and_group (s : Str) : Option (Nat × Nat) :=
  let w1 := (s.takeWhile is_space_char).length
  match s.drop w1 with
  | c :: rest =>
    if c = ':' || c = '-' then
      let m := (rest.takeWhile is_space_char).length
      (backtrack_group rest m).map (fun jk => (w1 + 1 + jk.1, jk.2))
    else none
  | [] => none

/-- The ordered label alternatives of a label-anchored pattern, tried
left to right at one position (regex alternation order). -/
def label_match_at (labels : List Str) (s : Str) : Option (Nat × Nat) :=
  match labels with
  | [] => none
  | l :: ls =>
    match match_lit_ci l s with
    | some rest =>
      match match_sep_and_group rest with
      | some gk => some (l.length + gk.1, gk.2)
      | none => label_match_at ls s
    | none => label_match_at ls s

/-- `finditer` for a label-anchored pattern: `(group start, group stop,
group value)`, leftmost and non-overlapping (the group is the final pattern
element, so the match ends at the group's end); `fuel ≥ s.length`
suffices. -/
def label_iter_go (labels : List Str) : Nat → Str → Nat → List (Nat × Nat × Str)
  | 0, _, _ => []
  | _, [], _ => []
  | fuel + 1, c :: rest, pos =>
    match label_match_at labels (c :: rest) with
    | some (off, k) =>
      (pos + off, pos + off + k, ((c :: rest).drop off).take k) ::
        label_iter_go labels fuel (rest.drop (off + k - 1)) (pos + off + k)
    | none => label_iter_go labels fuel rest (pos + 1)

/-- The alternation order of `BENEFICIARY_PATTERN`
(`Beneficiary(?: Name)?` tries the optional ` Name` first). -/
def BEN_LABELS : List Str :=
  [lstr "Beneficiary Name", lstr "Beneficiary", lstr "Account Name",
   lstr "Recipient", lstr "Payee"]

/-- The alternation order of `BANK_PATTERN`. -/
def BANK_LABELS : List Str :=
  [lstr "Bank Name", lstr "Bank", lstr "Beneficiary Bank"]

def beneficiary_matches (s : Str) : List (Nat × Nat × Str) :=
  label_iter_go BEN_LABELS s.length s 0

def bank_matches (s : Str) : List (Nat × Nat × Str) :=
  label_iter_go BANK_LABELS s.length s 0

def iban_matches (s : Str) : List (Nat × Nat × Str) := pat_matches IBAN_PAT s

def find_ci (hay needle : Str) : Option Nat := find_sub (lower hay) (lower needle)

theorem find_sub_nil_none (needle : Str) (h : needle ≠ []) :
    find_sub [] needle = none := by
  cases needle with
  | nil => exact absurd rfl h
  | cons a l => simp [find_sub, List.isPrefixOf]

/-- One step of the lazy-block substitution: find the leftmost
case-insensitive `opener`, then the nearest following `closer`, collapse the
span to one space, continue after it.  `fuel ≥ s.length` suffices. -/
def sub_block_go (opener closer : Str) : Nat → Str → Str
  | 0, s => s
  | fuel + 1, s =>
    match find_ci s opener with
    | none => s
    | some i =>
      match find_ci (s.drop (i + opener.length)) closer with
      | none => s
      | some j =>
        s.take i ++ ' ' ::
          sub_block_go opener closer fuel
            ((s.drop (i + opener.length)).drop (j + closer.length))

/-- `re.sub(opener + lazy-anything + closer, " ", s, flags=IGNORECASE)` for
literal opener/closer (the `<script…</script>` and `<style…</style>` subs):
each leftmost opener paired with the nearest following closer collapses to
one space. -/
def sub_block (opener closer : Str) (s : Str) : Str :=
  sub_block_go opener closer s.length s

/-- `re.sub(r"<[^>]+>", " ", s)` (`fuel ≥ s.length` suffices). -/
def sub_tags_go : Nat → Str → Str
  | 0, s => s
  | _, [] => []
  | fuel + 1, '<' :: rest =>
    let inner := rest.takeWhile (· ≠ '>')
    if inner ≠ [] && rest.drop inner.length ≠ [] then
      ' ' :: sub_tags_go fuel (rest.drop (inner.length + 1))
    else '<' :: sub_tags_go fuel rest
  | fuel + 1, c :: rest => c :: sub_tags_go fuel rest

def sub_tags (s : Str) : Str := sub_tags_go s.length s

/-- `re.sub(r"\s+", " ", s)`: each maximal whitespace run becomes one
space. -/
def collapse_ws : Str → Str
  | [] => []
  | [c] => if is_space_char c then [' '] else [c]
  | c :: c2 :: rest =>
    if is_space_char c then
      if is_space_char c2 then collapse_ws (c2 :: rest)
      else ' ' :: collapse_ws (c2 :: rest)
    else c :: collapse_ws (c2 :: rest)

/-- `strip_html`.  `html.unescape` (the stdlib html5 entity table) is the
`unesc` oracle parameter. -/
def strip_html (unesc : Str → Str) (raw_html : Str) : Str :=
  let t1 := sub_block (lstr "<script") (lstr "</script>") raw_html
  let t2 := sub_block (lstr "<style") (lstr "</style>") t1
  let t3 := sub_tags t2
  let t4 := unesc t3
  strip (collapse_ws t4)

/-- `context_snippet`. -/
def context_snippet (text : Str) (ms me radius : Nat) : Str :=
  strip ((text.drop (ms - radius)).take (min text.length (me + radius) - (ms - radius)))

/-- `_collect(pattern, text, type)`: `matches` carries the span and raw text
of the group `_collect` reads (group 1 for the label patterns, group 0 for
IBAN). -/
def collect (found_spans : List (Nat × Nat × Str)) (text : Str)
    (indicator_type : Str) : List ExtractedData :=
  found_spans.map (fun m =>
    ⟨indicator_type, strip m.2.2, context_snippet text m.1 m.2.1 80⟩)

/-- The body of `_deduplicate`'s loop; `acc` is `(seen, unique)`. -/
def dedup_step (acc : List (Str × Str) × List ExtractedData)
    (ind : ExtractedData) : List (Str × Str) × List ExtractedData :=
  if acc.1.contains (ind.type, ind.value) || ind.value = [] then acc
  else ((ind.type, ind.value) :: acc.1, acc.2 ++ [ind])

/-- `_deduplicate`. -/
def deduplicate (indicators : List ExtractedData) : List ExtractedData :=
  (indicators.foldl dedup_step ([], [])).2

def BLOCKED_TAGS : List Str := [lstr "script", lstr "style", lstr "iframe"]

def BLOCKED_ATTR_TAGS : List Str :=
  [lstr "script", lstr "style", lstr "iframe", lstr "link", lstr "meta"]

def INFRA_ATTR_NAMES : List Str :=
  [lstr "src", lstr "href", lstr "integrity", lstr "content"]

def VISIBLE_TEXT_TAGS : List Str :=
  [lstr "a", lstr "b", lstr "code", lstr "div", lstr "em", lstr "h1",
   lstr "h2", lstr "h3", lstr "h4", lstr "h5", lstr "h6", lstr "i",
   lstr "label", lstr "li", lstr "p", lstr "pre", lstr "span",
   lstr "strong", lstr "td", lstr "th"]

def INFRA_DOMAIN_KEYWORDS : List Str :=
  [lstr "stripe.com", lstr "stripe.network", lstr "js.stripe.com",
   lstr "code.jquery.com", lstr "jquery.com", lstr "googleapis.com",
   lstr "gstatic.com", lstr "bootstrapcdn.com", lstr "cdn.jsdelivr.net",
   lstr "cloudflare.com"]

def INPUT_POSITIVE_CLASS_HINTS : List Str :=
  [lstr "copy", lstr "clipboard", lstr "address", lstr "wallet",
   lstr "readonly", lstr "deposit", lstr "payment"]

/-- `_is_infra_url`. -/
def is_infra_url (value : Str) : Bool :=
  let host := lower (urlparse value).netloc
  let host :=
    if host = [] && (lstr "//").isPrefixOf value then
      lower (urlparse (lstr "http:" ++ value)).netloc
    else host
  if host = [] then false
  else INFRA_DOMAIN_KEYWORDS.any (fun token => contains_sub host token)

/-- Python dict lookup on an attribute map. -/
def assoc_get (m : List (Str × Str)) (k : Str) : Option Str := m.lookup k

def assoc_set (m : List (Str × Str)) (k v : Str) : List (Str × Str) :=
  if (m.lookup k).isSome then m.map (fun p => if p.1 = k then (k, v) else p)
  else m ++ [(k, v)]

/-- `{name.lower(): (value or "") for name, value in attrs if name}`. -/
def attr_map_build (attrs : List (Str × Option Str)) : List (Str × Str) :=
  attrs.foldl
    (fun m nv => if nv.1 = [] then m else assoc_set m (lower nv.1) (nv.2.getD []))
    []

/-- `_is_positive_context`. -/
def is_positive_context (tag : Option Str) (attr : Option Str)
    (attrs : List (Str × Str)) : Bool :=
  match attr with
  | some a =>
    if tag = some (lstr "input") && a = lstr "value" then
      let input_type := lower ((assoc_get attrs (lstr "type")).getD [])
      if input_type = lstr "password" then false
      else
        let class_value := lower ((assoc_get attrs (lstr "class")).getD [])
        (assoc_get attrs (lstr "readonly")).isSome ||
        (assoc_get attrs (lstr "disabled")).isSome ||
        INPUT_POSITIVE_CLASS_HINTS.any (fun hint => contains_sub class_value hint) ||
        (input_type = lstr "text" || input_type = lstr "tel" ||
         input_type = lstr "hidden" || input_type = [])
    else false
  | none =>
    match tag with
    | none => true
    | some t => VISIBLE_TEXT_TAGS.contains t

/-- `_CryptoMatch`. -/
structure CryptoMatch where
  indicator_type : Str
  value : Str
  tag : Option Str
  attr : Option Str
  context_source : Str
  positive : Bool
  infra : Bool
deriving Repr, DecidableEq

/-- The events CPython's `html.parser.HTMLParser` (an external stdlib
tokenizer) feeds into the `_CryptoDOMScanner` callbacks: `.start` is
`handle_starttag`, `.stop` is `handle_endtag`, `.data` is `handle_data`
(with `convert_charrefs=True` entity decoding already applied by the
tokenizer). -/
inductive HtmlEvent where
  | start (tag : Str) (attrs : List (Str × Option Str))
  | stop (tag : Str)
  | data (text : Str)
deriving Repr, DecidableEq

/-- `_CryptoDOMScanner`'s mutable fields.  `matches` is the insertion-ordered
dict keyed by `(indicator_type, value)`; the stack's top is its last entry. -/
structure ScannerState where
  stack : List (Str × List (Str × Str))
  matchmap : List ((Str × Str) × List CryptoMatch)
  block_depth : Nat
deriving Repr, DecidableEq

/-- `self.matches.setdefault(key, []).append(cm)` (insertion order kept). -/
def matches_add (m : List ((Str × Str) × List CryptoMatch)) (key : Str × Str)
    (cm : CryptoMatch) : List ((Str × Str) × List CryptoMatch) :=
  if (m.lookup key).isSome then
    m.map (fun kv => if kv.1 = key then (kv.1, kv.2 ++ [cm]) else kv)
  else m ++ [(key, [cm])]

/-- `_record_matches`. -/
def record_matches (st : ScannerState) (text : Str) (tag : Option Str)
    (attr : Option Str) (context_source : Str) (positive infra : Bool) :
    ScannerState :=
  (iter_crypto_matches text).foldl
    (fun st cm =>
      let entry : CryptoMatch :=
        ⟨cm.ty, cm.value, tag, attr, context_source, positive, infra⟩
      { st with matchmap := matches_add st.matchmap (cm.ty, cm.value) entry })
    st

/-- The body of `handle_starttag`'s attribute-scanning `for` loop. -/
def scan_attr (tag_lower : Str) (attr_map : List (Str × Str))
    (st : ScannerState) (nv : Str × Option Str) : ScannerState :=
  match nv with
  | (name, some value) =>
    if name = [] then st
    else
      let name_lower := lower name
      if INFRA_ATTR_NAMES.contains name_lower &&
          BLOCKED_ATTR_TAGS.contains tag_lower then st
      else
        let infra :=
          if INFRA_ATTR_NAMES.contains name_lower then is_infra_url value
          else false
        let positive :=
          is_positive_context (some tag_lower) (some name_lower) attr_map
        record_matches st value (some tag_lower) (some name_lower) value
          positive infra
  | (_, none) => st

/-- `handle_starttag`. -/
def handle_starttag (st : ScannerState) (tag : Str)
    (attrs : List (Str × Option Str)) : ScannerState :=
  let tag_lower := lower tag
  let attr_map := attr_map_build attrs
  let st := { st with stack := st.stack ++ [(tag_lower, attr_map)] }
  let st :=
    if BLOCKED_TAGS.contains tag_lower then
      { st with block_depth := st.block_depth + 1 }
    else st
  if st.block_depth > 0 || BLOCKED_ATTR_TAGS.contains tag_lower then st
  else
    attrs.foldl (scan_attr tag_lower attr_map) st

/-- `handle_endtag`. -/
def handle_endtag (st : ScannerState) (tag : Str) : ScannerState :=
  let tag_lower := lower tag
  let st :=
    if BLOCKED_TAGS.contains tag_lower && st.block_depth > 0 then
      { st with block_depth := st.block_depth - 1 }
    else st
  if st.stack ≠ [] then { st with stack := st.stack.dropLast } else st

/-- `handle_data`. -/
def handle_data (st : ScannerState) (text : Str) : ScannerState :=
  if text = [] || strip text = [] then st
  else
    let current := st.stack.getLast?
    let tag : Option Str := current.map (·.1)
    let cattrs : List (Str × Str) := (current.map (·.2)).getD []
    if st.block_depth > 0 ||
        (match tag with
         | some t => t ≠ [] && BLOCKED_ATTR_TAGS.contains t
         | none => false) then st
    else
      let positive := is_positive_context tag none cattrs
      record_matches st text tag none text positive false

/-- Dispatch of one tokenizer callback. -/
def scan_event (st : ScannerState) (e : HtmlEvent) : ScannerState :=
  match e with
  | .start t a => handle_starttag st t a
  | .stop t => handle_endtag st t
  | .data d => handle_data st d

/-- `HTMLParser.feed` driving the scanner callbacks. -/
def scan_events (events : List HtmlEvent) : ScannerState :=
  events.foldl scan_event ⟨[], [], 0⟩

/-- `_build_context`. -/
def build_context (raw_html value : Str) (fallback : Option Str) : Str :=
  match find_sub raw_html value with
  | some idx => context_snippet raw_html idx (idx + value.length) 80
  | none =>
    match fallback with
    | some fb =>
      if fb ≠ [] then
        match find_sub fb value with
        | some j => context_snippet fb j (j + value.length) 80
        | none => value
      else value
    | none => value

/-- The supplementary `extra_strings` pass of `_extract_crypto_from_html`:
each extra string's crypto matches are recorded as unconditionally
positive, non-infra contexts. -/
def add_extra_matches (m : List ((Str × Str) × List CryptoMatch))
    (extra_strings : Option (List (Str × Str))) :
    List ((Str × Str) × List CryptoMatch) :=
  match extra_strings with
  | none => m
  | some extras =>
    extras.foldl
      (fun (m : List ((Str × Str) × List CryptoMatch)) (lt : Str × Str) =>
        if lt.2 = [] then m
        else
          (iter_crypto_matches lt.2).foldl
            (fun m (cm : CMatch) =>
              let entry : CryptoMatch :=
                ⟨cm.ty, cm.value, some (lstr "extra"), some lt.1, lt.2,
                 true, false⟩
              matches_add m (cm.ty, cm.value) entry)
            m)
      m

/-- The result-assembly loop of `_extract_crypto_from_html`: a key is kept
iff some recorded context is positive and not infra; the snippet comes from
the first qualifying occurrence. -/
def crypto_result_step (html_content : Str) (results : List ExtractedData)
    (kv : (Str × Str) × List CryptoMatch) : List ExtractedData :=
  match kv.2.filter (fun (c : CryptoMatch) => c.positive && !c.infra) with
  | [] => results
  | chosen :: _ =>
    results ++
      [ExtractedData.mk kv.1.1 kv.1.2
        (build_context html_content kv.1.2 (some chosen.context_source))]

/-- `_extract_crypto_from_html`; `events` is the tokenizer's event stream
for `html_content`. -/
def extract_crypto_from_html (html_content : Str) (events : List HtmlEvent)
    (extra_strings : Option (List (Str × Str))) : List ExtractedData :=
  let scanner := scan_events events
  let withExtras := add_extra_matches scanner.matchmap extra_strings
  withExtras.foldl (crypto_result_step html_content) []

/-- The three `_collect` passes `extract_from_html` runs on one corpus. -/
def collect_corpus (corpus : Str) : List ExtractedData :=
  collect (iban_matches corpus) corpus (lstr "IBAN")
    ++ collect (beneficiary_matches corpus) corpus (lstr "BENEFICIARY_NAME")
    ++ collect (bank_matches corpus) corpus (lstr "BANK_NAME")

/-- `extract_from_html`; `unesc` is stdlib `html.unescape`, `events` the
stdlib tokenizer's event stream for `html_content`. -/
def extract_from_html (unesc : Str → Str) (html_content : Str)
    (events : List HtmlEvent) (extra_strings : Option (List (Str × Str))) :
    List ExtractedData :=
  let corpora := [strip_html unesc html_content, unesc html_content]
  let corpora :=
    match extra_strings with
    | none => corpora
    | some extras =>
      corpora ++ extras.filterMap
        (fun (lt : Str × Str) =>
          if lt.2 = [] then none
          else some ((if lt.1 ≠ [] then lt.1 ++ lstr ": " else []) ++ lt.2))
  let found := extract_crypto_from_html html_content events extra_strings
  let found := corpora.foldl (fun acc corpus => acc ++ collect_corpus corpus) found
  deduplicate found

end Extractor

namespace Scanner

open PyStr Extractor

/-- The filesystem surface `run_archive_scan` touches (`Path.exists`,
`Path.read_text`); `.error` on `read` models a raised `OSError`. -/
structure FileSystem where
  exists_at : Str → Bool
  read : Str → Except Unit Str

/-- One entry of `mapping["pages"]` (the fields the scanner reads). -/
structure PageEntry where
  content_path : Option Str
  url : Option Str
deriving Repr, DecidableEq

/-- The parsed `mapping.json` (the fields the scanner reads; `pages` is
already `mapping.get("pages") or []`). -/
structure MappingDoc where
  run_id : Option Str
  pages : List PageEntry
deriving Repr, DecidableEq

structure Finding where
  type : Str
  value : Str
  context : Str
  page_path : Str
  source_url : Option Str
deriving Repr, DecidableEq

structure ArchiveScanResult where
  archive_dir : Str
  run_id : Option Str
  findings_path : Str
  findings : List Finding
  status : Str
  notes : Str
deriving Repr, DecidableEq

/-- External collaborators of the scan: the filesystem, `json.loads` on
`mapping.json` (`.error` = raised decode/shape error), and the extraction
engine's stdlib oracles (tokenizer and `html.unescape`). -/
structure ScanEnv where
  fs : FileSystem
  parse_mapping : Str → Except Unit MappingDoc
  tokenize : Str → List HtmlEvent
  unesc : Str → Str

/-- `pathlib` joining (`archive_dir / name`). -/
def path_join (a b : Str) : Str := a ++ '/' :: b

/-- `Path(p).name` (the last path component). -/
def path_name (p : Str) : Str := (rpartition_char p '/').2.2

/-- `_resolve_html_path` (the source's second `if not candidate.exists()`
test is always true at that point and is collapsed). -/
def resolve_html_path (fs : FileSystem) (raw : Str) (archive_dir : Str) : Str :=
  if (lstr "/").isPrefixOf raw || fs.exists_at raw then raw
  else
    let alt := path_join archive_dir (path_name raw)
    if fs.exists_at alt then alt else raw

/-- The per-page body of the scan's `for page in pages` loop. -/
def scan_page (env : ScanEnv) (archive_dir : Str) (acc : List Finding)
    (page : PageEntry) : List Finding :=
  match page.content_path with
  | none => acc
  | some rel =>
    if rel = [] then acc
    else
      let html_path := resolve_html_path env.fs rel archive_dir
      if ¬ env.fs.exists_at html_path then acc
      else
        match env.fs.read html_path with
        | .error _ => acc
        | .ok html =>
          let found := extract_from_html env.unesc html (env.tokenize html) none
          acc ++ found.map
            (fun m => Finding.mk m.type m.value m.context html_path page.url)

/-- `run_archive_scan`.  `.error` models an exception escaping the function
(an unreadable or unparsable `mapping.json`); the side-effecting
`write_json` of the findings file is outside the model. -/
def run_archive_scan (env : ScanEnv) (archive_dir : Str) :
    Except Unit ArchiveScanResult :=
  let mapping_path := path_join archive_dir (lstr "mapping.json")
  let findings_path := path_join archive_dir (lstr "extraction_results.json")
  if ¬ env.fs.exists_at mapping_path then
    .ok { archive_dir := archive_dir, run_id := none,
          findings_path := findings_path, findings := [],
          status := lstr "error",
          notes := lstr "mapping.json not found in " ++ archive_dir }
  else
    match env.fs.read mapping_path with
    | .error _ => .error ()
    | .ok text =>
      match env.parse_mapping text with
      | .error _ => .error ()
      | .ok mapping =>
        let findings := mapping.pages.foldl (scan_page env archive_dir) []
        .ok { archive_dir := archive_dir, run_id := mapping.run_id,
              findings_path := findings_path, findings := findings,
              status := if findings = [] then lstr "no_matches"
                        else lstr "complete",
              notes := [] }

end Scanner


namespace Extractor

open PyStr

/-- Shape of a bech32-style candidate: `bc1` (case-insensitive) plus 11–71
bech32-charset characters — the shapes `BTC_BECH32_PATTERN` can match. -/
def bech32_shaped (v : Str) : Bool :=
  match v with
  | b :: c :: o :: rest =>
    (b = 'b' || b = 'B') && (c = 'c' || c = 'C') && o = '1' &&
    rest.all bech32_char_ci && decide (11 ≤ rest.length) &&
    decide (rest.length ≤ 71)
  | _ => false

/-- Mixed upper and lower case, the condition `_is_bech32_case_valid`
rejects. -/
def mixed_case (v : Str) : Bool := v.any is_ascii_lower && v.any is_ascii_upper

def CRYPTO_TYPES : List Str := [lstr "BTC", lstr "ETH", lstr "TRON"]

/-- Does `text` contain a crypto match with value `v`? -/
def text_has_value (v : Str) (text : Str) : Bool :=
  (iter_crypto_matches text).any (fun cm => cm.value = v)

/-- Does an event carry `v` anywhere the scanner could scan it (a start
tag's attribute value, or a text node)? -/
def event_mentions_value (v : Str) : HtmlEvent → Bool
  | .start _ attrs => attrs.any (fun nv =>
      match nv.2 with
      | some val => text_has_value v val
      | none => false)
  | .stop _ => false
  | .data d => text_has_value v d

end Extractor

namespace ListLemmas

theorem foldl_preserve_mem {α β : Type} (P : α → Prop) (l : List β)
    (f : α → β → α) (h : ∀ a b, b ∈ l → P a → P (f a b)) :
    ∀ init, P init → P (l.foldl f init) := by
  induction l with
  | nil => intro init h0; exact h0
  | cons x xs ih =>
    intro init h0
    exact ih (fun a b hb => h a b (List.mem_cons_of_mem _ hb)) _
      (h init x (List.mem_cons_self _ _) h0)

theorem mem_foldl_append {α β : Type} (f : β → List α) :
    ∀ (l : List β) (init : List α) (x : α),
      x ∈ l.foldl (fun acc b => acc ++ f b) init → x ∈ init ∨ ∃ b ∈ l, x ∈ f b := by
  intro l
  induction l with
  | nil => intro init x h; exact Or.inl h
  | cons b bs ih =>
    intro init x h
    rcases ih (init ++ f b) x h with h1 | ⟨b', hb', hx⟩
    · rcases List.mem_append.mp h1 with h2 | h2
      · exact Or.inl h2
      · exact Or.inr ⟨b, List.mem_cons_self _ _, h2⟩
    · exact Or.inr ⟨b', List.mem_cons_of_mem _ hb', hx⟩

theorem mem_foldl_append_of_mem {α β : Type} (f : β → List α) :
    ∀ (l : List β) (init : List α) (x : α),
      (x ∈ init ∨ ∃ b ∈ l, x ∈ f b) → x ∈ l.foldl (fun acc b => acc ++ f b) init := by
  intro l
  induction l with
  | nil =>
    intro init x h
    rcases h with h | ⟨b, hb, _⟩
    · exact h
    · exact absurd hb (List.not_mem_nil b)
  | cons b bs ih =>
    intro init x h
    apply ih
    rcases h with h | ⟨b', hb', hx⟩
    · exact Or.inl (List.mem_append.mpr (Or.inl h))
    · rcases List.mem_cons.mp hb' with rfl | hb2
      · exact Or.inl (List.mem_append.mpr (Or.inr hx))
      · exact Or.inr ⟨b', hb2, hx⟩

end ListLemmas

namespace Extractor

open PyStr

theorem match_heads_length (heads : List (Char → Bool)) :
    ∀ (u r : Str), match_heads heads u = some r →
      u.length = heads.length + r.length ∧ r = u.drop heads.length := by
  induction heads with
  | nil =>
    intro u r h
    simp [match_heads] at h
    subst h
    simp
  | cons p ps ih =>
    intro u r h
    cases u with
    | nil => simp [match_heads] at h
    | cons c cs =>
      by_cases hc : p c = true
      · simp only [match_heads, hc, if_true] at h
        obtain ⟨h1, h2⟩ := ih cs r h
        constructor
        · simp [h1]; omega
        · simpa using h2
      · simp [match_heads, hc] at h

theorem match_tail_at_heads (p : TailPat) (u : Str) (len : Nat)
    (h : match_tail_at p u = some len) :
    ∃ r, match_heads p.heads u = some r ∧ p.heads.length ≤ len := by
  unfold match_tail_at at h
  rcases hm : match_heads p.heads u with _ | r
  · rw [hm] at h; exact absurd h (by simp)
  · rw [hm] at h
    simp only [Option.map_eq_some'] at h
    obtain ⟨k, _, hlen⟩ := h
    exact ⟨r, rfl, by omega⟩

theorem match_tail_at_pos (p : TailPat) (u : Str) (len : Nat)
    (hne : p.heads ≠ []) (h : match_tail_at p u = some len) : 1 ≤ len := by
  obtain ⟨r, _, hle⟩ := match_tail_at_heads p u len h
  cases hh : p.heads with
  | nil => exact absurd hh hne
  | cons a l => rw [hh] at hle; simp at hle; omega

theorem find_iter_go_sound (p : TailPat) (hne : p.heads ≠ []) :
    ∀ (fuel : Nat) (t : Str) (pos : Nat) (pw : Bool) (sp : Nat × Nat),
      sp ∈ find_iter_go p fuel t pos pw →
      pos ≤ sp.1 ∧ ∃ len, sp.2 = sp.1 + len ∧
        match_tail_at p (t.drop (sp.1 - pos)) = some len := by
  intro fuel
  induction fuel with
  | zero =>
    intro t pos pw sp hmem
    simp [find_iter_go] at hmem
  | succ n ih =>
    intro t pos pw sp hmem
    cases t with
    | nil => simp [find_iter_go] at hmem
    | cons c rest =>
      by_cases hpw : pw = true
      · rw [find_iter_go, hpw] at hmem
        simp only [Bool.not_true, Bool.false_eq_true, if_false] at hmem
        obtain ⟨hle, len, hsp, hmt⟩ := ih rest (pos + 1) (word_char c) sp hmem
        refine ⟨by omega, len, hsp, ?_⟩
        have : (c :: rest).drop (sp.1 - pos) = rest.drop (sp.1 - (pos + 1)) := by
          have h1 : sp.1 - pos = (sp.1 - (pos + 1)) + 1 := by omega
          rw [h1]
          simp
        rw [this]
        exact hmt
      · have hpw' : pw = false := by
          cases pw with
          | false => rfl
          | true => exact absurd rfl hpw
        subst hpw'
        rw [find_iter_go] at hmem
        simp only [Bool.not_false, if_true] at hmem
        rcases hmt : match_tail_at p (c :: rest) with _ | len
        · rw [hmt] at hmem
          obtain ⟨hle, len, hsp, hmt2⟩ := ih rest (pos + 1) (word_char c) sp hmem
          refine ⟨by omega, len, hsp, ?_⟩
          have : (c :: rest).drop (sp.1 - pos) = rest.drop (sp.1 - (pos + 1)) := by
            have h1 : sp.1 - pos = (sp.1 - (pos + 1)) + 1 := by omega
            rw [h1]
            simp
          rw [this]
          exact hmt2
        · rw [hmt] at hmem
          rcases List.mem_cons.mp hmem with rfl | hmem2
          · refine ⟨Nat.le_refl _, len, rfl, ?_⟩
            simpa using hmt
          · have hlen1 : 1 ≤ len := match_tail_at_pos p _ len hne hmt
            obtain ⟨hle, len2, hsp, hmt2⟩ :=
              ih (rest.drop (len - 1)) (pos + len) true sp hmem2
            refine ⟨by omega, len2, hsp, ?_⟩
            have : (c :: rest).drop (sp.1 - pos) =
                (rest.drop (len - 1)).drop (sp.1 - (pos + len)) := by
              rw [List.drop_drop]
              have h1 : sp.1 - pos = (sp.1 - (pos + len) + (len - 1)) + 1 := by omega
              rw [h1]
              simp only [List.drop_succ_cons]
              congr 1
              omega
            rw [this]
            exact hmt2

theorem pat_matches_head (p : TailPat) (pred : Char → Bool)
    (hp : p.heads = [pred]) (s : Str) (m : Nat × Nat × Str)
    (hm : m ∈ pat_matches p s) :
    ∃ c rest, m.2.2 = c :: rest ∧ pred c = true := by
  unfold pat_matches at hm
  obtain ⟨sp, hsp, heq⟩ := List.mem_map.mp hm
  have hne : p.heads ≠ [] := by rw [hp]; simp
  obtain ⟨_, len, hlen, hmt⟩ :=
    find_iter_go_sound p hne s.length s 0 false sp hsp
  obtain ⟨r, hheads, _⟩ := match_tail_at_heads p _ len hmt
  have h1 : 1 ≤ len := match_tail_at_pos p _ len hne hmt
  rw [hp] at hheads
  have hdrop : sp.1 - 0 = sp.1 := by omega
  rw [hdrop] at hheads
  cases hu : s.drop sp.1 with
  | nil => rw [hu] at hheads; simp [match_heads] at hheads
  | cons c cs =>
    rw [hu] at hheads
    by_cases hc : pred c = true
    · refine ⟨c, cs.take (sp.2 - sp.1 - 1), ?_, hc⟩
      rw [← heq]
      simp only
      rw [hu]
      have h2 : sp.2 - sp.1 = len := by omega
      rw [h2]
      cases len with
      | zero => omega
      | succ l =>
        simp [List.take_succ_cons]
    · simp [match_heads, hc] at hheads

theorem iter_crypto_btc_value (text : Str) (cm : CMatch)
    (hmem : cm ∈ iter_crypto_matches text) (hty : cm.ty = lstr "BTC") :
    (∃ c rest, cm.value = c :: rest ∧ (c = '1' ∨ c = '3')) ∨
      is_bech32_case_valid cm.value = true := by
  unfold iter_crypto_matches at hmem
  by_cases htext : text = []
  · simp [htext] at hmem
  · simp only [htext, if_false] at hmem
    rcases List.mem_append.mp hmem with h1 | h4
    · rcases List.mem_append.mp h1 with h2 | h3
      · rcases List.mem_append.mp h2 with hleg | hbech
        · obtain ⟨m, hm, heq⟩ := List.mem_map.mp hleg
          obtain ⟨c, rest, hval, hpred⟩ :=
            pat_matches_head BTC_LEGACY_PAT _ rfl text m hm
          left
          refine ⟨c, rest, ?_, ?_⟩
          · rw [← heq]; exact hval
          · simp only [Bool.or_eq_true, decide_eq_true_eq] at hpred
            exact hpred
        · obtain ⟨m, hm, heq⟩ := List.mem_map.mp hbech
          have := (List.mem_filter.mp hm).2
          right
          rw [← heq]
          exact this
      · obtain ⟨m, _, heq⟩ := List.mem_map.mp h3
        rw [← heq] at hty
        have hbad : lstr "ETH" = lstr "BTC" := hty
        exact absurd hbad (by decide)
    · obtain ⟨m, _, heq⟩ := List.mem_map.mp h4
      rw [← heq] at hty
      have hbad : lstr "TRON" = lstr "BTC" := hty
      exact absurd hbad (by decide)

/-- A key the scanner can record: some text has a crypto match with exactly
this `(type, value)`. -/
def key_from_crypto (key : Str × Str) : Prop :=
  ∃ text cm, cm ∈ iter_crypto_matches text ∧ cm.ty = key.1 ∧ cm.value = key.2

def matchmap_ok (m : List ((Str × Str) × List CryptoMatch)) : Prop :=
  ∀ kv ∈ m, key_from_crypto kv.1

theorem matches_add_ok (m : List ((Str × Str) × List CryptoMatch))
    (key : Str × Str) (cm : CryptoMatch) (hm : matchmap_ok m)
    (hk : key_from_crypto key) : matchmap_ok (matches_add m key cm) := by
  intro kv hkv
  unfold matches_add at hkv
  by_cases hex : (m.lookup key).isSome
  · simp only [hex, if_true] at hkv
    obtain ⟨kv0, hkv0, heq⟩ := List.mem_map.mp hkv
    by_cases he : kv0.1 = key
    · simp only [he, if_true] at heq
      rw [← heq]
      exact hk
    · simp only [he, if_false] at heq
      rw [← heq]
      exact hm kv0 hkv0
  · simp only [hex, if_false] at hkv
    rcases List.mem_append.mp hkv with h1 | h2
    · exact hm kv h1
    · rw [List.mem_singleton.mp h2]
      exact hk

theorem record_matches_ok (st : ScannerState) (text : Str) (tag : Option Str)
    (attr : Option Str) (ctx : Str) (pos inf : Bool)
    (h : matchmap_ok st.matchmap) :
    matchmap_ok (record_matches st text tag attr ctx pos inf).matchmap := by
  unfold record_matches
  refine ListLemmas.foldl_preserve_mem
    (fun (s : ScannerState) => matchmap_ok s.matchmap) _ _ ?_ st h
  intro a cm hcm ha
  exact matches_add_ok a.matchmap (cm.ty, cm.value) _ ha ⟨text, cm, hcm, rfl, rfl⟩

theorem scan_attr_ok (tl : Str) (am : List (Str × Str)) (st : ScannerState)
    (nv : Str × Option Str) (h : matchmap_ok st.matchmap) :
    matchmap_ok (scan_attr tl am st nv).matchmap := by
  unfold scan_attr
  rcases nv with ⟨name, _ | value⟩
  · exact h
  · by_cases h1 : name = []
    · simp only [h1, if_true]
      exact h
    · simp only [h1, if_false]
      split
      · exact h
      · exact record_matches_ok _ _ _ _ _ _ _ h

theorem handle_starttag_ok (st : ScannerState) (tag : Str)
    (attrs : List (Str × Option Str)) (h : matchmap_ok st.matchmap) :
    matchmap_ok (handle_starttag st tag attrs).matchmap := by
  simp only [handle_starttag]
  split <;> split
  · exact h
  · exact ListLemmas.foldl_preserve_mem
      (fun (s : ScannerState) => matchmap_ok s.matchmap) _ _
      (fun a b _ ha => scan_attr_ok _ _ a b ha) _ h
  · exact h
  · exact ListLemmas.foldl_preserve_mem
      (fun (s : ScannerState) => matchmap_ok s.matchmap) _ _
      (fun a b _ ha => scan_attr_ok _ _ a b ha) _ h

theorem handle_endtag_matchmap (st : ScannerState) (tag : Str) :
    (handle_endtag st tag).matchmap = st.matchmap := by
  simp only [handle_endtag]
  split <;> split <;> rfl

theorem handle_data_ok (st : ScannerState) (text : Str)
    (h : matchmap_ok st.matchmap) :
    matchmap_ok (handle_data st text).matchmap := by
  simp only [handle_data]
  split
  · exact h
  · split
    · exact h
    · exact record_matches_ok _ _ _ _ _ _ _ h

theorem scan_events_ok (events : List HtmlEvent) :
    matchmap_ok (scan_events events).matchmap := by
  unfold scan_events
  refine ListLemmas.foldl_preserve_mem
    (fun (s : ScannerState) => matchmap_ok s.matchmap) _ _ ?_ _ ?_
  · intro a e _ ha
    rcases e with ⟨t, at_⟩ | t | d
    · exact handle_starttag_ok a t at_ ha
    · show matchmap_ok (handle_endtag a t).matchmap
      rw [handle_endtag_matchmap]
      exact ha
    · exact handle_data_ok a d ha
  · intro kv hkv
    exact absurd hkv (List.not_mem_nil kv)

theorem add_extra_matches_ok (m : List ((Str × Str) × List CryptoMatch))
    (extras : Option (List (Str × Str))) (h : matchmap_ok m) :
    matchmap_ok (add_extra_matches m extras) := by
  unfold add_extra_matches
  rcases extras with _ | extras
  · exact h
  · refine ListLemmas.foldl_preserve_mem matchmap_ok _ _ ?_ _ h
    intro a lt _ ha
    by_cases h2 : lt.2 = []
    · simp only [h2, if_true]
      exact ha
    · simp only [h2, if_false]
      refine ListLemmas.foldl_preserve_mem matchmap_ok _ _ ?_ _ ha
      intro a' cm hcm ha'
      exact matches_add_ok _ _ _ ha' ⟨lt.2, cm, hcm, rfl, rfl⟩

theorem crypto_fold_mem (html : Str) :
    ∀ (m : List ((Str × Str) × List CryptoMatch)) (acc : List ExtractedData)
      (d : ExtractedData), d ∈ m.foldl (crypto_result_step html) acc →
      d ∈ acc ∨ ∃ kv, kv ∈ m ∧ d.type = kv.1.1 ∧ d.value = kv.1.2 := by
  intro m
  induction m with
  | nil => intro acc d h; exact Or.inl h
  | cons kv kvs ih =>
    intro acc d h
    rcases ih _ d h with hacc | ⟨kv', hkv', h1, h2⟩
    · unfold crypto_result_step at hacc
      rcases hfil : kv.2.filter (fun c => c.positive && !c.infra) with _ | ⟨ch, _⟩
      · rw [hfil] at hacc
        exact Or.inl hacc
      · rw [hfil] at hacc
        rcases List.mem_append.mp hacc with h3 | h4
        · exact Or.inl h3
        · rw [List.mem_singleton.mp h4]
          exact Or.inr ⟨kv, List.mem_cons_self _ _, rfl, rfl⟩
    · exact Or.inr ⟨kv', List.mem_cons_of_mem _ hkv', h1, h2⟩

theorem extract_crypto_mem (html : Str) (events : List HtmlEvent)
    (extras : Option (List (Str × Str))) (d : ExtractedData)
    (hd : d ∈ extract_crypto_from_html html events extras) :
    key_from_crypto (d.type, d.value) := by
  unfold extract_crypto_from_html at hd
  have hok : matchmap_ok (add_extra_matches (scan_events events).matchmap extras) :=
    add_extra_matches_ok _ _ (scan_events_ok events)
  rcases crypto_fold_mem html _ [] d hd with h1 | ⟨kv, hkv, h2, h3⟩
  · exact absurd h1 (List.not_mem_nil d)
  · have := hok kv hkv
    rw [h2, h3]
    exact this

theorem dedup_fold_sub :
    ∀ (l : List ExtractedData) (acc : List (Str × Str) × List ExtractedData)
      (d : ExtractedData), d ∈ (l.foldl dedup_step acc).2 → d ∈ acc.2 ∨ d ∈ l := by
  intro l
  induction l with
  | nil => intro acc d h; exact Or.inl h
  | cons e es ih =>
    intro acc d h
    rcases ih _ d h with hacc | hes
    · unfold dedup_step at hacc
      split at hacc
      · exact Or.inl hacc
      · rcases List.mem_append.mp hacc with h1 | h2
        · exact Or.inl h1
        · rw [List.mem_singleton.mp h2]
          exact Or.inr (List.mem_cons_self _ _)
    · exact Or.inr (List.mem_cons_of_mem _ hes)

theorem deduplicate_sub (l : List ExtractedData) (d : ExtractedData)
    (hd : d ∈ deduplicate l) : d ∈ l := by
  unfold deduplicate at hd
  rcases dedup_fold_sub l ([], []) d hd with h | h
  · exact absurd h (List.not_mem_nil d)
  · exact h

theorem collect_type (spans : List (Nat × Nat × Str)) (text ty : Str)
    (d : ExtractedData) (hd : d ∈ collect spans text ty) : d.type = ty := by
  unfold collect at hd
  obtain ⟨m, _, heq⟩ := List.mem_map.mp hd
  rw [← heq]

theorem collect_corpus_type (corpus : Str) (d : ExtractedData)
    (hd : d ∈ collect_corpus corpus) :
    d.type = lstr "IBAN" ∨ d.type = lstr "BENEFICIARY_NAME" ∨
      d.type = lstr "BANK_NAME" := by
  unfold collect_corpus at hd
  rcases List.mem_append.mp hd with h1 | h3
  · rcases List.mem_append.mp h1 with h2 | h2
    · exact Or.inl (collect_type _ _ _ _ h2)
    · exact Or.inr (Or.inl (collect_type _ _ _ _ h2))
  · exact Or.inr (Or.inr (collect_type _ _ _ _ h3))

/-- Every element of `extract_from_html` comes either from the crypto DOM
pass (its key is a crypto match of some text) or from a `_collect` pass
(with one of the three non-crypto types). -/
theorem extract_from_html_origin (unesc : Str → Str) (html : Str)
    (events : List HtmlEvent) (extras : Option (List (Str × Str)))
    (d : ExtractedData) (hd : d ∈ extract_from_html unesc html events extras) :
    key_from_crypto (d.type, d.value) ∨
      d.type = lstr "IBAN" ∨ d.type = lstr "BENEFICIARY_NAME" ∨
        d.type = lstr "BANK_NAME" := by
  unfold extract_from_html at hd
  have hfound := deduplicate_sub _ _ hd
  rcases ListLemmas.mem_foldl_append collect_corpus _ _ _ hfound with h1 | ⟨c, _, hc⟩
  · exact Or.inl (extract_crypto_mem html events extras d h1)
  · exact Or.inr (collect_corpus_type c d hc)

theorem bech32_shaped_head (v : Str) (h : bech32_shaped v = true) :
    ∃ b rest, v = b :: rest ∧ (b = 'b' ∨ b = 'B') := by
  rcases v with _ | ⟨b, _ | ⟨c, _ | ⟨o, rest⟩⟩⟩
  · simp [bech32_shaped] at h
  · simp [bech32_shaped] at h
  · simp [bech32_shaped] at h
  · refine ⟨b, c :: o :: rest, rfl, ?_⟩
    unfold bech32_shaped at h
    simp only [Bool.and_eq_true, Bool.or_eq_true, decide_eq_true_eq] at h
    exact h.1.1.1.1.1

theorem case_valid_not_mixed (v : Str) (hv : is_bech32_case_valid v = true) :
    mixed_case v = false := by
  have h2 : (!mixed_case v) = true := hv
  simpa using h2

/-- C8: a bech32-shaped candidate (case-insensitive `bc1` prefix plus
bech32 charset, length in range) that mixes upper and lower case is never
classified as a BTC indicator by `extract_from_html`, whatever the
document, token stream, or extra strings. -/
theorem c8_mixed_case_bech32_never_btc (unesc : Str → Str) (html : Str)
    (events : List HtmlEvent) (extras : Option (List (Str × Str)))
    (d : ExtractedData) (hd : d ∈ extract_from_html unesc html events extras)
    (hty : d.type = lstr "BTC") :
    ¬(bech32_shaped d.value = true ∧ mixed_case d.value = true) := by
  rintro ⟨hshape, hmix⟩
  rcases extract_from_html_origin unesc html events extras d hd with hk | h | h | h
  · obtain ⟨text, cm, hcm, hcty, hcval⟩ := hk
    simp only at hcty hcval
    rw [hty] at hcty
    rcases iter_crypto_btc_value text cm hcm hcty with ⟨c, rest, hval, hc⟩ | hcase
    · obtain ⟨b, rest2, hvb, hb⟩ := bech32_shaped_head d.value hshape
      rw [← hcval, hval] at hvb
      have hcb : c = b := by
        injection hvb with h1 _
      rcases hc with rfl | rfl <;> rcases hb with hb | hb <;>
        rw [hb] at hcb <;> exact absurd hcb (by decide)
    · rw [hcval] at hcase
      rw [case_valid_not_mixed d.value hcase] at hmix
      exact absurd hmix (by decide)
  · rw [h] at hty; exact absurd hty (by decide)
  · rw [h] at hty; exact absurd hty (by decide)
  · rw [h] at hty; exact absurd hty (by decide)

/-- Closed witness for C8 at a concrete document containing a BTC legacy
address in a visible text node. -/
theorem c8_witness :
    (ExtractedData.mk (lstr "BTC") (lstr "1A1zP1eP5QGefi2DMPTfTL5SLmv7DivfNa")
        (lstr "1A1zP1eP5QGefi2DMPTfTL5SLmv7DivfNa")) ∈
      extract_from_html id (lstr "1A1zP1eP5QGefi2DMPTfTL5SLmv7DivfNa")
        [HtmlEvent.data (lstr "1A1zP1eP5QGefi2DMPTfTL5SLmv7DivfNa")] none ∧
    ¬(bech32_shaped (lstr "1A1zP1eP5QGefi2DMPTfTL5SLmv7DivfNa") = true ∧
      mixed_case (lstr "1A1zP1eP5QGefi2DMPTfTL5SLmv7DivfNa") = true) := by
  refine ⟨by decide, ?_⟩
  exact c8_mixed_case_bech32_never_btc id
    (lstr "1A1zP1eP5QGefi2DMPTfTL5SLmv7DivfNa")
    [HtmlEvent.data (lstr "1A1zP1eP5QGefi2DMPTfTL5SLmv7DivfNa")] none
    (ExtractedData.mk (lstr "BTC") (lstr "1A1zP1eP5QGefi2DMPTfTL5SLmv7DivfNa")
      (lstr "1A1zP1eP5QGefi2DMPTfTL5SLmv7DivfNa"))
    (by decide) (by decide)

theorem dedup_fold_mono :
    ∀ (l : List ExtractedData) (acc : List (Str × Str) × List ExtractedData)
      (d : ExtractedData), d ∈ acc.2 → d ∈ (l.foldl dedup_step acc).2 := by
  intro l
  induction l with
  | nil => intro acc d h; exact h
  | cons e es ih =>
    intro acc d h
    apply ih
    unfold dedup_step
    split
    · exact h
    · exact List.mem_append.mpr (Or.inl h)

theorem dedup_fold_covers :
    ∀ (l : List ExtractedData) (acc : List (Str × Str) × List ExtractedData)
      (t v : Str), v ≠ [] →
      (∀ k ∈ acc.1, ∃ d ∈ acc.2, d.type = k.1 ∧ d.value = k.2) →
      ((t, v) ∈ acc.1 ∨ ∃ e ∈ l, e.type = t ∧ e.value = v) →
      ∃ d ∈ (l.foldl dedup_step acc).2, d.type = t ∧ d.value = v := by
  intro l
  induction l with
  | nil =>
    intro acc t v _ hinv hsrc
    rcases hsrc with hk | ⟨e, he, _⟩
    · exact hinv (t, v) hk
    · exact absurd he (List.not_mem_nil e)
  | cons e es ih =>
    intro acc t v hv hinv hsrc
    have hinv2 : ∀ k ∈ (dedup_step acc e).1,
        ∃ d ∈ (dedup_step acc e).2, d.type = k.1 ∧ d.value = k.2 := by
      intro k hk
      unfold dedup_step at hk ⊢
      split at hk
      · next hcond =>
        simp only [hcond]
        exact hinv k hk
      · next hcond =>
        simp only [hcond]
        simp only [Bool.or_eq_true, not_or] at hcond
        rcases List.mem_cons.mp hk with rfl | hk2
        · exact ⟨e, List.mem_append.mpr (Or.inr (List.mem_singleton.mpr rfl)),
            rfl, rfl⟩
        · obtain ⟨d, hd, h1, h2⟩ := hinv k hk2
          exact ⟨d, List.mem_append.mpr (Or.inl hd), h1, h2⟩
    rcases hsrc with hk | ⟨e', he', h1, h2⟩
    · refine ih (dedup_step acc e) t v hv hinv2 (Or.inl ?_)
      unfold dedup_step
      split
      · exact hk
      · exact List.mem_cons_of_mem _ hk
    · rcases List.mem_cons.mp he' with rfl | he2
      · by_cases hseen : acc.1.contains (e'.type, e'.value) = true
        · have hkmem : (e'.type, e'.value) ∈ acc.1 := by simpa using hseen
          obtain ⟨d, hd, hd1, hd2⟩ := hinv _ hkmem
          refine ⟨d, ?_, by rw [hd1, h1], by rw [hd2, h2]⟩
          refine dedup_fold_mono es (dedup_step acc e') d ?_
          unfold dedup_step
          split
          · exact hd
          · exact List.mem_append.mpr (Or.inl hd)
        · refine ⟨e', ?_, h1, h2⟩
          refine dedup_fold_mono es (dedup_step acc e') e' ?_
          unfold dedup_step
          rw [if_neg ?hcond]
          case hcond =>
            simp only [Bool.or_eq_true, decide_eq_true_eq, not_or]
            exact ⟨by simpa using hseen, by rw [h2]; exact hv⟩
          exact List.mem_append.mpr (Or.inr (List.mem_singleton.mpr rfl))
      · exact ih (dedup_step acc e) t v hv hinv2 (Or.inr ⟨e', he2, h1, h2⟩)

theorem deduplicate_covers (l : List ExtractedData) (t v : Str) (hv : v ≠ [])
    (hsrc : ∃ e ∈ l, e.type = t ∧ e.value = v) :
    ∃ d ∈ deduplicate l, d.type = t ∧ d.value = v := by
  unfold deduplicate
  exact dedup_fold_covers l ([], []) t v hv
    (fun k hk => absurd hk (List.not_mem_nil k)) (Or.inr hsrc)

/-- C10: the IBAN / beneficiary-name / bank-name passes run over the plain
corpora with no DOM-context filtering: any value they match in the
entity-unescaped raw markup (`unesc html`) is returned by
`extract_from_html`, whatever the token stream says about where in the
document it sits (script/style bodies and attribute values included). -/
theorem c10_collect_passes_unfiltered (unesc : Str → Str) (html : Str)
    (events : List HtmlEvent) (ty v : Str) (hv : v ≠ [])
    (hsrc : ∃ e ∈ collect_corpus (unesc html), e.type = ty ∧ e.value = v) :
    ∃ d ∈ extract_from_html unesc html events none, d.type = ty ∧ d.value = v := by
  unfold extract_from_html
  apply deduplicate_covers
  · exact hv
  · obtain ⟨e, he, h1, h2⟩ := hsrc
    refine ⟨e, ?_, h1, h2⟩
    exact ListLemmas.mem_foldl_append_of_mem collect_corpus _ _ _
      (Or.inr ⟨unesc html, by simp, he⟩)

/-- Closed witness for C10: an IBAN whose only occurrence is inside a
`<script>` body is still returned. -/
theorem c10_witness :
    ((lstr "DE89370400440532013000") ≠ ([] : Str) ∧
      ∃ e ∈ collect_corpus
          (id (lstr "<script>IBAN DE89370400440532013000</script>")),
        e.type = lstr "IBAN" ∧ e.value = lstr "DE89370400440532013000") ∧
    ∃ d ∈ extract_from_html id
        (lstr "<script>IBAN DE89370400440532013000</script>")
        [HtmlEvent.start (lstr "script") [],
         HtmlEvent.data (lstr "IBAN DE89370400440532013000"),
         HtmlEvent.stop (lstr "script")] none,
      d.type = lstr "IBAN" ∧ d.value = lstr "DE89370400440532013000" := by
  refine ⟨⟨by decide, by decide⟩, ?_⟩
  exact c10_collect_passes_unfiltered id
    (lstr "<script>IBAN DE89370400440532013000</script>")
    [HtmlEvent.start (lstr "script") [],
     HtmlEvent.data (lstr "IBAN DE89370400440532013000"),
     HtmlEvent.stop (lstr "script")]
    (lstr "IBAN") (lstr "DE89370400440532013000") (by decide) (by decide)

/-- No key of the match dict carries value `v`. -/
def no_key (v : Str) (m : List ((Str × Str) × List CryptoMatch)) : Prop :=
  ∀ kv ∈ m, kv.1.2 ≠ v

theorem matches_add_no_key (v : Str) (m : List ((Str × Str) × List CryptoMatch))
    (key : Str × Str) (cm : CryptoMatch) (hm : no_key v m) (hk : key.2 ≠ v) :
    no_key v (matches_add m key cm) := by
  intro kv hkv
  unfold matches_add at hkv
  by_cases hex : (m.lookup key).isSome
  · simp only [hex, if_true] at hkv
    obtain ⟨kv0, hkv0, heq⟩ := List.mem_map.mp hkv
    by_cases he : kv0.1 = key
    · simp only [he, if_true] at heq
      rw [← heq]
      exact hk
    · simp only [he, if_false] at heq
      rw [← heq]
      exact hm kv0 hkv0
  · simp only [hex, if_false] at hkv
    rcases List.mem_append.mp hkv with h1 | h2
    · exact hm kv h1
    · rw [List.mem_singleton.mp h2]
      exact hk

theorem record_matches_no_key (v : Str) (st : ScannerState) (text : Str)
    (tag : Option Str) (attr : Option Str) (ctx : Str) (pos inf : Bool)
    (hm : no_key v st.matchmap) (htext : text_has_value v text = false) :
    no_key v (record_matches st text tag attr ctx pos inf).matchmap := by
  unfold record_matches
  refine ListLemmas.foldl_preserve_mem
    (fun (s : ScannerState) => no_key v s.matchmap) _ _ ?_ st hm
  intro a cm hcm ha
  refine matches_add_no_key v a.matchmap (cm.ty, cm.value) _ ha ?_
  intro hcv
  unfold text_has_value at htext
  have : (iter_crypto_matches text).any (fun c => c.value = v) = true :=
    List.any_eq_true.mpr ⟨cm, hcm, by simpa using hcv⟩
  rw [htext] at this
  exact Bool.noConfusion this

theorem scan_attr_no_key (v : Str) (tl : Str) (am : List (Str × Str))
    (st : ScannerState) (nv : Str × Option Str) (hm : no_key v st.matchmap)
    (hsafe : match nv.2 with
      | some val => text_has_value v val = false
      | none => True) :
    no_key v (scan_attr tl am st nv).matchmap := by
  unfold scan_attr
  rcases nv with ⟨name, _ | value⟩
  · exact hm
  · by_cases h1 : name = []
    · simp only [h1, if_true]
      exact hm
    · simp only [h1, if_false]
      split
      · exact hm
      · exact record_matches_no_key v _ _ _ _ _ _ _ hm hsafe

theorem handle_starttag_no_key (v : Str) (st : ScannerState) (tag : Str)
    (attrs : List (Str × Option Str)) (hm : no_key v st.matchmap)
    (hsafe : event_mentions_value v (HtmlEvent.start tag attrs) = false) :
    no_key v (handle_starttag st tag attrs).matchmap := by
  have hattrs : ∀ nv ∈ attrs, (match nv.2 with
      | some val => text_has_value v val = false
      | none => True) := by
    intro nv hnv
    rcases hv2 : nv.2 with _ | val
    · trivial
    · simp only [event_mentions_value] at hsafe
      by_contra hcon
      have : attrs.any (fun nv => match nv.2 with
          | some val => text_has_value v val
          | none => false) = true := by
        refine List.any_eq_true.mpr ⟨nv, hnv, ?_⟩
        rw [hv2]
        simpa using hcon
      rw [hsafe] at this
      exact Bool.noConfusion this
  simp only [handle_starttag]
  split <;> split
  · exact hm
  · refine ListLemmas.foldl_preserve_mem
      (fun (s : ScannerState) => no_key v s.matchmap) _ _ ?_ _ hm
    intro a b hb ha
    exact scan_attr_no_key v _ _ a b ha (hattrs b hb)
  · exact hm
  · refine ListLemmas.foldl_preserve_mem
      (fun (s : ScannerState) => no_key v s.matchmap) _ _ ?_ _ hm
    intro a b hb ha
    exact scan_attr_no_key v _ _ a b ha (hattrs b hb)

theorem handle_data_no_key (v : Str) (st : ScannerState) (text : Str)
    (hm : no_key v st.matchmap)
    (hsafe : text_has_value v text = false) :
    no_key v (handle_data st text).matchmap := by
  simp only [handle_data]
  split
  · exact hm
  · split
    · exact hm
    · exact record_matches_no_key v _ _ _ _ _ _ _ hm hsafe

theorem scan_event_no_key (v : Str) (st : ScannerState) (e : HtmlEvent)
    (hm : no_key v st.matchmap) (hsafe : event_mentions_value v e = false) :
    no_key v (scan_event st e).matchmap := by
  rcases e with ⟨t, a⟩ | t | d
  · exact handle_starttag_no_key v st t a hm hsafe
  · show no_key v (handle_endtag st t).matchmap
    rw [handle_endtag_matchmap]
    exact hm
  · exact handle_data_no_key v st d hm hsafe

theorem scan_fold_no_key (v : Str) (events : List HtmlEvent) :
    ∀ (st : ScannerState), no_key v st.matchmap →
    (∀ e ∈ events, event_mentions_value v e = false) →
    no_key v (events.foldl scan_event st).matchmap := by
  induction events with
  | nil => intro st hm _; exact hm
  | cons e es ih =>
    intro st hm hsafe
    exact ih _ (scan_event_no_key v st e hm (hsafe e (List.mem_cons_self _ _)))
      (fun e' he' => hsafe e' (List.mem_cons_of_mem _ he'))

/-- Entering a `<script>` start tag: the block counter rises and no
attribute is scanned. -/
theorem handle_starttag_script (st : ScannerState)
    (attrs : List (Str × Option Str)) :
    handle_starttag st (lstr "script") attrs =
      { st with stack := st.stack ++ [(lstr "script", attr_map_build attrs)],
                block_depth := st.block_depth + 1 } := by
  simp only [handle_starttag]
  have h1 : BLOCKED_TAGS.contains (lower (lstr "script")) = true := by decide
  have h2 : lower (lstr "script") = lstr "script" := by decide
  rw [h2] at h1 ⊢
  rw [if_pos h1]
  rw [if_pos (by simp)]

/-- `handle_data` inside a blocked region is the identity. -/
theorem handle_data_blocked (st : ScannerState) (text : Str)
    (h : 0 < st.block_depth) : handle_data st text = st := by
  simp only [handle_data]
  split
  · rfl
  · rw [if_pos]
    simp [h]

theorem scan_fold_data_blocked (mids : List HtmlEvent) :
    ∀ (st : ScannerState), 0 < st.block_depth →
    (∀ e ∈ mids, ∃ d, e = HtmlEvent.data d) →
    mids.foldl scan_event st = st := by
  induction mids with
  | nil => intro st _ _; rfl
  | cons e es ih =>
    intro st hd hall
    obtain ⟨d, rfl⟩ := hall e (List.mem_cons_self _ _)
    show es.foldl scan_event (handle_data st d) = st
    rw [handle_data_blocked st d hd]
    exact ih st hd (fun e' he' => hall e' (List.mem_cons_of_mem _ he'))

theorem lookup_isSome_mem {β : Type} (l : List ((Str × Str) × β)) (k : Str × Str)
    (h : (l.lookup k).isSome) : ∃ p ∈ l, p.1 = k := by
  induction l with
  | nil => simp [List.lookup] at h
  | cons p ps ih =>
    by_cases he : p.1 = k
    · exact ⟨p, List.mem_cons_self _ _, he⟩
    · rw [List.lookup] at h
      have hbe : (k == p.1) = false := by
        simp only [beq_eq_false_iff_ne, ne_eq]
        exact fun hh => he hh.symm
      rw [hbe] at h
      obtain ⟨q, hq, hq1⟩ := ih h
      exact ⟨q, List.mem_cons_of_mem _ hq, hq1⟩

/-- Key `key` is present with at least one positive, non-infra context. -/
def good_key (key : Str × Str) (m : List ((Str × Str) × List CryptoMatch)) : Prop :=
  ∃ kv ∈ m, kv.1 = key ∧
    kv.2.filter (fun (c : CryptoMatch) => c.positive && !c.infra) ≠ []

theorem matches_add_good_self (m : List ((Str × Str) × List CryptoMatch))
    (key : Str × Str) (cm : CryptoMatch)
    (hcm : (cm.positive && !cm.infra) = true) :
    good_key key (matches_add m key cm) := by
  unfold matches_add
  by_cases hex : (m.lookup key).isSome
  · obtain ⟨p, hp, hp1⟩ := lookup_isSome_mem m key hex
    rw [if_pos hex]
    refine ⟨(key, p.2 ++ [cm]), ?_, rfl, ?_⟩
    · refine List.mem_map.mpr ⟨p, hp, ?_⟩
      rw [if_pos hp1, hp1]
    · rw [List.filter_append]
      simp [hcm]
  · rw [if_neg hex]
    refine ⟨(key, [cm]), List.mem_append.mpr (Or.inr (List.mem_singleton.mpr rfl)),
      rfl, ?_⟩
    simp [List.filter, hcm]

theorem matches_add_good_mono (m : List ((Str × Str) × List CryptoMatch))
    (key key2 : Str × Str) (cm : CryptoMatch) (h : good_key key m) :
    good_key key (matches_add m key2 cm) := by
  obtain ⟨kv, hkv, hk1, hk2⟩ := h
  unfold matches_add
  by_cases hex : (m.lookup key2).isSome
  · rw [if_pos hex]
    by_cases he : kv.1 = key2
    · refine ⟨(key2, kv.2 ++ [cm]),
        List.mem_map.mpr ⟨kv, hkv, by rw [if_pos he, he]⟩,
        by rw [← he, hk1], ?_⟩
      rw [List.filter_append]
      intro hcon
      exact hk2 (List.append_eq_nil.mp hcon).1
    · exact ⟨kv, List.mem_map.mpr ⟨kv, hkv, by rw [if_neg he]⟩, hk1, hk2⟩
  · rw [if_neg hex]
    exact ⟨kv, List.mem_append.mpr (Or.inl hkv), hk1, hk2⟩

/-- After a positive, non-infra `record_matches` over `text`, every crypto
match of `text` is a good key. -/
theorem record_matches_good (st : ScannerState) (text : Str)
    (tag : Option Str) (attr : Option Str) (ctx : Str) (cm0 : CMatch)
    (hcm0 : cm0 ∈ iter_crypto_matches text) :
    good_key (cm0.ty, cm0.value)
      (record_matches st text tag attr ctx true false).matchmap := by
  unfold record_matches
  have hgen : ∀ (l : List CMatch) (s : ScannerState), cm0 ∈ l →
      good_key (cm0.ty, cm0.value)
        ((l.foldl (fun st cm =>
          let entry : CryptoMatch :=
            ⟨cm.ty, cm.value, tag, attr, ctx, true, false⟩
          { st with matchmap := matches_add st.matchmap (cm.ty, cm.value) entry })
          s).matchmap) := by
    intro l
    induction l with
    | nil => intro s h; exact absurd h (List.not_mem_nil cm0)
    | cons cm cms ih =>
      intro s h
      rcases List.mem_cons.mp h with rfl | h2
      · refine ListLemmas.foldl_preserve_mem
          (fun (s' : ScannerState) => good_key (cm0.ty, cm0.value) s'.matchmap)
          cms _ ?_ _ ?_
        · intro a b _ ha
          exact matches_add_good_mono _ _ _ _ ha
        · exact matches_add_good_self _ _ _ (by rfl)
      · exact ih _ h2
  exact hgen _ st hcm0

theorem crypto_fold_mono (html : Str) :
    ∀ (m : List ((Str × Str) × List CryptoMatch)) (acc : List ExtractedData)
      (d : ExtractedData), d ∈ acc → d ∈ m.foldl (crypto_result_step html) acc := by
  intro m
  induction m with
  | nil => intro acc d h; exact h
  | cons kv kvs ih =>
    intro acc d h
    apply ih
    unfold crypto_result_step
    split
    · exact h
    · exact List.mem_append.mpr (Or.inl h)

theorem crypto_fold_contains (html : Str) :
    ∀ (m : List ((Str × Str) × List CryptoMatch)) (acc : List ExtractedData)
      (key : Str × Str), good_key key m →
      ∃ d ∈ m.foldl (crypto_result_step html) acc,
        d.type = key.1 ∧ d.value = key.2 := by
  intro m
  induction m with
  | nil =>
    intro acc key h
    obtain ⟨kv, hkv, _⟩ := h
    exact absurd hkv (List.not_mem_nil kv)
  | cons kv kvs ih =>
    intro acc key h
    obtain ⟨kv', hkv', hk1, hk2⟩ := h
    rcases List.mem_cons.mp hkv' with rfl | h2
    · rcases hfil : kv'.2.filter (fun (c : CryptoMatch) => c.positive && !c.infra)
        with _ | ⟨ch, rest⟩
      · exact absurd hfil hk2
      · refine ⟨ExtractedData.mk kv'.1.1 kv'.1.2
          (build_context html kv'.1.2 (some ch.context_source)), ?_, ?_, ?_⟩
        · rw [List.foldl_cons]
          apply crypto_fold_mono
          unfold crypto_result_step
          rw [hfil]
          exact List.mem_append.mpr (Or.inr (List.mem_singleton.mpr rfl))
        · rw [hk1]
        · rw [hk1]
    · exact ih _ key ⟨kv', h2, hk1, hk2⟩

theorem pat_matches_value_ne_nil (p : TailPat) (hne : p.heads ≠ []) (s : Str)
    (m : Nat × Nat × Str) (hm : m ∈ pat_matches p s) : m.2.2 ≠ [] := by
  unfold pat_matches at hm
  obtain ⟨sp, hsp, heq⟩ := List.mem_map.mp hm
  obtain ⟨_, len, hlen, hmt⟩ := find_iter_go_sound p hne s.length s 0 false sp hsp
  obtain ⟨r, hheads, _⟩ := match_tail_at_heads p _ len hmt
  have h1 : 1 ≤ len := match_tail_at_pos p _ len hne hmt
  have hdrop : sp.1 - 0 = sp.1 := by omega
  rw [hdrop] at hheads
  cases hu : s.drop sp.1 with
  | nil =>
    rw [hu] at hheads
    cases hhh : p.heads with
    | nil => exact absurd hhh hne
    | cons q qs => rw [hhh] at hheads; simp [match_heads] at hheads
  | cons c cs =>
    rw [← heq]
    simp only
    rw [hu]
    have h2 : sp.2 - sp.1 = len := by omega
    rw [h2]
    cases len with
    | zero => omega
    | succ l => simp

theorem iter_crypto_value_ne_nil (text : Str) (cm : CMatch)
    (hmem : cm ∈ iter_crypto_matches text) : cm.value ≠ [] := by
  unfold iter_crypto_matches at hmem
  by_cases htext : text = []
  · simp [htext] at hmem
  · simp only [htext, if_false] at hmem
    rcases List.mem_append.mp hmem with h1 | h4
    · rcases List.mem_append.mp h1 with h2 | h3
      · rcases List.mem_append.mp h2 with hleg | hbech
        · obtain ⟨m, hm, heq⟩ := List.mem_map.mp hleg
          rw [← heq]
          exact pat_matches_value_ne_nil BTC_LEGACY_PAT (by simp [BTC_LEGACY_PAT]) text m hm
        · obtain ⟨m, hm, heq⟩ := List.mem_map.mp hbech
          rw [← heq]
          exact pat_matches_value_ne_nil BTC_BECH32_PAT (by simp [BTC_BECH32_PAT]) text m
            (List.mem_filter.mp hm).1
      · obtain ⟨m, hm, heq⟩ := List.mem_map.mp h3
        rw [← heq]
        exact pat_matches_value_ne_nil ETH_PAT (by simp [ETH_PAT]) text m hm
    · obtain ⟨m, hm, heq⟩ := List.mem_map.mp h4
      rw [← heq]
      exact pat_matches_value_ne_nil TRON_PAT (by simp [TRON_PAT]) text m hm

theorem script_scan_no_key (v : Str) (pre mids post : List HtmlEvent)
    (sattrs : List (Str × Option Str))
    (hmids : ∀ e ∈ mids, ∃ dtxt, e = HtmlEvent.data dtxt)
    (hsafe : ∀ e ∈ pre ++ post, event_mentions_value v e = false) :
    no_key v (scan_events (pre ++ HtmlEvent.start (lstr "script") sattrs ::
      (mids ++ HtmlEvent.stop (lstr "script") :: post))).matchmap := by
  unfold scan_events
  rw [List.foldl_append, List.foldl_cons, List.foldl_append, List.foldl_cons]
  have h1 : no_key v (pre.foldl scan_event
      (⟨[], [], 0⟩ : ScannerState)).matchmap :=
    scan_fold_no_key v pre _ (fun kv hkv => absurd hkv (List.not_mem_nil kv))
      (fun e he => hsafe e (List.mem_append.mpr (Or.inl he)))
  have h2 : scan_event (pre.foldl scan_event (⟨[], [], 0⟩ : ScannerState))
      (HtmlEvent.start (lstr "script") sattrs) =
      { pre.foldl scan_event (⟨[], [], 0⟩ : ScannerState) with
        stack := (pre.foldl scan_event (⟨[], [], 0⟩ : ScannerState)).stack ++
          [(lstr "script", attr_map_build sattrs)],
        block_depth :=
          (pre.foldl scan_event (⟨[], [], 0⟩ : ScannerState)).block_depth + 1 } :=
    handle_starttag_script _ sattrs
  rw [h2]
  rw [scan_fold_data_blocked mids _ (by simp) hmids]
  refine scan_fold_no_key v post _ ?_
    (fun e he => hsafe e (List.mem_append.mpr (Or.inr he)))
  show no_key v (handle_endtag _ (lstr "script")).matchmap
  rw [handle_endtag_matchmap]
  exact h1

/-- C7 part 1 at the extraction-result level: if `v` occurs only inside the
`<script>` element's body, no crypto-typed indicator has value `v`. -/
theorem script_suppresses_value (unesc : Str → Str) (html v : Str)
    (pre mids post : List HtmlEvent) (sattrs : List (Str × Option Str))
    (hmids : ∀ e ∈ mids, ∃ dtxt, e = HtmlEvent.data dtxt)
    (hsafe : ∀ e ∈ pre ++ post, event_mentions_value v e = false)
    (d : ExtractedData)
    (hd : d ∈ extract_from_html unesc html
      (pre ++ HtmlEvent.start (lstr "script") sattrs ::
        (mids ++ HtmlEvent.stop (lstr "script") :: post)) none)
    (hty : d.type ∈ CRYPTO_TYPES) : d.value ≠ v := by
  unfold extract_from_html at hd
  have hfound := deduplicate_sub _ _ hd
  rcases ListLemmas.mem_foldl_append collect_corpus _ _ _ hfound with h1 | ⟨c, _, hc⟩
  · unfold extract_crypto_from_html at h1
    rcases crypto_fold_mem html _ [] d h1 with habs | ⟨kv, hkv, _, hval⟩
    · exact absurd habs (List.not_mem_nil d)
    · have hnk := script_scan_no_key v pre mids post sattrs hmids hsafe
      intro hveq
      exact hnk kv hkv (by rw [← hval, hveq])
  · rcases collect_corpus_type c d hc with h | h | h <;>
      · rw [h] at hty
        exact absurd hty (by decide)

theorem scan_readonly_input (v : Str) :
    scan_events [HtmlEvent.start (lstr "input")
      [(lstr "readonly", none), (lstr "value", some v)]] =
    record_matches
      ⟨[(lstr "input", [(lstr "readonly", []), (lstr "value", v)])], [], 0⟩
      v (some (lstr "input")) (some (lstr "value")) v true false := rfl

/-- C7 part 2 at the extraction-result level: a value sitting in the
`value` attribute of a `readonly` `<input>` yields an indicator of its
crypto type. -/
theorem readonly_input_yields (unesc : Str → Str) (html v ty : Str)
    (ms me : Nat) (hv : CMatch.mk ty v ms me ∈ iter_crypto_matches v) :
    ∃ d ∈ extract_from_html unesc html
        [HtmlEvent.start (lstr "input")
          [(lstr "readonly", none), (lstr "value", some v)]] none,
      d.type = ty ∧ d.value = v := by
  have hgood : good_key (ty, v)
      (scan_events [HtmlEvent.start (lstr "input")
        [(lstr "readonly", none), (lstr "value", some v)]]).matchmap := by
    rw [scan_readonly_input]
    exact record_matches_good _ v (some (lstr "input")) (some (lstr "value")) v
      (CMatch.mk ty v ms me) hv
  have hvne : v ≠ [] := iter_crypto_value_ne_nil v _ hv
  unfold extract_from_html
  apply deduplicate_covers _ ty v hvne
  obtain ⟨d, hd, h1, h2⟩ :=
    crypto_fold_contains html
      (scan_events [HtmlEvent.start (lstr "input")
        [(lstr "readonly", none), (lstr "value", some v)]]).matchmap
      [] (ty, v) hgood
  refine ⟨d, ?_, h1, h2⟩
  exact ListLemmas.mem_foldl_append_of_mem collect_corpus _ _ _ (Or.inl hd)

/-- C7: a crypto address whose only occurrences lie inside a `<script>`
element's body yields no crypto indicator from `extract_from_html`; the
same address as the `value` attribute of a `readonly` `<input>` yields an
indicator of its type. -/
theorem c7_script_vs_readonly_input :
    (∀ (unesc : Str → Str) (html v : Str) (pre mids post : List HtmlEvent)
       (sattrs : List (Str × Option Str)),
       (∀ e ∈ mids, ∃ dtxt, e = HtmlEvent.data dtxt) →
       (∀ e ∈ pre ++ post, event_mentions_value v e = false) →
       ∀ d ∈ extract_from_html unesc html
           (pre ++ HtmlEvent.start (lstr "script") sattrs ::
             (mids ++ HtmlEvent.stop (lstr "script") :: post)) none,
         d.type ∈ CRYPTO_TYPES → d.value ≠ v) ∧
    (∀ (unesc : Str → Str) (html v ty : Str) (ms me : Nat),
       CMatch.mk ty v ms me ∈ iter_crypto_matches v →
       ∃ d ∈ extract_from_html unesc html
           [HtmlEvent.start (lstr "input")
             [(lstr "readonly", none), (lstr "value", some v)]] none,
         d.type = ty ∧ d.value = v) := by
  constructor
  · intro unesc html v pre mids post sattrs hmids hsafe d hd hty
    exact script_suppresses_value unesc html v pre mids post sattrs hmids hsafe
      d hd hty
  · intro unesc html v ty ms me hv
    exact readonly_input_yields unesc html v ty ms me hv

def c7_a1 : Str := lstr "1BoatSLRHtKNngkdXEeobR76b53LETtpyT"

def c7_a2 : Str := lstr "1A1zP1eP5QGefi2DMPTfTL5SLmv7DivfNa"

def c7_html : Str := c7_a2 ++ lstr "<script>" ++ c7_a1 ++ lstr "</script>"

def c7_events : List HtmlEvent :=
  [HtmlEvent.data c7_a2] ++ HtmlEvent.start (lstr "script") [] ::
    ([HtmlEvent.data c7_a1] ++ HtmlEvent.stop (lstr "script") :: [])

def c7_d0 : ExtractedData := ⟨lstr "BTC", c7_a2, c7_html⟩

theorem c7_witness :
    event_mentions_value c7_a1 (HtmlEvent.data c7_a2) = false ∧
    CMatch.mk (lstr "BTC") c7_a1 0 34 ∈ iter_crypto_matches c7_a1 ∧
    c7_d0 ∈ extract_from_html id c7_html c7_events none ∧
    c7_d0.type ∈ CRYPTO_TYPES ∧
    c7_d0.value ≠ c7_a1 ∧
    (∃ d ∈ extract_from_html id c7_a1
        [HtmlEvent.start (lstr "input")
          [(lstr "readonly", none), (lstr "value", some c7_a1)]] none,
      d.type = lstr "BTC" ∧ d.value = c7_a1) := by
  refine ⟨by decide, by decide, by decide, by decide, ?_, ?_⟩
  · exact c7_script_vs_readonly_input.1 id c7_html c7_a1
      [HtmlEvent.data c7_a2] [HtmlEvent.data c7_a1] [] []
      (fun e he => by
        rw [List.mem_singleton] at he
        exact ⟨c7_a1, he⟩)
      (fun e he => by
        simp only [List.append_nil, List.mem_singleton] at he
        subst he
        decide)
      c7_d0 (by decide) (by decide)
  · exact c7_script_vs_readonly_input.2 id c7_a1 c7_a1 (lstr "BTC") 0 34
      (by decide)

end Extractor

namespace Scanner

open PyStr Extractor

def c6_env : ScanEnv :=
  { fs := { exists_at := fun _ => true, read := fun _ => .error () },
    parse_mapping := fun _ => .error (),
    tokenize := fun _ => [],
    unesc := id }

/-- C6 counterexample: with `mapping.json` present but unreadable the scan
raises (modelled `.error`) instead of returning a result with status
`error`. -/
theorem c6_counterexample :
    run_archive_scan c6_env (lstr "a") = .error () ∧
    c6_env.fs.exists_at (path_join (lstr "a") (lstr "mapping.json")) = true :=
  ⟨rfl, rfl⟩

/-- C6 (amended): a page whose resolved HTML artifact is missing or
unreadable is skipped (the accumulated findings pass through unchanged) and
every page only appends to the accumulator; a returned result has status
`error` exactly when `mapping.json` is absent (an unreadable or unparsable
`mapping.json` raises instead); when `mapping.json` is present, readable
and parsable the scan returns the folded findings with status `no_matches`
when they are empty and `complete` otherwise. -/
theorem c6_scan_skips_pages_error_iff_mapping_absent :
    (∀ (env : ScanEnv) (dir : Str) (acc : List Finding) (page : PageEntry)
       (rel : Str), page.content_path = some rel →
       env.fs.exists_at (resolve_html_path env.fs rel dir) = false →
       scan_page env dir acc page = acc) ∧
    (∀ (env : ScanEnv) (dir : Str) (acc : List Finding) (page : PageEntry)
       (rel : Str), page.content_path = some rel →
       env.fs.read (resolve_html_path env.fs rel dir) = .error () →
       scan_page env dir acc page = acc) ∧
    (∀ (env : ScanEnv) (dir : Str) (acc : List Finding) (page : PageEntry),
       ∃ new, scan_page env dir acc page = acc ++ new) ∧
    (∀ (env : ScanEnv) (dir : Str) (r : ArchiveScanResult),
       run_archive_scan env dir = .ok r → r.status = lstr "error" →
       env.fs.exists_at (path_join dir (lstr "mapping.json")) = false) ∧
    (∀ (env : ScanEnv) (dir : Str),
       env.fs.exists_at (path_join dir (lstr "mapping.json")) = false →
       run_archive_scan env dir =
         .ok ⟨dir, none, path_join dir (lstr "extraction_results.json"), [],
              lstr "error", lstr "mapping.json not found in " ++ dir⟩) ∧
    (∀ (env : ScanEnv) (dir text : Str) (mapping : MappingDoc),
       env.fs.read (path_join dir (lstr "mapping.json")) = .ok text →
       env.parse_mapping text = .ok mapping →
       env.fs.exists_at (path_join dir (lstr "mapping.json")) = true →
       run_archive_scan env dir =
         .ok ⟨dir, mapping.run_id,
              path_join dir (lstr "extraction_results.json"),
              mapping.pages.foldl (scan_page env dir) [],
              if mapping.pages.foldl (scan_page env dir) [] = []
              then lstr "no_matches" else lstr "complete", []⟩) := by
  refine ⟨?_, ?_, ?_, ?_, ?_, ?_⟩
  · intro env dir acc page rel hcp hex
    simp [scan_page, hcp, hex]
  · intro env dir acc page rel hcp hread
    by_cases hex : env.fs.exists_at (resolve_html_path env.fs rel dir)
    · simp [scan_page, hcp, hex, hread]
    · simp [scan_page, hcp, hex]
  · intro env dir acc page
    rcases hcp : page.content_path with _ | rel
    · exact ⟨[], by simp [scan_page, hcp]⟩
    · by_cases h0 : rel = []
      · exact ⟨[], by simp [scan_page, hcp, h0]⟩
      · by_cases hex : env.fs.exists_at (resolve_html_path env.fs rel dir)
        · rcases hread : env.fs.read (resolve_html_path env.fs rel dir)
            with e | html
          · exact ⟨[], by simp [scan_page, hcp, h0, hex, hread]⟩
          · exact ⟨(extract_from_html env.unesc html (env.tokenize html)
                none).map (fun m => Finding.mk m.type m.value m.context
                  (resolve_html_path env.fs rel dir) page.url),
              by simp [scan_page, hcp, h0, hex, hread]⟩
        · exact ⟨[], by simp [scan_page, hcp, h0, hex]⟩
  · intro env dir r hr hst
    by_cases hex : env.fs.exists_at (path_join dir (lstr "mapping.json"))
    · exfalso
      rcases hread : env.fs.read (path_join dir (lstr "mapping.json"))
        with e | text
      · simp [run_archive_scan, hex, hread] at hr
      · rcases hparse : env.parse_mapping text with e | mapping
        · simp [run_archive_scan, hex, hread, hparse] at hr
        · simp [run_archive_scan, hex, hread, hparse] at hr
          rw [← hr] at hst
          simp at hst
          by_cases hf : mapping.pages.foldl (scan_page env dir) [] = []
          · rw [if_pos hf] at hst
            exact absurd hst (by decide)
          · rw [if_neg hf] at hst
            exact absurd hst (by decide)
    · simpa using hex
  · intro env dir hex
    simp [run_archive_scan, hex]
  · intro env dir text mapping hread hparse hex
    simp [run_archive_scan, hex, hread, hparse]


def c6w_addr : Str := lstr "1A1zP1eP5QGefi2DMPTfTL5SLmv7DivfNa"

def c6w_page1 : PageEntry := ⟨some (lstr "p1.html"), some (lstr "u1")⟩

def c6w_page2 : PageEntry := ⟨some (lstr "p2.html"), none⟩

def c6w_page3 : PageEntry := ⟨some (lstr "p3.html"), none⟩

def c6w_doc : MappingDoc := ⟨some (lstr "r"), [c6w_page1, c6w_page2, c6w_page3]⟩

def c6w_env : ScanEnv :=
  { fs := { exists_at := fun p => p == lstr "a/mapping.json" ||
              p == lstr "a/p1.html" || p == lstr "a/p3.html",
            read := fun p =>
              if p = lstr "a/p1.html" then .ok c6w_addr
              else if p = lstr "a/mapping.json" then .ok (lstr "M")
              else .error () },
    parse_mapping := fun _ => .ok c6w_doc,
    tokenize := fun s => [HtmlEvent.data s],
    unesc := id }

def c6w_env2 : ScanEnv :=
  { fs := { exists_at := fun _ => false, read := fun _ => .error () },
    parse_mapping := fun _ => .error (),
    tokenize := fun _ => [],
    unesc := id }

def c6w_f1 : Finding :=
  ⟨lstr "BTC", c6w_addr, c6w_addr, lstr "a/p1.html", some (lstr "u1")⟩

theorem c6_witness :
    scan_page c6w_env (lstr "a") [c6w_f1] c6w_page2 = [c6w_f1] ∧
    scan_page c6w_env (lstr "a") [c6w_f1] c6w_page3 = [c6w_f1] ∧
    c6w_env2.fs.exists_at (path_join (lstr "a") (lstr "mapping.json")) =
      false ∧
    run_archive_scan c6w_env2 (lstr "a") =
      .ok ⟨lstr "a", none, path_join (lstr "a") (lstr "extraction_results.json"),
           [], lstr "error",
           lstr "mapping.json not found in " ++ lstr "a"⟩ ∧
    run_archive_scan c6w_env (lstr "a") =
      .ok ⟨lstr "a", some (lstr "r"),
           path_join (lstr "a") (lstr "extraction_results.json"),
           [c6w_f1], lstr "complete", []⟩ := by
  refine ⟨?_, ?_, ?_, ?_, ?_⟩
  · exact c6_scan_skips_pages_error_iff_mapping_absent.1 c6w_env (lstr "a")
      [c6w_f1] c6w_page2 (lstr "p2.html") rfl rfl
  · exact c6_scan_skips_pages_error_iff_mapping_absent.2.1 c6w_env (lstr "a")
      [c6w_f1] c6w_page3 (lstr "p3.html") rfl rfl
  · exact c6_scan_skips_pages_error_iff_mapping_absent.2.2.2.1 c6w_env2
      (lstr "a")
      ⟨lstr "a", none, path_join (lstr "a") (lstr "extraction_results.json"),
       [], lstr "error", lstr "mapping.json not found in " ++ lstr "a"⟩
      rfl rfl
  · exact c6_scan_skips_pages_error_iff_mapping_absent.2.2.2.2.1 c6w_env2
      (lstr "a") rfl
  · have h := c6_scan_skips_pages_error_iff_mapping_absent.2.2.2.2.2 c6w_env
      (lstr "a") (lstr "M") c6w_doc rfl rfl rfl
    exact h.trans (by rfl)

end Scanner

namespace Crawler

open PyStr

/-- A small concrete public-suffix oracle for witness runs: the first label
is the domain, the rest the suffix. -/
def tldx_test : TldExtractor := fun host =>
  let p := partition_char host '.'
  (p.1, p.2.2)

def crun_env : CrawlEnv :=
  { tldx := tldx_test, pre_loop_exn := none, login_success := true,
    login_status := lstr "success", login_notes := [],
    post_login_url := lstr "http://a.com/",
    nav := fun t => if t = lstr "http://a.com/p1" then .fail (lstr "boom")
                    else .ok t (some 200),
    capture := fun _ => ⟨none, none⟩,
    raw_links := fun t => if t = lstr "http://a.com/" then
        some [lstr "http://a.com/p1", lstr "http://a.com/p2"] else some [],
    run_pref := lstr "run/", run_id := lstr "rid" }

def crun_inputs : MappingInputs := ⟨lstr "http://a.com/", 2, 2, true, false⟩

def crun_rec1 : PageRecord :=
  ⟨lstr "http://a.com/", lstr "http://a.com/", some 200,
   some (lstr "run/01_page.html"), some (lstr "run/01_page.png"), 0, none⟩

def crun_rec2 : PageRecord :=
  ⟨lstr "http://a.com/p1", lstr "http://a.com/p1", none, none, none, 1,
   some (lstr "boom")⟩

def crun_st1 : CrawlState :=
  ⟨[(lstr "http://a.com/p1", 1), (lstr "http://a.com/p2", 1)], [],
   [lstr "http://a.com/"], [], [], [crun_rec1], 2⟩

def crun_st2 : CrawlState :=
  ⟨[(lstr "http://a.com/p2", 1)], [],
   [lstr "http://a.com/p1", lstr "http://a.com/"], [], [],
   [crun_rec1, crun_rec2], 2⟩

theorem crun_step1 : crawl_step crun_env crun_inputs false (lstr "a.com")
    (init_state (lstr "http://a.com/")) = crun_st1 := by decide

theorem crun_step2 : crawl_step crun_env crun_inputs false (lstr "a.com")
    crun_st1 = crun_st2 := by decide

theorem crun_loop_eq : crawl_loop crun_env crun_inputs false (lstr "a.com")
    (init_state (lstr "http://a.com/")) = crun_st2 := by
  have hc1 : ((init_state (lstr "http://a.com/")).sameQ ≠ [] ∨
      (init_state (lstr "http://a.com/")).extQ ≠ []) ∧
      (init_state (lstr "http://a.com/")).records.length <
        crun_inputs.max_pages := by
    refine ⟨Or.inl ?_, ?_⟩ <;> decide
  have hc2 : (crun_st1.sameQ ≠ [] ∨ crun_st1.extQ ≠ []) ∧
      crun_st1.records.length < crun_inputs.max_pages := by
    refine ⟨Or.inl ?_, ?_⟩ <;> decide
  have hc3 : ¬ ((crun_st2.sameQ ≠ [] ∨ crun_st2.extQ ≠ []) ∧
      crun_st2.records.length < crun_inputs.max_pages) := by decide
  rw [crawl_loop, dif_pos hc1, crun_step1, crawl_loop, dif_pos hc2, crun_step2,
    crawl_loop, dif_neg hc3]

theorem crun_run_eq : run_mapping crun_env crun_inputs =
    ⟨lstr "rid", lstr "http://a.com/", [crun_rec1, crun_rec2],
     lstr "partial", lstr "Reached page crawl limit."⟩ := by
  have h0 : run_mapping crun_env crun_inputs =
      (if (crawl_loop crun_env crun_inputs false (lstr "a.com")
            (init_state (lstr "http://a.com/"))).records = [] then
        { run_id := lstr "rid", start_url := lstr "http://a.com/",
          pages := [], status := lstr "error",
          notes := lstr "No pages were archived during mapping." }
      else if (crawl_loop crun_env crun_inputs false (lstr "a.com")
            (init_state (lstr "http://a.com/"))).records.length ≥
          crun_inputs.max_pages then
        { run_id := lstr "rid", start_url := lstr "http://a.com/",
          pages := (crawl_loop crun_env crun_inputs false (lstr "a.com")
            (init_state (lstr "http://a.com/"))).records,
          status := lstr "partial",
          notes := lstr "Reached page crawl limit." }
      else
        { run_id := lstr "rid", start_url := lstr "http://a.com/",
          pages := (crawl_loop crun_env crun_inputs false (lstr "a.com")
            (init_state (lstr "http://a.com/"))).records,
          status := lstr "complete", notes := lstr "" }) := rfl
  rw [h0, crun_loop_eq]
  rw [if_neg (by decide), if_pos (by decide)]
  rfl

end Crawler

namespace Crawler

open PyStr

def c2_env_nologin : CrawlEnv :=
  { crun_env with login_success := false,
                  login_status := lstr "no_form_found" }

def c2_env_exn : CrawlEnv :=
  { crun_env with pre_loop_exn := some (lstr "boom") }

/-- C2 counterexample: a failed login aborts the run with an empty pages
list whose status is the login status (`no_form_found`), not `error`. -/
theorem c2_counterexample :
    (run_mapping c2_env_nologin crun_inputs).pages = [] ∧
    (run_mapping c2_env_nologin crun_inputs).status = lstr "no_form_found" ∧
    ¬ (run_mapping c2_env_nologin crun_inputs).status = lstr "error" :=
  ⟨rfl, rfl, by decide⟩

/-- C2 (amended): a pre-loop exception yields status `error` with no pages;
a failed login yields the login result's status (e.g. `no_form_found` or
`login_failed`) with no pages; otherwise status is `error` iff the pages
list is empty, `partial` iff pages are nonempty and their count reached
`max_pages`, and `complete` iff pages are nonempty below the cap. -/
theorem c2_status_trichotomy :
    (∀ (env : CrawlEnv) (inputs : MappingInputs) (exc : Str),
       env.pre_loop_exn = some exc →
       (run_mapping env inputs).status = lstr "error" ∧
       (run_mapping env inputs).pages = []) ∧
    (∀ (env : CrawlEnv) (inputs : MappingInputs),
       env.pre_loop_exn = none → env.login_success = false →
       (run_mapping env inputs).status = env.login_status ∧
       (run_mapping env inputs).pages = []) ∧
    (∀ (env : CrawlEnv) (inputs : MappingInputs),
       env.pre_loop_exn = none → env.login_success = true →
       ((run_mapping env inputs).status = lstr "error" ↔
         (run_mapping env inputs).pages = []) ∧
       ((run_mapping env inputs).pages ≠ [] →
         ((run_mapping env inputs).status = lstr "partial" ↔
           inputs.max_pages ≤ (run_mapping env inputs).pages.length)) ∧
       ((run_mapping env inputs).pages ≠ [] →
         ((run_mapping env inputs).status = lstr "complete" ↔
           (run_mapping env inputs).pages.length < inputs.max_pages))) := by
  refine ⟨?_, ?_, ?_⟩
  · intro env inputs exc hpre
    simp [run_mapping, hpre]
  · intro env inputs hpre hlog
    simp [run_mapping, hpre, hlog]
  · intro env inputs hpre hlog
    simp only [run_mapping, hpre, hlog, Bool.not_true, Bool.false_eq_true,
      if_false]
    by_cases hrec : (crawl_loop env inputs
        (inputs.allow_external || !inputs.same_origin_only)
        (registrable_domain env.tldx
          ((normalize_url env.post_login_url).getD env.post_login_url))
        (init_state ((normalize_url env.post_login_url).getD
          env.post_login_url))).records = []
    · rw [if_pos hrec]
      refine ⟨by simp, ?_, ?_⟩ <;> intro hne <;> exact absurd rfl hne
    · rw [if_neg hrec]
      by_cases hlen : (crawl_loop env inputs
          (inputs.allow_external || !inputs.same_origin_only)
          (registrable_domain env.tldx
            ((normalize_url env.post_login_url).getD env.post_login_url))
          (init_state ((normalize_url env.post_login_url).getD
            env.post_login_url))).records.length ≥ inputs.max_pages
      · rw [if_pos hlen]
        dsimp only
        refine ⟨?_, fun _ => ?_, fun _ => ?_⟩
        · constructor
          · intro h; exact absurd h (by decide)
          · intro h; exact absurd h hrec
        · simpa using hlen
        · constructor
          · intro h; exact absurd h (by decide)
          · intro h; omega
      · rw [if_neg hlen]
        dsimp only
        refine ⟨?_, fun _ => ?_, fun _ => ?_⟩
        · constructor
          · intro h; exact absurd h (by decide)
          · intro h; exact absurd h hrec
        · constructor
          · intro h; exact absurd h (by decide)
          · intro h; omega
        · simpa using Nat.lt_of_not_le (fun hh => hlen hh)

/-- C2 witness: the three branches exercised at concrete runs (a pre-loop
exception, a failed login, and the two-page `partial` run). -/
theorem c2_witness :
    (run_mapping c2_env_exn crun_inputs).status = lstr "error" ∧
    (run_mapping c2_env_exn crun_inputs).pages = [] ∧
    (run_mapping c2_env_nologin crun_inputs).status =
      c2_env_nologin.login_status ∧
    (run_mapping c2_env_nologin crun_inputs).pages = [] ∧
    ((run_mapping crun_env crun_inputs).status = lstr "partial" ↔
      crun_inputs.max_pages ≤ (run_mapping crun_env crun_inputs).pages.length) ∧
    ((run_mapping crun_env crun_inputs).status = lstr "error" ↔
      (run_mapping crun_env crun_inputs).pages = []) := by
  have h1 := c2_status_trichotomy.1 c2_env_exn crun_inputs (lstr "boom") rfl
  have h2 := c2_status_trichotomy.2.1 c2_env_nologin crun_inputs rfl rfl
  have h3 := c2_status_trichotomy.2.2 crun_env crun_inputs rfl rfl
  have hne : (run_mapping crun_env crun_inputs).pages ≠ [] := by
    rw [crun_run_eq]; decide
  exact ⟨h1.1, h1.2, h2.1, h2.2, h3.2.1 hne, h3.1⟩

end Crawler

namespace Crawler

open PyStr

theorem crawl_loop_stop_cond (env : CrawlEnv) (inputs : MappingInputs)
    (ae : Bool) (home : Str) (st : CrawlState) :
    ((crawl_loop env inputs ae home st).sameQ = [] ∧
     (crawl_loop env inputs ae home st).extQ = []) ∨
    inputs.max_pages ≤ (crawl_loop env inputs ae home st).records.length := by
  refine crawl_loop.induct env inputs ae home
    (fun st => ((crawl_loop env inputs ae home st).sameQ = [] ∧
      (crawl_loop env inputs ae home st).extQ = []) ∨
      inputs.max_pages ≤ (crawl_loop env inputs ae home st).records.length)
    ?_ ?_ st
  · intro x h ih
    rw [crawl_loop, dif_pos h]
    exact ih
  · intro x h
    rw [crawl_loop, dif_neg h]
    push_neg at h
    rcases Decidable.em (x.sameQ = []) with h1 | h1
    · rcases Decidable.em (x.extQ = []) with h2 | h2
      · exact Or.inl ⟨h1, h2⟩
      · exact Or.inr (h (Or.inr h2))
    · exact Or.inr (h (Or.inl h1))

theorem crawl_loop_le (env : CrawlEnv) (inputs : MappingInputs)
    (ae : Bool) (home : Str) (st : CrawlState) :
    st.records.length ≤ inputs.max_pages →
    (crawl_loop env inputs ae home st).records.length ≤ inputs.max_pages := by
  refine crawl_loop.induct env inputs ae home
    (fun st => st.records.length ≤ inputs.max_pages →
      (crawl_loop env inputs ae home st).records.length ≤ inputs.max_pages)
    ?_ ?_ st
  · intro x h ih _
    rw [crawl_loop, dif_pos h]
    apply ih
    rcases crawl_step_measure env inputs ae home x h.1 with ⟨hrec, _⟩ | hrec
    · rw [hrec]; exact Nat.le_of_lt h.2
    · rw [hrec]; exact h.2
  · intro x h hle
    rw [crawl_loop, dif_neg h]
    exact hle

/-- C3 (amended): the crawl loop keeps iterating while a queue is nonempty
and the total number of PageRecords (navigation-failure records included)
is below `max_pages`; at exit both queues are empty or the total record
count reached `max_pages`; consequently `run_mapping` returns at most
`max_pages` PageRecords. -/
theorem c3_loop_termination_and_bound :
    (∀ (env : CrawlEnv) (inputs : MappingInputs) (ae : Bool) (home : Str)
       (st : CrawlState),
       st.sameQ ≠ [] ∨ st.extQ ≠ [] →
       st.records.length < inputs.max_pages →
       crawl_loop env inputs ae home st =
         crawl_loop env inputs ae home (crawl_step env inputs ae home st)) ∧
    (∀ (env : CrawlEnv) (inputs : MappingInputs) (ae : Bool) (home : Str)
       (st : CrawlState),
       ((crawl_loop env inputs ae home st).sameQ = [] ∧
        (crawl_loop env inputs ae home st).extQ = []) ∨
       inputs.max_pages ≤ (crawl_loop env inputs ae home st).records.length) ∧
    (∀ (env : CrawlEnv) (inputs : MappingInputs),
       (run_mapping env inputs).pages.length ≤ inputs.max_pages) := by
  refine ⟨?_, crawl_loop_stop_cond, ?_⟩
  · intro env inputs ae home st hq hlen
    conv_lhs => rw [crawl_loop]
    rw [dif_pos ⟨hq, hlen⟩]
  · intro env inputs
    rcases hpre : env.pre_loop_exn with _ | exc
    · rcases hlog : env.login_success with _ | _
      · simp [run_mapping, hpre, hlog]
      · simp only [run_mapping, hpre, hlog, Bool.not_true, Bool.false_eq_true,
          if_false]
        have hb := crawl_loop_le env inputs
          (inputs.allow_external || !inputs.same_origin_only)
          (registrable_domain env.tldx
            ((normalize_url env.post_login_url).getD env.post_login_url))
          (init_state ((normalize_url env.post_login_url).getD
            env.post_login_url))
          (by simp [init_state])
        by_cases hrec : (crawl_loop env inputs
            (inputs.allow_external || !inputs.same_origin_only)
            (registrable_domain env.tldx
              ((normalize_url env.post_login_url).getD env.post_login_url))
            (init_state ((normalize_url env.post_login_url).getD
              env.post_login_url))).records = []
        · rw [if_pos hrec]
          simp
        · rw [if_neg hrec]
          by_cases hlen : (crawl_loop env inputs
              (inputs.allow_external || !inputs.same_origin_only)
              (registrable_domain env.tldx
                ((normalize_url env.post_login_url).getD env.post_login_url))
              (init_state ((normalize_url env.post_login_url).getD
                env.post_login_url))).records.length ≥ inputs.max_pages
          · rw [if_pos hlen]
            dsimp only
            exact hb
          · rw [if_neg hlen]
            dsimp only
            exact hb
    · simp [run_mapping, hpre]

/-- C3 counterexample: a run that stops with a nonempty same-site queue
although only one target was archived (the other record is a navigation
failure) and `max_pages = 2`: the loop counts failure records against the
cap. -/
theorem c3_counterexample :
    crawl_loop crun_env crun_inputs false (lstr "a.com")
      (init_state (lstr "http://a.com/")) = crun_st2 ∧
    crun_st2.sameQ ≠ [] ∧
    (crun_st2.records.filter (fun r => r.error == none)).length <
      crun_inputs.max_pages ∧
    crun_st2.records.length = crun_inputs.max_pages :=
  ⟨crun_loop_eq, by decide, by decide, by decide⟩

/-- C3 witness: the loop steps at the initial crun state, its exit state
satisfies the stop condition, and the run's page count is within the cap. -/
theorem c3_witness :
    ((init_state (lstr "http://a.com/")).sameQ ≠ [] ∨
      (init_state (lstr "http://a.com/")).extQ ≠ []) ∧
    (init_state (lstr "http://a.com/")).records.length <
      crun_inputs.max_pages ∧
    crawl_loop crun_env crun_inputs false (lstr "a.com")
        (init_state (lstr "http://a.com/")) =
      crawl_loop crun_env crun_inputs false (lstr "a.com")
        (crawl_step crun_env crun_inputs false (lstr "a.com")
          (init_state (lstr "http://a.com/"))) ∧
    (((crawl_loop crun_env crun_inputs false (lstr "a.com")
        (init_state (lstr "http://a.com/"))).sameQ = [] ∧
      (crawl_loop crun_env crun_inputs false (lstr "a.com")
        (init_state (lstr "http://a.com/"))).extQ = []) ∨
     crun_inputs.max_pages ≤ (crawl_loop crun_env crun_inputs false
        (lstr "a.com") (init_state (lstr "http://a.com/"))).records.length) ∧
    (run_mapping crun_env crun_inputs).pages.length ≤
      crun_inputs.max_pages := by
  refine ⟨Or.inl (by decide), by decide, ?_, ?_, ?_⟩
  · exact c3_loop_termination_and_bound.1 crun_env crun_inputs false
      (lstr "a.com") (init_state (lstr "http://a.com/"))
      (Or.inl (by decide)) (by decide)
  · exact c3_loop_termination_and_bound.2.1 crun_env crun_inputs false
      (lstr "a.com") (init_state (lstr "http://a.com/"))
  · exact c3_loop_termination_and_bound.2.2 crun_env crun_inputs

end Crawler

namespace Crawler

open PyStr UrlLib

/-- C9 counterexample: with a passed `infra_blocklist` of `{evil.com}` a
link on `google.com` — outside the passed set, allow-listed as external —
is still dropped, while the same call with a falsy `infra_blocklist`
keeps it: the drop tests the module-level list, not the passed one. -/
theorem c9_counterexample :
    extract_links tldx_test (some [lstr "http://google.com/a"])
      (lstr "http://a.com/") (lstr "a.com") true false
      (some [lstr "google.com"]) (some [lstr "evil.com"]) (some []) = [] ∧
    registrable_domain tldx_test (lstr "http://google.com/a") ∉
      [lstr "evil.com"] ∧
    extract_links tldx_test (some [lstr "http://google.com/a"])
      (lstr "http://a.com/") (lstr "a.com") true false
      (some [lstr "google.com"]) (some []) (some []) =
      [lstr "http://google.com/a"] :=
  ⟨by decide, by decide, by decide⟩

/-- C9 (amended): the infra filter of `extract_links` drops a normalized
link iff the passed `infra_blocklist` is truthy and the link's registrable
domain is nonempty, differs from `home_domain` and is a member of the
module-level `INFRA_DOMAIN_BLOCKLIST`; beyond truthiness the contents of
the passed `infra_blocklist` are ignored, and a link whose domain the
global list does not make infra passes the stage regardless of the passed
list. -/
theorem c9_infra_filter_uses_global_list :
    (∀ (tldx : TldExtractor) (base home : Str) (ae aal : Bool)
       (allowlist : List Str) (infra blocked : Option (List Str))
       (acc : List Str × List Str) (href n : Str),
       normalize_url (urljoin base href) = some n →
       acc.2.contains n = false →
       (opt_truthy blocked && opt_member blocked
         (registrable_domain tldx n)) = false →
       opt_truthy infra = true →
       is_infra_domain (registrable_domain tldx n) home = true →
       link_step tldx base home ae aal allowlist infra blocked acc href =
         acc) ∧
    (∀ (tldx : TldExtractor) (base home : Str) (ae aal : Bool)
       (allowlist : List Str) (infra1 infra2 blocked : Option (List Str))
       (acc : List Str × List Str) (href : Str),
       opt_truthy infra1 = opt_truthy infra2 →
       link_step tldx base home ae aal allowlist infra1 blocked acc href =
         link_step tldx base home ae aal allowlist infra2 blocked acc href) ∧
    (∀ (tldx : TldExtractor) (base home : Str) (ae aal : Bool)
       (allowlist : List Str) (l : List Str) (blocked : Option (List Str))
       (acc : List Str × List Str) (href n : Str),
       normalize_url (urljoin base href) = some n →
       is_infra_domain (registrable_domain tldx n) home = false →
       link_step tldx base home ae aal allowlist (some l) blocked acc href =
         link_step tldx base home ae aal allowlist none blocked acc href) := by
  refine ⟨?_, ?_, ?_⟩
  · intro tldx base home ae aal allowlist infra blocked acc href n hn hseen
      hblocked htruthy hinf
    simp [link_step, hn, hseen, hblocked, htruthy, hinf]
  · intro tldx base home ae aal allowlist infra1 infra2 blocked acc href h
    unfold link_step
    rw [h]
  · intro tldx base home ae aal allowlist l blocked acc href n hn hinf
    simp only [link_step]
    rw [hn]
    simp [hinf, opt_truthy]

/-- C9 witness: the three conjuncts at the `google.com` link (dropped with
a truthy unrelated passed list), at two different truthy passed lists
(identical outcome), and at a non-infra `b.com` link (passed list
irrelevant). -/
theorem c9_witness :
    link_step tldx_test (lstr "http://a.com/") (lstr "a.com") true false
      [lstr "google.com"] (some [lstr "evil.com"]) (some []) ([], [])
      (lstr "http://google.com/a") = ([], []) ∧
    link_step tldx_test (lstr "http://a.com/") (lstr "a.com") true false
      [lstr "google.com"] (some [lstr "evil.com"]) (some []) ([], [])
      (lstr "http://google.com/a") =
      link_step tldx_test (lstr "http://a.com/") (lstr "a.com") true false
        [lstr "google.com"] (some [lstr "google.com"]) (some []) ([], [])
        (lstr "http://google.com/a") ∧
    link_step tldx_test (lstr "http://a.com/") (lstr "a.com") false false
      [] (some [lstr "evil.com"]) (some []) ([], [])
      (lstr "http://b.com/x") =
      link_step tldx_test (lstr "http://a.com/") (lstr "a.com") false false
        [] none (some []) ([], []) (lstr "http://b.com/x") := by
  refine ⟨?_, ?_, ?_⟩
  · exact c9_infra_filter_uses_global_list.1 tldx_test (lstr "http://a.com/")
      (lstr "a.com") true false [lstr "google.com"] (some [lstr "evil.com"])
      (some []) ([], []) (lstr "http://google.com/a")
      (lstr "http://google.com/a") (by decide) (by decide) (by decide)
      (by decide) (by decide)
  · exact c9_infra_filter_uses_global_list.2.1 tldx_test
      (lstr "http://a.com/") (lstr "a.com") true false [lstr "google.com"]
      (some [lstr "evil.com"]) (some [lstr "google.com"]) (some []) ([], [])
      (lstr "http://google.com/a") (by decide)
  · exact c9_infra_filter_uses_global_list.2.2 tldx_test
      (lstr "http://a.com/") (lstr "a.com") false false []
      [lstr "evil.com"] (some []) ([], []) (lstr "http://b.com/x")
      (lstr "http://b.com/x") (by decide) (by decide)

end Crawler

namespace Crawler

open PyStr

theorem auth_wall_blocked_mono (home : Str) (counts : List (Str × Nat))
    (blocked : List Str) (fu fd d : Str) (hd : d ∈ blocked) :
    d ∈ (auth_wall_update home counts blocked fu fd).2.1 := by
  simp only [auth_wall_update]
  split
  · split
    · exact List.mem_cons_of_mem _ hd
    · exact hd
  · split
    · exact hd
    · exact hd

theorem process_nav_ok_blocked_mono (env : CrawlEnv) (inputs : MappingInputs)
    (ae : Bool) (home : Str) (st1 : CrawlState) (target : Str) (depth : Nat)
    (normalized page_url : Str) (status : Option Int) (d : Str)
    (hd : d ∈ st1.blocked) :
    d ∈ (process_nav_ok env inputs ae home st1 target depth normalized
      page_url status).blocked := by
  simp only [process_nav_ok]
  split
  · exact auth_wall_blocked_mono _ _ _ _ _ d hd
  · rw [(enqueue_links_fields env.tldx inputs.max_depth home _ depth _).2.2.1]
    exact auth_wall_blocked_mono _ _ _ _ _ d hd

theorem process_target_blocked_mono (env : CrawlEnv) (inputs : MappingInputs)
    (ae : Bool) (home : Str) (st : CrawlState) (t : Str) (dp : Nat) (d : Str)
    (hd : d ∈ st.blocked) :
    d ∈ (process_target env inputs ae home st t dp).blocked := by
  rcases hn : normalize_url t with _ | n
  · rw [process_target_eq_none env inputs ae home st t dp hn]; exact hd
  · by_cases hs : n ∈ st.seen
    · rw [process_target_eq_seen env inputs ae home st t dp n hn hs]; exact hd
    · by_cases hi : is_infra_domain (registrable_domain env.tldx n) home = true
      · rw [process_target_eq_infra env inputs ae home st t dp n hn hs hi]
        exact hd
      · by_cases hb : registrable_domain env.tldx n ∈ st.blocked
        · rw [process_target_eq_blocked env inputs ae home st t dp n hn hs hi hb]
          exact hd
        · rcases hnav : env.nav n with err | ⟨purl, pstat⟩
          · rw [process_target_eq_navfail env inputs ae home st t dp n err hn
              hs hi hb hnav]
            exact hd
          · rw [process_target_eq_navok env inputs ae home st t dp n purl pstat
              hn hs hi hb hnav]
            exact process_nav_ok_blocked_mono env inputs ae home _ t dp n purl
              pstat d hd

theorem crawl_step_blocked_mono (env : CrawlEnv) (inputs : MappingInputs)
    (ae : Bool) (home : Str) (st : CrawlState) (d : Str)
    (hd : d ∈ st.blocked) :
    d ∈ (crawl_step env inputs ae home st).blocked := by
  unfold crawl_step
  rcases st.sameQ with _ | ⟨⟨t, dp⟩, rest⟩
  · rcases st.extQ with _ | ⟨⟨t, dp⟩, rest⟩
    · exact hd
    · exact process_target_blocked_mono env inputs ae home _ t dp d hd
  · exact process_target_blocked_mono env inputs ae home _ t dp d hd

theorem crawl_loop_blocked_mono (env : CrawlEnv) (inputs : MappingInputs)
    (ae : Bool) (home : Str) (st : CrawlState) (d : Str) :
    d ∈ st.blocked → d ∈ (crawl_loop env inputs ae home st).blocked := by
  refine crawl_loop.induct env inputs ae home
    (fun st => d ∈ st.blocked → d ∈ (crawl_loop env inputs ae home st).blocked)
    ?_ ?_ st
  · intro x h ih hd
    rw [crawl_loop, dif_pos h]
    exact ih (crawl_step_blocked_mono env inputs ae home x d hd)
  · intro x h hd
    rw [crawl_loop, dif_neg h]
    exact hd

end Crawler

namespace Crawler

open PyStr

/-- C1 (amended): blocked auth-wall domains persist for the rest of the
run; a navigation that lands on a login-like URL of a foreign domain whose
redirect count reaches the threshold of 2 adds that domain to the blocked
set, archives the record, and expands no links; and a dequeued target
whose registrable domain is blocked is dropped and marked seen without
navigation or a record.  (Later records can still land on the blocked
domain via redirects: only targets are filtered.) -/
theorem c1_auth_wall_blocking :
    (∀ (env : CrawlEnv) (inputs : MappingInputs) (ae : Bool) (home : Str)
       (st : CrawlState) (d : Str),
       d ∈ st.blocked → d ∈ (crawl_loop env inputs ae home st).blocked) ∧
    (∀ (env : CrawlEnv) (inputs : MappingInputs) (ae : Bool) (home : Str)
       (st1 : CrawlState) (target : Str) (depth : Nat)
       (normalized page_url : Str) (status : Option Int) (fu fd : Str),
       fu = (normalize_url page_url).getD page_url →
       fd = registrable_domain env.tldx fu →
       looks_like_login fu = true →
       fd ≠ [] → fd ≠ home →
       AUTH_WALL_REDIRECT_THRESHOLD ≤ lookup_count st1.counts fd + 1 →
       (process_nav_ok env inputs ae home st1 target depth normalized
          page_url status).blocked = fd :: st1.blocked ∧
       (process_nav_ok env inputs ae home st1 target depth normalized
          page_url status).sameQ = st1.sameQ ∧
       (process_nav_ok env inputs ae home st1 target depth normalized
          page_url status).extQ = st1.extQ ∧
       (process_nav_ok env inputs ae home st1 target depth normalized
          page_url status).records = st1.records ++
         [archive_page env.run_pref (env.capture st1.counter) st1.counter
           target fu depth status]) ∧
    (∀ (env : CrawlEnv) (inputs : MappingInputs) (ae : Bool) (home : Str)
       (st : CrawlState) (t : Str) (dp : Nat) (n : Str),
       normalize_url t = some n →
       n ∉ st.seen →
       ¬ is_infra_domain (registrable_domain env.tldx n) home = true →
       registrable_domain env.tldx n ∈ st.blocked →
       process_target env inputs ae home st t dp =
         { st with seen := n :: st.seen }) := by
  refine ⟨?_, ?_, ?_⟩
  · intro env inputs ae home st d hd
    exact crawl_loop_blocked_mono env inputs ae home st d hd
  · intro env inputs ae home st1 target depth normalized page_url status fu fd
      hfu hfd hlogin h1 h2 h3
    have hsent : auth_wall_update home st1.counts st1.blocked fu fd =
        (set_count st1.counts fd (lookup_count st1.counts fd + 1),
         fd :: st1.blocked, true) := by
      simp only [auth_wall_update]
      rw [if_pos hlogin, if_pos ⟨h1, h2, h3⟩]
    simp only [process_nav_ok, ← hfu, ← hfd, hsent, Bool.or_true, if_true]
    simp
  · intro env inputs ae home st t dp n hn hs hi hb
    exact process_target_eq_blocked env inputs ae home st t dp n hn hs hi hb

end Crawler

namespace Crawler

open PyStr

def c1_env : CrawlEnv :=
  { tldx := tldx_test, pre_loop_exn := none, login_success := true,
    login_status := lstr "success", login_notes := [],
    post_login_url := lstr "http://a.com/",
    nav := fun t =>
      if t = lstr "http://a.com/p1" then
        .ok (lstr "http://evil.com/login") (some 200)
      else if t = lstr "http://a.com/p2" then
        .ok (lstr "http://evil.com/login") (some 200)
      else if t = lstr "http://a.com/p3" then
        .ok (lstr "http://evil.com/home") (some 200)
      else .ok t (some 200),
    capture := fun _ => ⟨none, none⟩,
    raw_links := fun t => if t = lstr "http://a.com/" then
        some [lstr "http://a.com/p1", lstr "http://a.com/p2",
              lstr "http://a.com/p3"]
      else some [],
    run_pref := lstr "run/", run_id := lstr "rid" }

def c1_inputs : MappingInputs := ⟨lstr "http://a.com/", 10, 2, true, false⟩

def c1_rec1 : PageRecord :=
  ⟨lstr "http://a.com/", lstr "http://a.com/", some 200,
   some (lstr "run/01_page.html"), some (lstr "run/01_page.png"), 0, none⟩

def c1_rec2 : PageRecord :=
  ⟨lstr "http://evil.com/login", lstr "http://a.com/p1", some 200,
   some (lstr "run/02_page.html"), some (lstr "run/02_page.png"), 1, none⟩

def c1_rec3 : PageRecord :=
  ⟨lstr "http://evil.com/login", lstr "http://a.com/p2", some 200,
   some (lstr "run/03_page.html"), some (lstr "run/03_page.png"), 1, none⟩

def c1_rec4 : PageRecord :=
  ⟨lstr "http://evil.com/home", lstr "http://a.com/p3", some 200,
   some (lstr "run/04_page.html"), some (lstr "run/04_page.png"), 1, none⟩

def c1_st1 : CrawlState :=
  ⟨[(lstr "http://a.com/p1", 1), (lstr "http://a.com/p2", 1),
    (lstr "http://a.com/p3", 1)], [], [lstr "http://a.com/"], [], [],
   [c1_rec1], 2⟩

def c1_st2 : CrawlState :=
  ⟨[(lstr "http://a.com/p2", 1), (lstr "http://a.com/p3", 1)], [],
   [lstr "http://a.com/p1", lstr "http://a.com/"], [],
   [(lstr "evil.com", 1)], [c1_rec1, c1_rec2], 3⟩

def c1_st3 : CrawlState :=
  ⟨[(lstr "http://a.com/p3", 1)], [],
   [lstr "http://a.com/p2", lstr "http://a.com/p1", lstr "http://a.com/"],
   [lstr "evil.com"], [(lstr "evil.com", 2)], [c1_rec1, c1_rec2, c1_rec3], 4⟩

def c1_st4 : CrawlState :=
  ⟨[], [],
   [lstr "http://a.com/p3", lstr "http://a.com/p2", lstr "http://a.com/p1",
    lstr "http://a.com/"],
   [lstr "evil.com"], [(lstr "evil.com", 2)],
   [c1_rec1, c1_rec2, c1_rec3, c1_rec4], 5⟩

theorem c1_step1 : crawl_step c1_env c1_inputs false (lstr "a.com")
    (init_state (lstr "http://a.com/")) = c1_st1 := by decide

theorem c1_step2 : crawl_step c1_env c1_inputs false (lstr "a.com") c1_st1 =
    c1_st2 := by decide

theorem c1_step3 : crawl_step c1_env c1_inputs false (lstr "a.com") c1_st2 =
    c1_st3 := by decide

theorem c1_step4 : crawl_step c1_env c1_inputs false (lstr "a.com") c1_st3 =
    c1_st4 := by decide

theorem c1_loop_st4 : crawl_loop c1_env c1_inputs false (lstr "a.com")
    c1_st4 = c1_st4 := by
  have hc : ¬ ((c1_st4.sameQ ≠ [] ∨ c1_st4.extQ ≠ []) ∧
      c1_st4.records.length < c1_inputs.max_pages) := by decide
  rw [crawl_loop, dif_neg hc]

theorem c1_tail_eq : crawl_loop c1_env c1_inputs false (lstr "a.com")
    c1_st3 = c1_st4 := by
  have hc : (c1_st3.sameQ ≠ [] ∨ c1_st3.extQ ≠ []) ∧
      c1_st3.records.length < c1_inputs.max_pages :=
    ⟨Or.inl (by decide), by decide⟩
  rw [crawl_loop, dif_pos hc, c1_step4, c1_loop_st4]

theorem c1_loop_eq : crawl_loop c1_env c1_inputs false (lstr "a.com")
    (init_state (lstr "http://a.com/")) = c1_st4 := by
  have hc0 : ((init_state (lstr "http://a.com/")).sameQ ≠ [] ∨
      (init_state (lstr "http://a.com/")).extQ ≠ []) ∧
      (init_state (lstr "http://a.com/")).records.length <
        c1_inputs.max_pages := ⟨Or.inl (by decide), by decide⟩
  have hc1 : (c1_st1.sameQ ≠ [] ∨ c1_st1.extQ ≠ []) ∧
      c1_st1.records.length < c1_inputs.max_pages :=
    ⟨Or.inl (by decide), by decide⟩
  have hc2 : (c1_st2.sameQ ≠ [] ∨ c1_st2.extQ ≠ []) ∧
      c1_st2.records.length < c1_inputs.max_pages :=
    ⟨Or.inl (by decide), by decide⟩
  rw [crawl_loop, dif_pos hc0, c1_step1, crawl_loop, dif_pos hc1, c1_step2,
    crawl_loop, dif_pos hc2, c1_step3, c1_tail_eq]

/-- C1 counterexample: after `evil.com` is blocked (state after the second
login redirect), the remainder of the same run still appends a PageRecord
whose `url` is on `evil.com` — a page on the home site that redirects
there.  Only dequeued targets are filtered, not landed URLs. -/
theorem c1_counterexample :
    crawl_loop c1_env c1_inputs false (lstr "a.com")
      (init_state (lstr "http://a.com/")) = c1_st4 ∧
    lstr "evil.com" ∈ c1_st3.blocked ∧
    crawl_loop c1_env c1_inputs false (lstr "a.com") c1_st3 = c1_st4 ∧
    c1_rec4 ∈ c1_st4.records ∧
    c1_rec4 ∉ c1_st3.records ∧
    registrable_domain tldx_test c1_rec4.url = lstr "evil.com" :=
  ⟨c1_loop_eq, by decide, c1_tail_eq, by decide, by decide, by decide⟩

def c1w_st : CrawlState := ⟨[], [], [], [], [(lstr "evil.com", 1)], [], 1⟩

/-- C1 witness: blocked-set persistence along the concrete run, the
blocking navigation itself (second login redirect to `evil.com`), and the
dequeue-drop of a target on the blocked domain. -/
theorem c1_witness :
    lstr "evil.com" ∈
      (crawl_loop c1_env c1_inputs false (lstr "a.com") c1_st3).blocked ∧
    (process_nav_ok c1_env c1_inputs false (lstr "a.com") c1w_st
      (lstr "http://a.com/p2") 1 (lstr "http://a.com/p2")
      (lstr "http://evil.com/login") (some 200)).blocked =
      lstr "evil.com" :: c1w_st.blocked ∧
    (process_nav_ok c1_env c1_inputs false (lstr "a.com") c1w_st
      (lstr "http://a.com/p2") 1 (lstr "http://a.com/p2")
      (lstr "http://evil.com/login") (some 200)).sameQ = c1w_st.sameQ ∧
    (process_nav_ok c1_env c1_inputs false (lstr "a.com") c1w_st
      (lstr "http://a.com/p2") 1 (lstr "http://a.com/p2")
      (lstr "http://evil.com/login") (some 200)).extQ = c1w_st.extQ ∧
    (process_nav_ok c1_env c1_inputs false (lstr "a.com") c1w_st
      (lstr "http://a.com/p2") 1 (lstr "http://a.com/p2")
      (lstr "http://evil.com/login") (some 200)).records =
      c1w_st.records ++ [archive_page c1_env.run_pref
        (c1_env.capture c1w_st.counter) c1w_st.counter
        (lstr "http://a.com/p2") (lstr "http://evil.com/login") 1
        (some 200)] ∧
    process_target c1_env c1_inputs false (lstr "a.com") c1_st3
      (lstr "http://evil.com/x") 1 =
      { c1_st3 with seen := lstr "http://evil.com/x" :: c1_st3.seen } := by
  have hb := c1_auth_wall_blocking.2.1 c1_env c1_inputs false (lstr "a.com")
    c1w_st (lstr "http://a.com/p2") 1 (lstr "http://a.com/p2")
    (lstr "http://evil.com/login") (some 200) (lstr "http://evil.com/login")
    (lstr "evil.com") (by decide) (by decide) (by decide) (by decide)
    (by decide) (by decide)
  refine ⟨?_, hb.1, hb.2.1, hb.2.2.1, hb.2.2.2, ?_⟩
  · exact c1_auth_wall_blocking.1 c1_env c1_inputs false (lstr "a.com")
      c1_st3 (lstr "evil.com") (by decide)
  · exact c1_auth_wall_blocking.2.2 c1_env c1_inputs false (lstr "a.com")
      c1_st3 (lstr "http://evil.com/x") 1 (lstr "http://evil.com/x")
      (by decide) (by decide) (by decide) (by decide)

end Crawler

namespace PyStr

theorem dropWhile_headI_false (p : Char → Bool) (l : Str)
    (h : l.dropWhile p ≠ []) : p (l.dropWhile p).headI = false := by
  induction l with
  | nil => exact absurd rfl h
  | cons a as ih =>
    by_cases hp : p a
    · rw [List.dropWhile_cons_of_pos hp] at h ⊢
      exact ih h
    · rw [List.dropWhile_cons_of_neg hp]
      simpa using hp

theorem takeWhile_all (p : Char → Bool) (l : Str) :
    (l.takeWhile p).all p = true := by
  rw [List.all_eq_true]
  intro x hx
  exact List.mem_takeWhile_imp hx

end PyStr

namespace Crawler

open PyStr UrlLib

/-- C4 counterexample: `web.example.com` does not begin with `www.`, but
normalization strips its leading `w` anyway (`lstrip` takes a character
set), and the default port 80 is kept. -/
theorem c4_counterexample :
    normalize_url (lstr "http://web.example.com:80/a") =
      some (lstr "http://eb.example.com:80/a") ∧
    (lstr "www.").isPrefixOf (lstr "web.example.com") = false ∧
    ¬ lstr "eb.example.com" = lstr "web.example.com" :=
  ⟨rfl, by decide, by decide⟩

/-- C4 (amended): an accepted candidate yields a lower-cased scheme in
`{http, https}`; the host is the lower-cased hostname with every leading
character drawn from the set `{'w', '.'}` removed (a character-set strip,
not a literal `www.` prefix), leaving a nonempty host whose first
character is outside that set; the port parse did not fail, and an
explicit `:port` is appended whenever a nonzero port is present — default
ports included; path, params and query are those of the parsed candidate
and the fragment is dropped. -/
theorem c4_normalize_shape : ∀ (c r : Str), normalize_url c = some r →
    lower (urlparse c).scheme ∈ ALLOWED_SCHEMES ∧
    (lower (hostname (urlparse c).netloc)).takeWhile
        (fun ch => (lstr "www.").contains ch) ++
      (lower (hostname (urlparse c).netloc)).dropWhile
        (fun ch => (lstr "www.").contains ch) =
      lower (hostname (urlparse c).netloc) ∧
    ((lower (hostname (urlparse c).netloc)).takeWhile
        (fun ch => (lstr "www.").contains ch)).all
        (fun ch => (lstr "www.").contains ch) = true ∧
    (lower (hostname (urlparse c).netloc)).dropWhile
        (fun ch => (lstr "www.").contains ch) ≠ [] ∧
    (lstr "www.").contains
        ((lower (hostname (urlparse c).netloc)).dropWhile
          (fun ch => (lstr "www.").contains ch)).headI = false ∧
    port (urlparse c).netloc ≠ .error () ∧
    r = urlunparse { urlparse c with
      scheme := lower (urlparse c).scheme,
      netloc := (lower (hostname (urlparse c).netloc)).dropWhile
          (fun ch => (lstr "www.").contains ch) ++
        (match port (urlparse c).netloc with
         | .ok (some p) => if p ≠ 0 then ':' :: nat_render p else []
         | _ => []),
      fragment := [] } := by
  intro c r h
  simp only [normalize_url] at h
  split at h
  · exact absurd h (by simp)
  · split at h
    · exact absurd h (by simp)
    · split at h
      · exact absurd h (by simp)
      · split at h
        · exact absurd h (by simp)
        · split at h
          · exact absurd h (by simp)
          · rename_i hc hscheme hallowed hhost scrut portv hport
            refine ⟨?_, List.takeWhile_append_dropWhile _ _,
              takeWhile_all _ _, hhost, dropWhile_headI_false _ _ hhost,
              ?_, ?_⟩
            · simpa using hallowed
            · rw [hport]
              exact fun hh => Except.noConfusion hh
            · rw [hport]
              rcases portv with _ | p
              · exact (Option.some.inj h).symm
              · exact (Option.some.inj h).symm

end Crawler

namespace Crawler

open PyStr UrlLib

/-- C4 witness: the shape theorem at the accepted candidate
`http://WWW.Ex.com:80/A?q=1#frag` (host-lowering, char-set strip, kept
default port, dropped fragment). -/
theorem c4_witness :
    lower (urlparse (lstr "http://WWW.Ex.com:80/A?q=1#frag")).scheme ∈
      ALLOWED_SCHEMES ∧
    (lower (hostname (urlparse
        (lstr "http://WWW.Ex.com:80/A?q=1#frag")).netloc)).takeWhile
        (fun ch => (lstr "www.").contains ch) ++
      (lower (hostname (urlparse
        (lstr "http://WWW.Ex.com:80/A?q=1#frag")).netloc)).dropWhile
        (fun ch => (lstr "www.").contains ch) =
      lower (hostname (urlparse
        (lstr "http://WWW.Ex.com:80/A?q=1#frag")).netloc) ∧
    ((lower (hostname (urlparse
        (lstr "http://WWW.Ex.com:80/A?q=1#frag")).netloc)).takeWhile
        (fun ch => (lstr "www.").contains ch)).all
        (fun ch => (lstr "www.").contains ch) = true ∧
    (lower (hostname (urlparse
        (lstr "http://WWW.Ex.com:80/A?q=1#frag")).netloc)).dropWhile
        (fun ch => (lstr "www.").contains ch) ≠ [] ∧
    (lstr "www.").contains
        ((lower (hostname (urlparse
          (lstr "http://WWW.Ex.com:80/A?q=1#frag")).netloc)).dropWhile
          (fun ch => (lstr "www.").contains ch)).headI = false ∧
    port (urlparse (lstr "http://WWW.Ex.com:80/A?q=1#frag")).netloc ≠
      .error () ∧
    lstr "http://ex.com:80/A?q=1" =
      urlunparse { urlparse (lstr "http://WWW.Ex.com:80/A?q=1#frag") with
        scheme := lower (urlparse
          (lstr "http://WWW.Ex.com:80/A?q=1#frag")).scheme,
        netloc := (lower (hostname (urlparse
            (lstr "http://WWW.Ex.com:80/A?q=1#frag")).netloc)).dropWhile
            (fun ch => (lstr "www.").contains ch) ++
          (match port (urlparse
              (lstr "http://WWW.Ex.com:80/A?q=1#frag")).netloc with
           | .ok (some p) => if p ≠ 0 then ':' :: nat_render p else []
           | _ => []),
        fragment := [] } :=
  c4_normalize_shape (lstr "http://WWW.Ex.com:80/A?q=1#frag")
    (lstr "http://ex.com:80/A?q=1") rfl

end Crawler

namespace PyStr

theorem char_toNat_ofNat (n : Nat) (h : n < 55296) :
    (Char.ofNat n).toNat = n := by
  unfold Char.ofNat
  split
  · simp [Char.ofNatAux, Char.toNat, UInt32.toNat, UInt32.ofNat',
      BitVec.toNat_ofNat]
  · rename_i hv
    exact absurd (Or.inl h) hv

theorem char_eq_of_toNat (a b : Char) (h : a.toNat = b.toNat) : a = b := by
  apply Char.eq_of_val_eq
  apply UInt32.eq_of_toBitVec_eq
  apply BitVec.eq_of_toNat_eq
  exact h

theorem char_le_iff (a b : Char) : a ≤ b ↔ a.toNat ≤ b.toNat := by
  rw [Char.le_def, UInt32.le_def, BitVec.le_def]
  exact Iff.rfl

theorem is_ascii_upper_iff (c : Char) :
    is_ascii_upper c = true ↔ 65 ≤ c.toNat ∧ c.toNat ≤ 90 := by
  unfold is_ascii_upper
  rw [Bool.and_eq_true, decide_eq_true_iff, decide_eq_true_iff,
    char_le_iff, char_le_iff]
  exact Iff.rfl

theorem is_ascii_digit_iff (c : Char) :
    is_ascii_digit c = true ↔ 48 ≤ c.toNat ∧ c.toNat ≤ 57 := by
  unfold is_ascii_digit
  rw [Bool.and_eq_true, decide_eq_true_iff, decide_eq_true_iff,
    char_le_iff, char_le_iff]
  exact Iff.rfl

theorem to_lower_char_toNat (c : Char) :
    (to_lower_char c).toNat = c.toNat + 32 ∧ 65 ≤ c.toNat ∧ c.toNat ≤ 90 ∨
    to_lower_char c = c ∧ is_ascii_upper c = false := by
  unfold to_lower_char
  by_cases h : is_ascii_upper c
  · left
    obtain ⟨h1, h2⟩ := (is_ascii_upper_iff c).mp h
    rw [if_pos h]
    exact ⟨char_toNat_ofNat _ (by omega), h1, h2⟩
  · right
    rw [if_neg h]
    exact ⟨rfl, by simpa using h⟩

theorem to_lower_char_of_not_upper (c : Char)
    (h : is_ascii_upper c = false) : to_lower_char c = c := by
  unfold to_lower_char
  rw [if_neg (by simp [h])]

theorem to_lower_char_idem (c : Char) :
    to_lower_char (to_lower_char c) = to_lower_char c := by
  rcases to_lower_char_toNat c with ⟨h1, h2, h3⟩ | ⟨h1, _⟩
  · have hup : is_ascii_upper (to_lower_char c) = false := by
      rcases hb : is_ascii_upper (to_lower_char c) with _ | _
      · rfl
      · obtain ⟨hb1, hb2⟩ := (is_ascii_upper_iff _).mp hb
        omega
    exact to_lower_char_of_not_upper _ hup
  · rw [h1, h1]

/-- `to_lower_char` can only produce a character outside `a`–`z` if it was
the input unchanged. -/
theorem to_lower_char_preserve (c d : Char)
    (hd : d.toNat < 97 ∨ 122 < d.toNat) (h : to_lower_char c = d) : c = d := by
  rcases to_lower_char_toNat c with ⟨h1, h2, h3⟩ | ⟨h1, _⟩
  · exfalso
    rw [h] at h1
    omega
  · rw [← h1, h]

theorem lower_fixed (s : Str) (h : ∀ c ∈ s, to_lower_char c = c) :
    lower s = s := by
  unfold lower
  induction s with
  | nil => rfl
  | cons a as ih =>
    rw [List.map_cons, h a (List.mem_cons_self a as),
      ih (fun c hc => h c (List.mem_cons_of_mem a hc))]

theorem lower_idem (s : Str) : lower (lower s) = lower s := by
  apply lower_fixed
  intro c hc
  rw [lower] at hc
  obtain ⟨x, _, hx⟩ := List.mem_map.mp hc
  rw [← hx]
  exact to_lower_char_idem x

end PyStr

namespace PyStr

theorem nat_render_go_append (fuel : Nat) : ∀ (n : Nat) (acc : Str),
    nat_render_go fuel n acc = nat_render_go fuel n [] ++ acc := by
  induction fuel with
  | zero =>
    intro n acc
    cases n <;> rfl
  | succ f ih =>
    intro n acc
    cases n with
    | zero => rfl
    | succ m =>
      show nat_render_go f ((m + 1) / 10)
          (Char.ofNat (48 + (m + 1) % 10) :: acc) = _
      rw [ih ((m + 1) / 10) (Char.ofNat (48 + (m + 1) % 10) :: acc)]
      show _ = nat_render_go f ((m + 1) / 10)
          (Char.ofNat (48 + (m + 1) % 10) :: []) ++ acc
      rw [ih ((m + 1) / 10) [Char.ofNat (48 + (m + 1) % 10)]]
      rw [List.append_assoc]
      rfl

theorem digit_char_is_digit (m : Nat) (h : m < 10) :
    is_ascii_digit (Char.ofNat (48 + m)) = true := by
  rw [is_ascii_digit_iff, char_toNat_ofNat (48 + m) (by omega)]
  omega

theorem nat_render_go_all_digit (fuel : Nat) : ∀ (n : Nat),
    (nat_render_go fuel n []).all is_ascii_digit = true := by
  induction fuel with
  | zero =>
    intro n
    cases n <;> rfl
  | succ f ih =>
    intro n
    cases n with
    | zero => rfl
    | succ m =>
      show (nat_render_go f ((m + 1) / 10)
          [Char.ofNat (48 + (m + 1) % 10)]).all is_ascii_digit = true
      rw [nat_render_go_append f ((m + 1) / 10)
        [Char.ofNat (48 + (m + 1) % 10)]]
      rw [List.all_append]
      rw [ih ((m + 1) / 10)]
      simp [digit_char_is_digit ((m + 1) % 10) (Nat.mod_lt _ (by omega))]

theorem nat_render_go_ne_nil (fuel n : Nat) (h1 : 1 ≤ n) (h2 : n ≤ fuel) :
    nat_render_go fuel n [] ≠ [] := by
  cases fuel with
  | zero => omega
  | succ f =>
    cases n with
    | zero => omega
    | succ m =>
      show nat_render_go f ((m + 1) / 10)
          [Char.ofNat (48 + (m + 1) % 10)] ≠ []
      rw [nat_render_go_append f ((m + 1) / 10)
        [Char.ofNat (48 + (m + 1) % 10)]]
      simp

theorem digits_val_snoc (l : Str) (d : Char) :
    digits_val (l ++ [d]) = digits_val l * 10 + (d.toNat - 48) := by
  unfold digits_val
  rw [List.foldl_append]
  rfl

theorem nat_render_go_val : ∀ (fuel n : Nat), n ≤ fuel →
    digits_val (nat_render_go fuel n []) = n := by
  intro fuel
  induction fuel with
  | zero =>
    intro n h
    interval_cases n
    rfl
  | succ f ih =>
    intro n h
    cases n with
    | zero => rfl
    | succ m =>
      show digits_val (nat_render_go f ((m + 1) / 10)
          [Char.ofNat (48 + (m + 1) % 10)]) = m + 1
      rw [nat_render_go_append f ((m + 1) / 10)
        [Char.ofNat (48 + (m + 1) % 10)]]
      rw [digits_val_snoc]
      rw [ih ((m + 1) / 10) (by omega)]
      rw [char_toNat_ofNat (48 + (m + 1) % 10) (by omega)]
      omega

theorem nat_render_all_digit (n : Nat) :
    (nat_render n).all is_ascii_digit = true := by
  unfold nat_render
  split
  · rfl
  · exact nat_render_go_all_digit n n

theorem nat_render_ne_nil (n : Nat) : nat_render n ≠ [] := by
  unfold nat_render
  split
  · simp
  · rename_i h
    exact nat_render_go_ne_nil n n (by omega) (by omega)

theorem digits_val_nat_render (n : Nat) : digits_val (nat_render n) = n := by
  unfold nat_render
  split
  · rename_i h
    rw [h]; rfl
  · exact nat_render_go_val n n (by omega)

end PyStr

namespace PyStr

theorem digit_not_space (c : Char) (h : is_ascii_digit c = true) :
    is_space_char c = false := by
  rcases hb : is_space_char c with _ | _
  · rfl
  · exfalso
    unfold is_space_char at hb
    simp only [Bool.or_eq_true, decide_eq_true_iff] at hb
    rcases hb with ((((h' | h') | h') | h') | h') | h' <;>
      · subst h'
        exact absurd h (by decide)

theorem dropWhile_eq_self_of_all (p : Char → Bool) (s : Str)
    (h : ∀ c ∈ s, p c = false) : s.dropWhile p = s := by
  cases s with
  | nil => rfl
  | cons a as =>
    rw [List.dropWhile_cons_of_neg]
    simp [h a (List.mem_cons_self a as)]

theorem strip_digits (s : Str) (h : s.all is_ascii_digit = true) :
    strip s = s := by
  unfold strip
  rw [List.all_eq_true] at h
  rw [dropWhile_eq_self_of_all _ s
    (fun c hc => digit_not_space c (h c hc))]
  rw [dropWhile_eq_self_of_all _ s.reverse
    (fun c hc => digit_not_space c (h c (List.mem_reverse.mp hc)))]
  exact List.reverse_reverse s

theorem dwu_all : ∀ (s : Str), s ≠ [] → s.all is_ascii_digit = true →
    digits_with_underscores s = true
  | [], h, _ => absurd rfl h
  | [c], _, hd => by
    simp only [List.all_cons, List.all_nil, Bool.and_true] at hd
    exact hd
  | c :: c2 :: t, _, hd => by
    simp only [List.all_cons, Bool.and_eq_true] at hd
    obtain ⟨h1, h2, h3⟩ := hd
    have hne : c2 ≠ '_' := by
      intro he
      rw [he] at h2
      exact absurd h2 (by decide)
    have hrest : digits_with_underscores (c2 :: t) = true :=
      dwu_all (c2 :: t) (by simp) (by simp [h2, h3])
    rw [digits_with_underscores.eq_def]
    split
    · rename_i heq
      exact absurd heq (by simp)
    · rename_i heq
      exact absurd heq (by simp)
    · rename_i heq
      injection heq with _ heq2
      injection heq2 with h2eq _
      exact absurd h2eq hne
    · rename_i heq
      injection heq with hceq heq2
      rw [← hceq, ← heq2, h1, hrest]
      rfl

end PyStr

namespace PyStr

theorem digit_filter_underscore (s : Str) (h : s.all is_ascii_digit = true) :
    s.filter (fun c => c ≠ '_') = s := by
  rw [List.filter_eq_self]
  intro a ha
  rw [List.all_eq_true] at h
  simp only [ne_eq, decide_eq_true_iff]
  intro he
  have hd := h a ha
  rw [he] at hd
  exact absurd hd (by decide)

theorem py_int_parse_nat_render (p : Nat) :
    py_int_parse (nat_render p) = some (p : Int) := by
  have hall := nat_render_all_digit p
  have hne := nat_render_ne_nil p
  have hdwu : digits_with_underscores (nat_render p) = true :=
    dwu_all _ hne hall
  have hfil : (nat_render p).filter (fun ch => ch ≠ '_') = nat_render p :=
    digit_filter_underscore _ hall
  have hval := digits_val_nat_render p
  simp only [py_int_parse]
  rw [strip_digits _ hall]
  split
  · rename_i rest heq
    exfalso
    have hplus : is_ascii_digit '+' = true := by
      rw [List.all_eq_true] at hall
      exact hall '+' (heq ▸ List.mem_cons_self _ _)
    exact absurd hplus (by decide)
  · rename_i rest heq
    exfalso
    have hminus : is_ascii_digit '-' = true := by
      rw [List.all_eq_true] at hall
      exact hall '-' (heq ▸ List.mem_cons_self _ _)
    exact absurd hminus (by decide)
  · rw [if_pos hdwu, hfil, hval]

end PyStr

namespace PyStr

theorem takeWhile_append_of_all (p : Char → Bool) (l m : Str)
    (h : ∀ x ∈ l, p x = true) :
    (l ++ m).takeWhile p = l ++ m.takeWhile p := by
  induction l with
  | nil => rfl
  | cons a as ih =>
    rw [List.cons_append, List.takeWhile_cons_of_pos
      (h a (List.mem_cons_self a as)), List.cons_append,
      ih (fun x hx => h x (List.mem_cons_of_mem a hx))]

theorem dropWhile_append_of_all (p : Char → Bool) (l m : Str)
    (h : ∀ x ∈ l, p x = true) :
    (l ++ m).dropWhile p = m.dropWhile p := by
  induction l with
  | nil => rfl
  | cons a as ih =>
    rw [List.cons_append, List.dropWhile_cons_of_pos
      (h a (List.mem_cons_self a as)),
      ih (fun x hx => h x (List.mem_cons_of_mem a hx))]

theorem partition_char_no_sep (s : Str) (c : Char) (h : ∀ x ∈ s, x ≠ c) :
    partition_char s c = (s, false, []) := by
  simp only [partition_char]
  have ht : s.takeWhile (fun x => x ≠ c) = s :=
    List.takeWhile_eq_self_iff.mpr (fun x hx => by simpa using h x hx)
  have hd : s.dropWhile (fun x => x ≠ c) = [] :=
    List.dropWhile_eq_nil_iff.mpr (fun x hx => by simpa using h x hx)
  rw [ht, hd]

theorem partition_char_first (a b : Str) (c : Char) (h : ∀ x ∈ a, x ≠ c) :
    partition_char (a ++ c :: b) c = (a, true, b) := by
  simp only [partition_char]
  have hp : ∀ x ∈ a, (fun x => decide (x ≠ c)) x = true :=
    fun x hx => by simpa using h x hx
  rw [takeWhile_append_of_all _ a (c :: b) hp,
    dropWhile_append_of_all _ a (c :: b) hp,
    List.takeWhile_cons_of_neg (by simp),
    List.dropWhile_cons_of_neg (by simp)]
  simp

theorem rpartition_char_no_sep (s : Str) (c : Char) (h : ∀ x ∈ s, x ≠ c) :
    rpartition_char s c = ([], false, s) := by
  simp only [rpartition_char]
  rw [partition_char_no_sep s.reverse c
    (fun x hx => h x (List.mem_reverse.mp hx))]
  simp

theorem rpartition_char_last (a b : Str) (c : Char) (h : ∀ x ∈ b, x ≠ c) :
    rpartition_char (a ++ c :: b) c = (a, true, b) := by
  simp only [rpartition_char]
  have hrev : (a ++ c :: b).reverse = b.reverse ++ c :: a.reverse := by
    simp
  rw [hrev, partition_char_first b.reverse a.reverse c
    (fun x hx => h x (List.mem_reverse.mp hx))]
  simp

theorem mem_of_mem_takeWhile (p : Char → Bool) (l : Str) (x : Char)
    (h : x ∈ l.takeWhile p) : x ∈ l :=
  (List.takeWhile_prefix p).subset h

theorem mem_of_mem_dropWhile (p : Char → Bool) (l : Str) (x : Char)
    (h : x ∈ l.dropWhile p) : x ∈ l :=
  (List.dropWhile_suffix p).subset h

end PyStr

namespace PyStr

theorem partition_char_fst (s : Str) (c : Char) :
    (partition_char s c).1 = s.takeWhile (fun x => x ≠ c) := by
  simp only [partition_char]
  split <;> rfl

theorem dropWhile_head_false (p : Char → Bool) : ∀ (l : Str) (h : Char)
    (t : Str), l.dropWhile p = h :: t → p h = false := by
  intro l
  induction l with
  | nil => intro h t he; exact absurd he (by simp)
  | cons a as ih =>
    intro h t he
    by_cases hp : p a
    · rw [List.dropWhile_cons_of_pos hp] at he
      exact ih h t he
    · rw [List.dropWhile_cons_of_neg hp] at he
      rw [← (List.cons.inj he).1]
      simpa using hp

theorem dropWhile_idem (p : Char → Bool) (l : Str) :
    (l.dropWhile p).dropWhile p = l.dropWhile p := by
  rcases hd : l.dropWhile p with _ | ⟨h, t⟩
  · rfl
  · rw [List.dropWhile_cons_of_neg]
    simp [dropWhile_head_false p l h t hd]

theorem mem_partition_char_after (s : Str) (c : Char) (x : Char)
    (hx : x ∈ (partition_char s c).2.2) : x ∈ s := by
  simp only [partition_char] at hx
  split at hx
  · exact absurd hx (List.not_mem_nil x)
  · rename_i t heq
    exact mem_of_mem_dropWhile _ s x (heq ▸ List.mem_cons_of_mem _ hx)

theorem partition_char_recompose (s : Str) (c : Char)
    (h : (partition_char s c).2.1 = true) :
    s = (partition_char s c).1 ++ c :: (partition_char s c).2.2 := by
  rcases heq : s.dropWhile (fun x => decide (x ≠ c)) with _ | ⟨hd, t⟩
  · exfalso
    simp only [partition_char, heq] at h
    exact absurd h (by simp)
  · have hc : hd = c := by
      simpa using dropWhile_head_false _ s hd t heq
    simp only [partition_char, heq]
    conv_lhs => rw [← List.takeWhile_append_dropWhile (fun x => decide (x ≠ c)) s]
    rw [heq, hc]

theorem mem_rpartition_after (s : Str) (c : Char) (x : Char)
    (hx : x ∈ (rpartition_char s c).2.2) : x ∈ s := by
  simp only [rpartition_char] at hx
  rw [partition_char_fst] at hx
  rw [List.mem_reverse] at hx
  exact List.mem_reverse.mp (mem_of_mem_takeWhile _ _ x hx)

theorem rpartition_after_ne (s : Str) (c : Char) (x : Char)
    (hx : x ∈ (rpartition_char s c).2.2) : x ≠ c := by
  simp only [rpartition_char] at hx
  rw [partition_char_fst] at hx
  rw [List.mem_reverse] at hx
  simpa using List.mem_takeWhile_imp hx

theorem mem_rpartition_before (s : Str) (c : Char) (x : Char)
    (hx : x ∈ (rpartition_char s c).1) : x ∈ s := by
  simp only [rpartition_char] at hx
  rw [List.mem_reverse] at hx
  exact List.mem_reverse.mp (mem_partition_char_after _ _ x hx)

theorem rpartition_char_recompose (s : Str) (c : Char)
    (h : (rpartition_char s c).2.1 = true) :
    s = (rpartition_char s c).1 ++ c :: (rpartition_char s c).2.2 := by
  have h' : (partition_char s.reverse c).2.1 = true := by
    simp only [rpartition_char] at h
    exact h
  have hr := partition_char_recompose s.reverse c h'
  have h2 := congrArg List.reverse hr
  rw [List.reverse_reverse] at h2
  simp only [rpartition_char]
  conv_lhs => rw [h2]
  simp

end PyStr

namespace PyStr

theorem not_contains_forall (l : Str) (c : Char) (h : l.contains c = false) :
    ∀ y ∈ l, y ≠ c := by
  intro y hy he
  subst he
  have hc : l.contains y = true := by simp [hy]
  rw [hc] at h
  exact Bool.noConfusion h

theorem contains_of_mem (l : Str) (c : Char) (h : c ∈ l) :
    l.contains c = true := by simp [h]

end PyStr

namespace UrlLib

open PyStr

theorem splitparams_none (x : Str) (h : x.contains ';' = false) :
    splitparams x = (x, []) := by
  have hx := not_contains_forall x ';' h
  by_cases hsl : x.contains '/'
  · simp only [splitparams, hsl, if_true]
    rw [partition_char_no_sep (rpartition_char x '/').2.2 ';'
      (fun y hy => hx y (mem_rpartition_after x '/' y hy))]
    simp
  · simp only [splitparams, hsl]
    rw [partition_char_no_sep x ';' hx]
    simp

theorem splitparams_found (x : Str) (h : (splitparams x).2 ≠ []) :
    splitparams ((splitparams x).1 ++ ';' :: (splitparams x).2) =
      splitparams x := by
  by_cases hsl : x.contains '/'
  · by_cases hpb : (partition_char (rpartition_char x '/').2.2 ';').2.1
    · have hout : splitparams x =
          ((rpartition_char x '/').1 ++ '/' ::
            (partition_char (rpartition_char x '/').2.2 ';').1,
           (partition_char (rpartition_char x '/').2.2 ';').2.2) := by
        simp only [splitparams, hsl, if_true, hpb]
      rw [hout]
      have hb1 : ∀ y ∈ (partition_char (rpartition_char x '/').2.2 ';').1,
          y ≠ ';' := by
        intro y hy
        rw [partition_char_fst] at hy
        simpa using List.mem_takeWhile_imp hy
      have hb1s : ∀ y ∈ (partition_char (rpartition_char x '/').2.2 ';').1,
          y ∈ (rpartition_char x '/').2.2 := by
        intro y hy
        rw [partition_char_fst] at hy
        exact mem_of_mem_takeWhile _ _ y hy
      have hslash : ∀ y ∈ (partition_char (rpartition_char x '/').2.2 ';').1 ++
          ';' :: (partition_char (rpartition_char x '/').2.2 ';').2.2,
          y ≠ '/' := by
        intro y hy
        rcases List.mem_append.mp hy with hy | hy
        · exact rpartition_after_ne x '/' y (hb1s y hy)
        · rcases List.mem_cons.mp hy with hy | hy
          · subst hy; decide
          · exact rpartition_after_ne x '/' y
              (mem_partition_char_after _ ';' y hy)
      have hassoc : ((rpartition_char x '/').1 ++ '/' ::
            (partition_char (rpartition_char x '/').2.2 ';').1) ++
          ';' :: (partition_char (rpartition_char x '/').2.2 ';').2.2 =
          (rpartition_char x '/').1 ++ '/' ::
            ((partition_char (rpartition_char x '/').2.2 ';').1 ++
             ';' :: (partition_char (rpartition_char x '/').2.2 ';').2.2) := by
        simp
      rw [hassoc]
      have hcont : ((rpartition_char x '/').1 ++ '/' ::
          ((partition_char (rpartition_char x '/').2.2 ';').1 ++
           ';' :: (partition_char (rpartition_char x '/').2.2 ';').2.2)).contains
          '/' = true := by
        apply contains_of_mem
        exact List.mem_append.mpr (Or.inr (List.mem_cons_self _ _))
      simp only [splitparams, hcont, if_true]
      rw [rpartition_char_last _ _ '/' hslash]
      rw [partition_char_first _ _ ';' hb1]
      simp
    · exfalso
      apply h
      simp only [splitparams, hsl, if_true, hpb]
      simp
  · by_cases hpp : (partition_char x ';').2.1
    · have hout : splitparams x =
          ((partition_char x ';').1, (partition_char x ';').2.2) := by
        simp only [splitparams, hsl, hpp]
        simp
      rw [hout]
      have hnosl : ∀ y ∈ x, y ≠ '/' :=
        not_contains_forall x '/' (by simpa using hsl)
      have h1 : ∀ y ∈ (partition_char x ';').1, y ≠ ';' := by
        intro y hy
        rw [partition_char_fst] at hy
        simpa using List.mem_takeWhile_imp hy
      have hcont : ((partition_char x ';').1 ++
          ';' :: (partition_char x ';').2.2).contains '/' = false := by
        rcases hc : ((partition_char x ';').1 ++
            ';' :: (partition_char x ';').2.2).contains '/' with _ | _
        · rfl
        · exfalso
          have hm := List.contains_iff_exists_mem_beq.mp hc
          obtain ⟨a, ha, hab⟩ := hm
          have ha' : '/' = a := by simpa using hab
          subst ha'
          rcases List.mem_append.mp ha with hy | hy
          · exact absurd rfl (hnosl '/'
              (mem_of_mem_takeWhile _ _ '/'
                (partition_char_fst x ';' ▸ hy)))
          · rcases List.mem_cons.mp hy with hy | hy
            · exact absurd hy (by decide)
            · exact absurd rfl (hnosl '/'
                (mem_partition_char_after x ';' '/' hy))
      simp only [splitparams, hcont]
      rw [partition_char_first _ _ ';' h1]
      simp
    · exfalso
      apply h
      simp only [splitparams, hsl, hpp]
      simp

end UrlLib

namespace UrlLib

open PyStr

theorem mem_splitparams_fst (x : Str) (y : Char)
    (hy : y ∈ (splitparams x).1) : y ∈ x ∨ y = '/' := by
  by_cases hsl : x.contains '/'
  · by_cases hpb : (partition_char (rpartition_char x '/').2.2 ';').2.1
    · simp only [splitparams] at hy
      rw [if_pos hsl, if_pos hpb] at hy
      rcases List.mem_append.mp hy with hy | hy
      · exact Or.inl (mem_rpartition_before x '/' y hy)
      · rcases List.mem_cons.mp hy with hy | hy
        · exact Or.inr hy
        · rw [partition_char_fst] at hy
          exact Or.inl (mem_rpartition_after x '/' y
            (mem_of_mem_takeWhile _ _ y hy))
    · simp only [splitparams] at hy
      rw [if_pos hsl, if_neg hpb] at hy
      exact Or.inl hy
  · by_cases hpp : (partition_char x ';').2.1
    · simp only [splitparams] at hy
      rw [if_neg hsl, if_pos hpp] at hy
      rw [partition_char_fst] at hy
      exact Or.inl (mem_of_mem_takeWhile _ _ y hy)
    · simp only [splitparams] at hy
      rw [if_neg hsl, if_neg hpp] at hy
      exact Or.inl hy

theorem mem_splitparams_snd (x : Str) (y : Char)
    (hy : y ∈ (splitparams x).2) : y ∈ x := by
  by_cases hsl : x.contains '/'
  · by_cases hpb : (partition_char (rpartition_char x '/').2.2 ';').2.1
    · simp only [splitparams] at hy
      rw [if_pos hsl, if_pos hpb] at hy
      exact mem_rpartition_after x '/' y
        (mem_partition_char_after _ ';' y hy)
    · simp only [splitparams] at hy
      rw [if_pos hsl, if_neg hpb] at hy
      exact absurd hy (List.not_mem_nil y)
  · by_cases hpp : (partition_char x ';').2.1
    · simp only [splitparams] at hy
      rw [if_neg hsl, if_pos hpp] at hy
      exact mem_partition_char_after _ ';' y hy
    · simp only [splitparams] at hy
      rw [if_neg hsl, if_neg hpp] at hy
      exact absurd hy (List.not_mem_nil y)

theorem splitparams_empty_params (x : Str) (h : (splitparams x).2 = []) :
    splitparams (splitparams x).1 = ((splitparams x).1, []) := by
  by_cases hsl : x.contains '/'
  · by_cases hpb : (partition_char (rpartition_char x '/').2.2 ';').2.1
    · have hout : splitparams x =
          ((rpartition_char x '/').1 ++ '/' ::
            (partition_char (rpartition_char x '/').2.2 ';').1,
           (partition_char (rpartition_char x '/').2.2 ';').2.2) := by
        simp only [splitparams, hsl, if_true, hpb]
      rw [hout]
      have hb1 : ∀ y ∈ (partition_char (rpartition_char x '/').2.2 ';').1,
          y ≠ ';' := by
        intro y hy
        rw [partition_char_fst] at hy
        simpa using List.mem_takeWhile_imp hy
      have hb1s : ∀ y ∈ (partition_char (rpartition_char x '/').2.2 ';').1,
          y ≠ '/' := by
        intro y hy
        rw [partition_char_fst] at hy
        exact rpartition_after_ne x '/' y (mem_of_mem_takeWhile _ _ y hy)
      have hcont : ((rpartition_char x '/').1 ++ '/' ::
          (partition_char (rpartition_char x '/').2.2 ';').1).contains '/' =
          true := by
        apply contains_of_mem
        exact List.mem_append.mpr (Or.inr (List.mem_cons_self _ _))
      simp only [splitparams, hcont, if_true]
      rw [rpartition_char_last _ _ '/' hb1s]
      rw [partition_char_no_sep _ ';' hb1]
      simp
    · have hout : splitparams x = (x, []) := by
        simp only [splitparams, hsl, if_true, hpb]
        simp
      rw [hout]
      simp only [splitparams, hsl, if_true, hpb]
      simp
  · by_cases hpp : (partition_char x ';').2.1
    · have hout : splitparams x =
          ((partition_char x ';').1, (partition_char x ';').2.2) := by
        simp only [splitparams, hsl, if_false, hpp]
        simp
      rw [hout]
      have hnosl : ∀ y ∈ x, y ≠ '/' :=
        not_contains_forall x '/' (by simpa using hsl)
      have h1 : ∀ y ∈ (partition_char x ';').1, y ≠ ';' := by
        intro y hy
        rw [partition_char_fst] at hy
        simpa using List.mem_takeWhile_imp hy
      have hcont : ((partition_char x ';').1).contains '/' = false := by
        rcases hc : ((partition_char x ';').1).contains '/' with _ | _
        · rfl
        · exfalso
          have hm := List.contains_iff_exists_mem_beq.mp hc
          obtain ⟨a, ha, hab⟩ := hm
          have ha' : '/' = a := by simpa using hab
          subst ha'
          exact absurd rfl (hnosl '/'
            (mem_of_mem_takeWhile _ _ '/'
              (partition_char_fst x ';' ▸ ha)))
      simp only [splitparams, hcont]
      rw [partition_char_no_sep _ ';' h1]
      simp
    · have hout : splitparams x = (x, []) := by
        simp only [splitparams, hsl, if_false, hpp]
        simp
      rw [hout]
      simp only [splitparams, hsl, if_false, hpp]
      simp

theorem splitparams_fst_head (x : Str) (h : x.take 1 = lstr "/") :
    (splitparams x).1.take 1 = lstr "/" := by
  rcases hx : x with _ | ⟨x0, xt⟩
  · rw [hx] at h
    exact absurd h (by decide)
  · have hx0 : x0 = '/' := by
      rw [hx] at h
      have h2 : [x0] = ['/'] := by
        simp only [List.take_succ_cons, List.take_zero] at h
        exact h
      exact (List.cons.inj h2).1
    subst hx0
    rw [← hx]
    by_cases hsl : x.contains '/'
    · by_cases hpb : (partition_char (rpartition_char x '/').2.2 ';').2.1
      · have hout : (splitparams x).1 =
            (rpartition_char x '/').1 ++ '/' ::
              (partition_char (rpartition_char x '/').2.2 ';').1 := by
          simp only [splitparams, hsl, if_true, hpb]
        rw [hout]
        rcases hrp : (rpartition_char x '/').1 with _ | ⟨r0, rt⟩
        · rfl
        · have hfound : (rpartition_char x '/').2.1 = true := by
            rcases hf : (rpartition_char x '/').2.1 with _ | _
            · exfalso
              have hmem : '/' ∈ x := by
                have hm := List.contains_iff_exists_mem_beq.mp hsl
                obtain ⟨a, ha, hab⟩ := hm
                have ha2 : '/' = a := by simpa using hab
                subst ha2
                exact ha
              have hrev : '/' ∈ x.reverse := List.mem_reverse.mpr hmem
              simp only [rpartition_char] at hf
              have hdw : x.reverse.dropWhile
                  (fun y => decide (y ≠ '/')) = [] := by
                rcases hdd : x.reverse.dropWhile (fun y => decide (y ≠ '/'))
                  with _ | ⟨d0, dt⟩
                · rfl
                · exfalso
                  simp only [partition_char, hdd] at hf
                  exact Bool.noConfusion hf
              have hcon := List.dropWhile_eq_nil_iff.mp hdw '/' hrev
              simp at hcon
            · rfl
          have hrec := rpartition_char_recompose x '/' hfound
          have hr0 : r0 = '/' := by
            rw [hrec, hrp] at hx
            simp only [List.cons_append] at hx
            exact (List.cons.inj hx).1
          subst hr0
          rfl
      · have hout : (splitparams x).1 = x := by
          simp only [splitparams, hsl, if_true, hpb]
          simp
        rw [hout]
        exact h
    · by_cases hpp : (partition_char x ';').2.1
      · have hout : (splitparams x).1 = (partition_char x ';').1 := by
          simp only [splitparams, hsl, if_false, hpp]
          simp
        rw [hout, partition_char_fst, hx]
        rw [List.takeWhile_cons_of_pos (by decide)]
        rfl
      · have hout : (splitparams x).1 = x := by
          simp only [splitparams, hsl, if_false, hpp]
          simp
        rw [hout]
        exact h

end UrlLib

namespace UrlLib

open PyStr

theorem split_scheme_concrete (st tail : Str)
    (hs : st = lstr "http" ∨ st = lstr "https") :
    split_scheme (st ++ ':' :: tail) [] = (st, tail) := by
  rcases hs with hs | hs <;>
    · subst hs
      simp only [split_scheme]
      rw [partition_char_first _ tail ':' (by decide)]
      rfl

theorem split_netloc_slashes (r : Str) :
    split_netloc ('/' :: '/' :: r) =
      (r.takeWhile not_netloc_delim, r.dropWhile not_netloc_delim) := rfl

theorem split_netloc_fst_all (rest : Str) :
    ∀ x ∈ (split_netloc rest).1, not_netloc_delim x = true := by
  intro x hx
  unfold split_netloc at hx
  split at hx
  · exact List.mem_takeWhile_imp hx
  · exact absurd hx (List.not_mem_nil x)

theorem urlsplit_of_shape (st n X : Str)
    (hs : st = lstr "http" ∨ st = lstr "https")
    (hn : ∀ x ∈ n, not_netloc_delim x = true)
    (hX : X = [] ∨ ∃ x X2, X = x :: X2 ∧ not_netloc_delim x = false)
    (hXh : ∀ x ∈ X, x ≠ '#') :
    urlsplit (st ++ ':' :: '/' :: '/' :: (n ++ X)) [] =
      ⟨st, n, (partition_char X '?').1, (partition_char X '?').2.2, []⟩ := by
  have htw : (n ++ X).takeWhile not_netloc_delim = n ∧
      (n ++ X).dropWhile not_netloc_delim = X := by
    constructor
    · rw [takeWhile_append_of_all not_netloc_delim n X hn]
      rcases hX with hX | ⟨x, X2, hX, hxd⟩
      · subst hX; simp
      · subst hX
        rw [List.takeWhile_cons_of_neg (by simp [hxd])]
        simp
    · rw [dropWhile_append_of_all not_netloc_delim n X hn]
      rcases hX with hX | ⟨x, X2, hX, hxd⟩
      · subst hX; simp
      · subst hX
        rw [List.dropWhile_cons_of_neg (by simp [hxd])]
  have hpf : partition_char X '#' = (X, false, []) :=
    partition_char_no_sep X '#' hXh
  show SplitResult.mk (split_scheme _ []).1 (split_netloc (split_scheme _ []).2).1
      (partition_char (partition_char (split_netloc (split_scheme _ []).2).2 '#').1 '?').1
      (partition_char (partition_char (split_netloc (split_scheme _ []).2).2 '#').1 '?').2.2
      (partition_char (split_netloc (split_scheme _ []).2).2 '#').2.2 = _
  rw [split_scheme_concrete st ('/' :: '/' :: (n ++ X)) hs]
  show SplitResult.mk st (split_netloc ('/' :: '/' :: (n ++ X))).1
      (partition_char (partition_char (split_netloc ('/' :: '/' :: (n ++ X))).2 '#').1 '?').1
      (partition_char (partition_char (split_netloc ('/' :: '/' :: (n ++ X))).2 '#').1 '?').2.2
      (partition_char (split_netloc ('/' :: '/' :: (n ++ X))).2 '#').2.2 = _
  rw [split_netloc_slashes]
  show SplitResult.mk st ((n ++ X).takeWhile not_netloc_delim)
      (partition_char (partition_char ((n ++ X).dropWhile not_netloc_delim) '#').1 '?').1
      (partition_char (partition_char ((n ++ X).dropWhile not_netloc_delim) '#').1 '?').2.2
      (partition_char ((n ++ X).dropWhile not_netloc_delim) '#').2.2 = _
  rw [htw.1, htw.2, hpf]

theorem hostinfo_plain (h : Str) (hat : ∀ x ∈ h, x ≠ '@')
    (hbr : ∀ x ∈ h, x ≠ '[') (hcol : ∀ x ∈ h, x ≠ ':') :
    hostinfo h = (h, none) := by
  simp only [hostinfo]
  rw [rpartition_char_no_sep h '@' hat]
  show (if (partition_char h '[').2.1 = true then _ else _) = _
  rw [partition_char_no_sep h '[' hbr]
  show (if false = true then _ else _) = _
  rw [if_neg (by simp)]
  rw [partition_char_no_sep h ':' hcol]
  simp

theorem hostinfo_with_port (h p' : Str)
    (hat : ∀ x ∈ h ++ ':' :: p', x ≠ '@')
    (hbr : ∀ x ∈ h ++ ':' :: p', x ≠ '[')
    (hcol : ∀ x ∈ h, x ≠ ':') (hp : p' ≠ []) :
    hostinfo (h ++ ':' :: p') = (h, some p') := by
  simp only [hostinfo]
  rw [rpartition_char_no_sep _ '@' hat]
  show (if (partition_char (h ++ ':' :: p') '[').2.1 = true then _ else _) = _
  rw [partition_char_no_sep _ '[' hbr]
  show (if false = true then _ else _) = _
  rw [if_neg (by simp)]
  rw [partition_char_first h p' ':' hcol]
  simp [hp]

end UrlLib

namespace UrlLib

open PyStr

theorem digit_ne (c : Char) (hc : is_ascii_digit c = true) (d : Char)
    (hd : d.toNat < 48 ∨ 57 < d.toNat) : c ≠ d := by
  intro he
  subst he
  obtain ⟨h1, h2⟩ := (is_ascii_digit_iff c).mp hc
  omega

theorem port_plain (h : Str) (hat : ∀ x ∈ h, x ≠ '@')
    (hbr : ∀ x ∈ h, x ≠ '[') (hcol : ∀ x ∈ h, x ≠ ':') :
    port h = .ok none := by
  unfold port
  rw [hostinfo_plain h hat hbr hcol]

theorem port_render (h : Str) (p : Nat) (hat : ∀ x ∈ h, x ≠ '@')
    (hbr : ∀ x ∈ h, x ≠ '[') (hcol : ∀ x ∈ h, x ≠ ':')
    (hple : p ≤ 65535) :
    port (h ++ ':' :: nat_render p) = .ok (some p) := by
  have hdig : ∀ x ∈ nat_render p, is_ascii_digit x = true :=
    List.all_eq_true.mp (nat_render_all_digit p)
  have hat2 : ∀ x ∈ h ++ ':' :: nat_render p, x ≠ '@' := by
    intro x hx
    rcases List.mem_append.mp hx with hx | hx
    · exact hat x hx
    · rcases List.mem_cons.mp hx with hx | hx
      · subst hx; decide
      · exact digit_ne x (hdig x hx) '@' (by right; decide)
  have hbr2 : ∀ x ∈ h ++ ':' :: nat_render p, x ≠ '[' := by
    intro x hx
    rcases List.mem_append.mp hx with hx | hx
    · exact hbr x hx
    · rcases List.mem_cons.mp hx with hx | hx
      · subst hx; decide
      · exact digit_ne x (hdig x hx) '[' (by right; decide)
  unfold port
  rw [hostinfo_with_port h (nat_render p) hat2 hbr2 hcol (nat_render_ne_nil p)]
  show (match py_int_parse (nat_render p) with
        | none => Except.error ()
        | some v => if 0 ≤ v ∧ v ≤ 65535 then .ok (some v.toNat)
                    else .error ()) = _
  rw [py_int_parse_nat_render p]
  show (if 0 ≤ (p : Int) ∧ (p : Int) ≤ 65535 then
      Except.ok (some ((p : Int)).toNat) else .error ()) = _
  rw [if_pos (by omega)]
  simp

end UrlLib

namespace UrlLib

open PyStr

theorem lower_preserve_ne (l : Str) (d : Char)
    (hd : d.toNat < 97 ∨ 122 < d.toNat) (h : ∀ y ∈ l, y ≠ d) :
    ∀ x ∈ lower l, x ≠ d := by
  intro x hx he
  obtain ⟨y, hy, hxy⟩ := List.mem_map.mp hx
  exact absurd (to_lower_char_preserve y d hd (hxy.trans he)) (h y hy)

theorem lower_mem_fixed (l : Str) (x : Char) (hx : x ∈ lower l) :
    to_lower_char x = x := by
  obtain ⟨y, _, hxy⟩ := List.mem_map.mp hx
  rw [← hxy]
  exact to_lower_char_idem y

theorem mem_hostinfo_fst (nl : Str) (x : Char)
    (hx : x ∈ (hostinfo nl).1) : x ∈ nl := by
  simp only [hostinfo] at hx
  split at hx
  · rw [partition_char_fst] at hx
    exact mem_rpartition_after nl '@' x
      (mem_partition_char_after _ '[' x
        (mem_of_mem_takeWhile _ _ x hx))
  · rw [partition_char_fst] at hx
    exact mem_rpartition_after nl '@' x
      (mem_of_mem_takeWhile _ _ x hx)

theorem hostinfo_fst_no_at (nl : Str) (x : Char)
    (hx : x ∈ (hostinfo nl).1) : x ≠ '@' := by
  simp only [hostinfo] at hx
  split at hx
  · rw [partition_char_fst] at hx
    exact rpartition_after_ne nl '@' x
      (mem_partition_char_after _ '[' x
        (mem_of_mem_takeWhile _ _ x hx))
  · rw [partition_char_fst] at hx
    exact rpartition_after_ne nl '@' x (mem_of_mem_takeWhile _ _ x hx)

theorem hostinfo_fst_no_colon (nl : Str) (hbr : ∀ y ∈ nl, y ≠ '[')
    (x : Char) (hx : x ∈ (hostinfo nl).1) : x ≠ ':' := by
  have hbr2 : ∀ y ∈ (rpartition_char nl '@').2.2, y ≠ '[' :=
    fun y hy => hbr y (mem_rpartition_after nl '@' y hy)
  simp only [hostinfo] at hx
  rw [partition_char_no_sep _ '[' hbr2] at hx
  simp only [show ((((rpartition_char nl '@').2.2 : Str), false, ([] : Str)) :
    Str × Bool × Str).2.1 = false from rfl] at hx
  rw [if_neg (by simp)] at hx
  rw [partition_char_fst] at hx
  simpa using List.mem_takeWhile_imp hx

theorem port_ok_le (nl : Str) (p : Nat)
    (h : port nl = Except.ok (some p)) : p ≤ 65535 := by
  unfold port at h
  rcases hh : (hostinfo nl).2 with _ | ps
  · rw [hh] at h
    have h2 : (Except.ok (none : Option Nat) : Except Unit (Option Nat)) =
        Except.ok (some p) := h
    exact absurd (Except.ok.inj h2) (by simp)
  · rw [hh] at h
    have h2 : (match py_int_parse ps with
        | none => (Except.error () : Except Unit (Option Nat))
        | some v => if 0 ≤ v ∧ v ≤ 65535 then Except.ok (some v.toNat)
                    else Except.error ()) = Except.ok (some p) := h
    rcases hp : py_int_parse ps with _ | v
    · rw [hp] at h2
      exact Except.noConfusion h2
    · rw [hp] at h2
      have h4 : (if 0 ≤ v ∧ v ≤ 65535 then
          (Except.ok (some v.toNat) : Except Unit (Option Nat))
          else Except.error ()) = Except.ok (some p) := h2
      by_cases hrange : 0 ≤ v ∧ v ≤ 65535
      · rw [if_pos hrange] at h4
        have h3 := Option.some.inj (Except.ok.inj h4)
        omega
      · rw [if_neg hrange] at h4
        exact Except.noConfusion h4

theorem split_netloc_ne_nil (rest : Str)
    (h : (split_netloc rest).1 ≠ []) :
    ∃ rr, rest = '/' :: '/' :: rr := by
  rcases rest with _ | ⟨a, rest2⟩
  · exact absurd rfl h
  · rcases rest2 with _ | ⟨b, rest3⟩
    · exfalso
      apply h
      show (split_netloc [a]).1 = []
      unfold split_netloc
      split
      · rename_i heq
        exact absurd heq (by simp)
      · rfl
    · by_cases hab : a = '/' ∧ b = '/'
      · exact ⟨rest3, by rw [hab.1, hab.2]⟩
      · exfalso
        apply h
        rcases hq : decide (a = '/' ∧ b = '/') with _ | _
        · show (split_netloc (a :: b :: rest3)).1 = []
          unfold split_netloc
          split
          · rename_i heq
            have h1 := List.cons.inj heq
            have h2 := List.cons.inj h1.2
            exact absurd ⟨h1.1, h2.1⟩ hab
          · rfl
        · exact absurd (of_decide_eq_true hq) hab

end UrlLib

namespace Crawler

open PyStr UrlLib

theorem normalize_url_accept (c r : Str) (h : normalize_url c = some r) :
    lower (urlparse c).scheme ∈ ALLOWED_SCHEMES ∧
    lstrip_set (lstr "www.") (lower (hostname (urlparse c).netloc)) ≠ [] ∧
    ∃ portv : Option Nat, port (urlparse c).netloc = Except.ok portv ∧
      r = urlunparse { urlparse c with
        scheme := lower (urlparse c).scheme,
        netloc := lstrip_set (lstr "www.")
            (lower (hostname (urlparse c).netloc)) ++
          (match portv with
           | some p => if p ≠ 0 then ':' :: nat_render p else []
           | none => []),
        fragment := [] } := by
  simp only [normalize_url] at h
  split at h
  · exact absurd h (by simp)
  · split at h
    · exact absurd h (by simp)
    · split at h
      · exact absurd h (by simp)
      · split at h
        · exact absurd h (by simp)
        · split at h
          · exact absurd h (by simp)
          · rename_i hc hscheme hallowed hhost scrut portv hport
            exact ⟨by simpa using hallowed, hhost,
              ⟨portv, hport, (Option.some.inj h).symm⟩⟩

end Crawler

namespace UrlLib

open PyStr

theorem urlsplit_path_no_qh (url ds : Str) (x : Char)
    (hx : x ∈ (urlsplit url ds).path) : x ≠ '?' ∧ x ≠ '#' := by
  have hx' : x ∈ (partition_char
      (partition_char (split_netloc (split_scheme url ds).2).2 '#').1 '?').1 :=
    hx
  rw [partition_char_fst] at hx'
  constructor
  · simpa using List.mem_takeWhile_imp hx'
  · have hx2 : x ∈ (partition_char
        (split_netloc (split_scheme url ds).2).2 '#').1 :=
      mem_of_mem_takeWhile _ _ x hx'
    rw [partition_char_fst] at hx2
    simpa using List.mem_takeWhile_imp hx2

theorem urlsplit_query_no_h (url ds : Str) (x : Char)
    (hx : x ∈ (urlsplit url ds).query) : x ≠ '#' := by
  have hx' : x ∈ (partition_char
      (partition_char (split_netloc (split_scheme url ds).2).2 '#').1 '?').2.2 :=
    hx
  have hx2 : x ∈ (partition_char
      (split_netloc (split_scheme url ds).2).2 '#').1 :=
    mem_partition_char_after _ '?' x hx'
  rw [partition_char_fst] at hx2
  simpa using List.mem_takeWhile_imp hx2

theorem urlsplit_netloc_all (url ds : Str) (x : Char)
    (hx : x ∈ (urlsplit url ds).netloc) : not_netloc_delim x = true :=
  split_netloc_fst_all _ x hx

theorem not_nnd_cases (c : Char) (h : not_netloc_delim c = false) :
    c = '/' ∨ c = '?' ∨ c = '#' := by
  unfold not_netloc_delim at h
  rcases hc1 : decide (c = '/') with _ | _
  · rcases hc2 : decide (c = '?') with _ | _
    · rcases hc3 : decide (c = '#') with _ | _
      · exfalso
        have e1 : c ≠ '/' := of_decide_eq_false hc1
        have e2 : c ≠ '?' := of_decide_eq_false hc2
        have e3 : c ≠ '#' := of_decide_eq_false hc3
        simp [e1, e2, e3] at h
      · exact Or.inr (Or.inr (of_decide_eq_true hc3))
    · exact Or.inr (Or.inl (of_decide_eq_true hc2))
  · exact Or.inl (of_decide_eq_true hc1)

theorem urlsplit_path_shape (url ds : Str)
    (hnet : (urlsplit url ds).netloc ≠ []) :
    (urlsplit url ds).path = [] ∨
    (urlsplit url ds).path.take 1 = lstr "/" := by
  obtain ⟨rr, hrr⟩ := split_netloc_ne_nil (split_scheme url ds).2 hnet
  have hpath : (urlsplit url ds).path = (partition_char
      (partition_char (rr.dropWhile not_netloc_delim) '#').1 '?').1 := by
    show (partition_char (partition_char
        (split_netloc (split_scheme url ds).2).2 '#').1 '?').1 = _
    rw [hrr]
    rfl
  rw [hpath]
  rcases hd : rr.dropWhile not_netloc_delim with _ | ⟨h0, t⟩
  · left
    rfl
  · have h0d := dropWhile_head_false not_netloc_delim rr h0 t hd
    rcases not_nnd_cases h0 h0d with h0e | h0e | h0e
    · right
      subst h0e
      rw [partition_char_fst, partition_char_fst,
        List.takeWhile_cons_of_pos (by decide),
        List.takeWhile_cons_of_pos (by decide)]
      rfl
    · left
      subst h0e
      rw [partition_char_fst, partition_char_fst,
        List.takeWhile_cons_of_pos (by decide),
        List.takeWhile_cons_of_neg (by simp)]
    · left
      subst h0e
      rw [partition_char_fst, partition_char_fst,
        List.takeWhile_cons_of_neg (by simp)]
      rfl

end UrlLib

namespace UrlLib

open PyStr

theorem nnd_components (y : Char) (h : not_netloc_delim y = true) :
    y ≠ '/' ∧ y ≠ '?' ∧ y ≠ '#' := by
  unfold not_netloc_delim at h
  simp only [Bool.and_eq_true, decide_eq_true_iff] at h
  exact ⟨h.1.1, h.1.2, h.2⟩

theorem nnd_of_components (y : Char) (h1 : y ≠ '/') (h2 : y ≠ '?')
    (h3 : y ≠ '#') : not_netloc_delim y = true := by
  unfold not_netloc_delim
  simp [h1, h2, h3]

theorem unsplit_shape (st n p' q : Str) (hst : st ≠ []) (hn : n ≠ [])
    (hp : p' = [] ∨ p'.take 1 = lstr "/") :
    urlunsplit st n p' q [] =
      st ++ ':' :: '/' :: '/' ::
        (n ++ (p' ++ (if q = [] then [] else '?' :: q))) := by
  simp only [urlunsplit]
  rw [if_neg (show ¬(([] : Str) ≠ []) by simp)]
  have hinner : ¬ ((decide (p' ≠ []) && decide (¬p'.take 1 = lstr "/")) =
      true) := by
    rcases hp with hp | hp
    · simp [hp]
    · simp [hp]
  rcases hq : q with _ | ⟨q0, qt⟩
  · rw [if_neg (show ¬(([] : Str) ≠ []) by simp)]
    rw [if_pos hst]
    rw [if_pos (show (decide (n ≠ []) || (decide (p' ≠ []) &&
      decide (p'.take 2 = lstr "//"))) = true by simp [hn])]
    rw [if_neg hinner]
    simp [List.append_assoc]
    rfl
  · rw [if_pos (by simp)]
    rw [if_pos hst]
    rw [if_pos (show (decide (n ≠ []) || (decide (p' ≠ []) &&
      decide (p'.take 2 = lstr "//"))) = true by simp [hn])]
    rw [if_neg hinner]
    simp [List.append_assoc]
    rfl

theorem host_mem_facts (nl : Str) (hbr : ∀ y ∈ nl, y ≠ '[')
    (hnd : ∀ y ∈ nl, not_netloc_delim y = true) (x : Char)
    (hx : x ∈ lstrip_set (lstr "www.") (lower (hostname nl))) :
    not_netloc_delim x = true ∧ x ≠ ':' ∧ x ≠ '@' ∧ x ≠ '[' ∧
    to_lower_char x = x := by
  have hx1 : x ∈ lower (hostname nl) := mem_of_mem_dropWhile _ _ x hx
  have hfix : to_lower_char x = x := lower_mem_fixed _ x hx1
  have hmk : ∀ (d : Char), d.toNat < 97 ∨ 122 < d.toNat →
      (∀ y ∈ (hostinfo nl).1, y ≠ d) → x ≠ d := by
    intro d hd hbase
    have l1 : ∀ y ∈ lower (hostinfo nl).1, y ≠ d :=
      lower_preserve_ne _ d hd hbase
    have l2 : ∀ y ∈ lower (lower (hostinfo nl).1), y ≠ d :=
      lower_preserve_ne _ d hd l1
    exact l2 x hx1
  have hslash : x ≠ '/' := by
    refine hmk '/' (by decide) ?_
    intro y hy
    exact (nnd_components y (hnd y (mem_hostinfo_fst nl y hy))).1
  have hqm : x ≠ '?' := by
    refine hmk '?' (by decide) ?_
    intro y hy
    exact (nnd_components y (hnd y (mem_hostinfo_fst nl y hy))).2.1
  have hhash : x ≠ '#' := by
    refine hmk '#' (by decide) ?_
    intro y hy
    exact (nnd_components y (hnd y (mem_hostinfo_fst nl y hy))).2.2
  have hcolon : x ≠ ':' := by
    refine hmk ':' (by decide) ?_
    intro y hy
    exact hostinfo_fst_no_colon nl hbr y hy
  have hat : x ≠ '@' := by
    refine hmk '@' (by decide) ?_
    intro y hy
    exact hostinfo_fst_no_at nl y hy
  have hbrx : x ≠ '[' := by
    refine hmk '[' (by decide) ?_
    intro y hy
    exact hbr y (mem_hostinfo_fst nl y hy)
  exact ⟨nnd_of_components x hslash hqm hhash, hcolon, hat, hbrx, hfix⟩

end UrlLib

namespace Crawler

open PyStr UrlLib

theorem take1_append (l m : Str) (h : l.take 1 = lstr "/") :
    (l ++ m).take 1 = lstr "/" := by
  rcases l with _ | ⟨a, t⟩
  · exact absurd h (by decide)
  · have h2 : [a] = ['/'] := by
      simp only [List.take_succ_cons, List.take_zero] at h
      exact h
    rw [List.cons_append, List.take_succ_cons, List.take_zero]
    rw [(List.cons.inj h2).1]
    rfl

theorem normalize_reparse (st host portstr pathu paramsu q : Str)
    (hst : st = lstr "http" ∨ st = lstr "https")
    (hhostne : host ≠ [])
    (hhf : ∀ x ∈ host, not_netloc_delim x = true ∧ x ≠ ':' ∧ x ≠ '@' ∧
      x ≠ '[' ∧ to_lower_char x = x)
    (hidem : lstrip_set (lstr "www.") host = host)
    (hpstr : portstr = [] ∨
      ∃ p, p ≠ 0 ∧ p ≤ 65535 ∧ portstr = ':' :: nat_render p)
    (hpath : pathu = [] ∨ pathu.take 1 = lstr "/")
    (hpe : pathu = [] → paramsu = [])
    (hpnq : ∀ x ∈ pathu, x ≠ '?' ∧ x ≠ '#')
    (hparq : ∀ x ∈ paramsu, x ≠ '?' ∧ x ≠ '#')
    (hqh : ∀ x ∈ q, x ≠ '#')
    (hstab1 : paramsu ≠ [] →
      splitparams (pathu ++ ';' :: paramsu) = (pathu, paramsu))
    (hstab2 : paramsu = [] → pathu.contains ';' = true →
      splitparams pathu = (pathu, [])) :
    normalize_url (urlunsplit st (host ++ portstr)
      (if paramsu ≠ [] then pathu ++ ';' :: paramsu else pathu) q []) =
    some (urlunsplit st (host ++ portstr)
      (if paramsu ≠ [] then pathu ++ ';' :: paramsu else pathu) q []) := by
  have hstne : st ≠ [] := by
    rcases hst with h | h <;> subst h <;> decide
  have hn_ne : host ++ portstr ≠ [] := by
    rcases host with _ | ⟨a, t⟩
    · exact absurd rfl hhostne
    · simp
  have hdigfacts : ∀ p : Nat, ∀ x ∈ nat_render p,
      not_netloc_delim x = true ∧ x ≠ ':' ∧ x ≠ '@' ∧ x ≠ '[' := by
    intro p x hx
    have hd := List.all_eq_true.mp (nat_render_all_digit p) x hx
    exact ⟨nnd_of_components x (digit_ne x hd '/' (by left; decide))
        (digit_ne x hd '?' (by right; decide))
        (digit_ne x hd '#' (by left; decide)),
      digit_ne x hd ':' (by right; decide),
      digit_ne x hd '@' (by right; decide),
      digit_ne x hd '[' (by right; decide)⟩
  have hn_all : ∀ x ∈ host ++ portstr, not_netloc_delim x = true := by
    intro x hx
    rcases List.mem_append.mp hx with hx | hx
    · exact (hhf x hx).1
    · rcases hpstr with hp | ⟨p, _, _, hp⟩
      · rw [hp] at hx
        exact absurd hx (List.not_mem_nil x)
      · rw [hp] at hx
        rcases List.mem_cons.mp hx with hx | hx
        · subst hx; decide
        · exact (hdigfacts p x hx).1
  have hpne : paramsu ≠ [] → pathu ≠ [] := by
    intro hne he
    exact hne (hpe he)
  have hp' : (if paramsu ≠ [] then pathu ++ ';' :: paramsu else pathu) = [] ∨
      (if paramsu ≠ [] then pathu ++ ';' :: paramsu else pathu).take 1 =
        lstr "/" := by
    by_cases hpar : paramsu ≠ []
    · rw [if_pos hpar]
      right
      rcases hpath with hpa | hpa
      · exact absurd (hpe hpa) hpar
      · exact take1_append _ _ hpa
    · rw [if_neg hpar]
      exact hpath
  have hp'nq : ∀ x ∈ (if paramsu ≠ [] then pathu ++ ';' :: paramsu
      else pathu), x ≠ '?' ∧ x ≠ '#' := by
    intro x hx
    by_cases hpar : paramsu ≠ []
    · rw [if_pos hpar] at hx
      rcases List.mem_append.mp hx with hx | hx
      · exact hpnq x hx
      · rcases List.mem_cons.mp hx with hx | hx
        · subst hx; exact ⟨by decide, by decide⟩
        · exact hparq x hx
    · rw [if_neg hpar] at hx
      exact hpnq x hx
  have hr := unsplit_shape st (host ++ portstr)
    (if paramsu ≠ [] then pathu ++ ';' :: paramsu else pathu) q hstne hn_ne hp'
  have hXh : ∀ x ∈ (if paramsu ≠ [] then pathu ++ ';' :: paramsu
      else pathu) ++ (if q = [] then [] else '?' :: q), x ≠ '#' := by
    intro x hx
    rcases List.mem_append.mp hx with hx | hx
    · exact (hp'nq x hx).2
    · rcases hqe : q with _ | ⟨q0, qt⟩
      · rw [hqe] at hx
        simp at hx
      · rw [hqe] at hx
        rw [if_neg (by simp)] at hx
        rcases List.mem_cons.mp hx with hx | hx
        · subst hx; decide
        · rw [← hqe] at hx
          exact hqh x hx
  have hXshape : (if paramsu ≠ [] then pathu ++ ';' :: paramsu else pathu) ++
      (if q = [] then [] else '?' :: q) = [] ∨
      ∃ x X2, (if paramsu ≠ [] then pathu ++ ';' :: paramsu else pathu) ++
        (if q = [] then [] else '?' :: q) = x :: X2 ∧
        not_netloc_delim x = false := by
    rcases hp' with hp2 | hp2
    · rw [hp2, List.nil_append]
      rcases hqe : q with _ | ⟨q0, qt⟩
      · left
        rw [if_pos rfl]
      · right
        rw [if_neg (by simp)]
        exact ⟨'?', q0 :: qt, rfl, by decide⟩
    · right
      rcases hpp : (if paramsu ≠ [] then pathu ++ ';' :: paramsu else pathu)
        with _ | ⟨p0, pt⟩
      · rw [hpp] at hp2
        exact absurd hp2 (by decide)
      · rw [hpp] at hp2
        have h2 : [p0] = ['/'] := by
          simp only [List.take_succ_cons, List.take_zero] at hp2
          exact hp2
        rw [(List.cons.inj h2).1]
        exact ⟨'/', pt ++ (if q = [] then [] else '?' :: q),
          by rw [List.cons_append], by decide⟩
  have hsplit := urlsplit_of_shape st (host ++ portstr) _ hst hn_all hXshape hXh
  have hpart1 : (partition_char ((if paramsu ≠ [] then pathu ++ ';' ::
      paramsu else pathu) ++ (if q = [] then [] else '?' :: q)) '?').1 =
      (if paramsu ≠ [] then pathu ++ ';' :: paramsu else pathu) := by
    rcases hqe : q with _ | ⟨q0, qt⟩
    · rw [if_pos (show ([] : Str) = [] from rfl), List.append_nil]
      rw [partition_char_no_sep _ '?' (fun x hx => (hp'nq x hx).1)]
    · rw [if_neg (show ¬(q0 :: qt = ([] : Str)) by simp)]
      rw [partition_char_first _ _ '?' (fun x hx => (hp'nq x hx).1)]
  have hpart2 : (partition_char ((if paramsu ≠ [] then pathu ++ ';' ::
      paramsu else pathu) ++ (if q = [] then [] else '?' :: q)) '?').2.2 =
      q := by
    rcases hqe : q with _ | ⟨q0, qt⟩
    · rw [if_pos (show ([] : Str) = [] from rfl), List.append_nil]
      rw [partition_char_no_sep _ '?' (fun x hx => (hp'nq x hx).1)]
    · rw [if_neg (show ¬(q0 :: qt = ([] : Str)) by simp)]
      rw [partition_char_first _ _ '?' (fun x hx => (hp'nq x hx).1)]
  rw [hr]
  have hat2 : ∀ x ∈ host, x ≠ '@' := fun x hx => (hhf x hx).2.2.1
  have hbr2 : ∀ x ∈ host, x ≠ '[' := fun x hx => (hhf x hx).2.2.2.1
  have hcol2 : ∀ x ∈ host, x ≠ ':' := fun x hx => (hhf x hx).2.1
  have hfix2 : ∀ x ∈ host, to_lower_char x = x := fun x hx =>
    (hhf x hx).2.2.2.2
  have hpp : ∃ popt : Option Nat, port (host ++ portstr) = Except.ok popt ∧
      lstrip_set (lstr "www.") (lower (hostname (host ++ portstr))) = host ∧
      (match popt with
       | some p => if p ≠ 0 then ':' :: nat_render p else []
       | none => []) = portstr := by
    rcases hpstr with hps | ⟨p, hp0, hple, hps⟩
    · subst hps
      refine ⟨none, ?_, ?_, rfl⟩
      · rw [List.append_nil]
        exact port_plain host hat2 hbr2 hcol2
      · rw [List.append_nil]
        unfold hostname
        rw [hostinfo_plain host hat2 hbr2 hcol2]
        show lstrip_set (lstr "www.") (lower (lower host)) = host
        rw [lower_idem, lower_fixed host hfix2, hidem]
    · subst hps
      have hat3 : ∀ x ∈ host ++ ':' :: nat_render p, x ≠ '@' := by
        intro x hx
        rcases List.mem_append.mp hx with hx | hx
        · exact hat2 x hx
        · rcases List.mem_cons.mp hx with hx | hx
          · subst hx; decide
          · exact (hdigfacts p x hx).2.2.1
      have hbr3 : ∀ x ∈ host ++ ':' :: nat_render p, x ≠ '[' := by
        intro x hx
        rcases List.mem_append.mp hx with hx | hx
        · exact hbr2 x hx
        · rcases List.mem_cons.mp hx with hx | hx
          · subst hx; decide
          · exact (hdigfacts p x hx).2.2.2
      refine ⟨some p, ?_, ?_, ?_⟩
      · exact port_render host p hat2 hbr2 hcol2 hple
      · unfold hostname
        rw [hostinfo_with_port host (nat_render p) hat3 hbr3 hcol2
          (nat_render_ne_nil p)]
        show lstrip_set (lstr "www.") (lower (lower host)) = host
        rw [lower_idem, lower_fixed host hfix2, hidem]
      · show (if p ≠ 0 then ':' :: nat_render p else []) = ':' :: nat_render p
        rw [if_pos hp0]
  obtain ⟨popt, hpo, hho, hpm⟩ := hpp
  have hc1 : ¬((decide (st = []) || decide (st = lstr "mailto") ||
      decide (st = lstr "tel")) = true) := by
    rcases hst with h | h <;> subst h <;> decide
  have hc2 : ¬((!ALLOWED_SCHEMES.contains (lower st)) = true) := by
    rcases hst with h | h <;> subst h <;> decide
  have hA3 : lower st = st := by
    rcases hst with h | h <;> subst h <;> decide
  have hA4 : uses_params.contains st = true := by
    rcases hst with h | h <;> subst h <;> decide
  have hRne : ¬ (st ++ ':' :: '/' :: '/' ::
      (host ++ portstr ++ ((if paramsu ≠ [] then pathu ++ ';' :: paramsu
        else pathu) ++ if q = [] then [] else '?' :: q)) = []) := by
    simp
  have hup : urlparse (st ++ ':' :: '/' :: '/' ::
      (host ++ portstr ++ ((if paramsu ≠ [] then pathu ++ ';' :: paramsu
        else pathu) ++ if q = [] then [] else '?' :: q))) [] =
      ⟨st, host ++ portstr,
       (if uses_params.contains st &&
          (if paramsu ≠ [] then pathu ++ ';' :: paramsu
           else pathu).contains ';' then
          splitparams (if paramsu ≠ [] then pathu ++ ';' :: paramsu
            else pathu)
        else ((if paramsu ≠ [] then pathu ++ ';' :: paramsu else pathu),
          [])).1,
       (if uses_params.contains st &&
          (if paramsu ≠ [] then pathu ++ ';' :: paramsu
           else pathu).contains ';' then
          splitparams (if paramsu ≠ [] then pathu ++ ';' :: paramsu
            else pathu)
        else ((if paramsu ≠ [] then pathu ++ ';' :: paramsu else pathu),
          [])).2,
       q, []⟩ := by
    simp only [urlparse]
    rw [hsplit, hpart1, hpart2]
  have hppv : (if uses_params.contains st &&
      (if paramsu ≠ [] then pathu ++ ';' :: paramsu
        else pathu).contains ';' then
      splitparams (if paramsu ≠ [] then pathu ++ ';' :: paramsu else pathu)
    else ((if paramsu ≠ [] then pathu ++ ';' :: paramsu else pathu), [])) =
      (pathu, paramsu) := by
    by_cases hpar : paramsu = []
    · have hpath2 : (if paramsu ≠ [] then pathu ++ ';' :: paramsu else pathu)
          = pathu := by
        rw [if_neg (not_not_intro hpar)]
      rw [hpath2, hpar]
      by_cases hsc : pathu.contains ';' = true
      · rw [hA4]
        simp only [Bool.true_and]
        rw [if_pos hsc]
        exact hstab2 hpar hsc
      · rw [hA4]
        simp only [Bool.true_and]
        rw [if_neg hsc]
    · have hpath2 : (if paramsu ≠ [] then pathu ++ ';' :: paramsu else pathu)
          = pathu ++ ';' :: paramsu := if_pos hpar
      rw [hpath2]
      have hsc : (pathu ++ ';' :: paramsu).contains ';' = true :=
        List.contains_iff_exists_mem_beq.mpr
          ⟨';', List.mem_append_right _ (List.mem_cons_self _ _), by decide⟩
      rw [hA4]
      simp only [Bool.true_and]
      rw [if_pos hsc]
      exact hstab1 hpar
  simp only [normalize_url]
  rw [if_neg hRne, hup]
  dsimp only
  rw [if_neg hc1, if_neg hc2, hho, if_neg hhostne, hpo]
  dsimp only
  rw [hpm, hA3, hppv]
  dsimp only
  simp only [urlunparse]
  rw [hr]

theorem split_scheme_fst (url ds : Str) :
    (split_scheme url ds).1 = ds ∨ ∃ x, (split_scheme url ds).1 = lower x := by
  simp only [split_scheme]
  split
  · exact Or.inr ⟨(partition_char url ':').1, rfl⟩
  · exact Or.inl rfl

/-- C5 (amended): `normalize_url` is idempotent on every candidate it
accepts whose netloc carries no opening bracket `[`: if
`normalize_url u = some r` and no character of `(urlparse u).netloc` is
`'['`, then `normalize_url r = some r`.  (For bracketed IPv6 hosts the
original unconditional idempotence claim fails: normalization strips the
brackets and the reparse then rejects the URL.) -/
theorem c5_normalize_idempotent (u r : Str)
    (hacc : normalize_url u = some r)
    (hbr : ∀ y ∈ (urlparse u).netloc, y ≠ '[') :
    normalize_url r = some r := by
  obtain ⟨hA1, hA2, portv, hport, hreq⟩ := normalize_url_accept u r hacc
  have hst : lower (urlparse u).scheme = lstr "http" ∨
      lower (urlparse u).scheme = lstr "https" := by
    simpa [ALLOWED_SCHEMES] using hA1
  have hnd : ∀ y ∈ (urlparse u).netloc, not_netloc_delim y = true :=
    fun y hy => urlsplit_netloc_all u [] y hy
  have hhf : ∀ x ∈ lstrip_set (lstr "www.")
      (lower (hostname (urlparse u).netloc)),
      not_netloc_delim x = true ∧ x ≠ ':' ∧ x ≠ '@' ∧ x ≠ '[' ∧
      to_lower_char x = x :=
    fun x hx => host_mem_facts (urlparse u).netloc hbr hnd x hx
  have hidem : lstrip_set (lstr "www.")
      (lstrip_set (lstr "www.") (lower (hostname (urlparse u).netloc))) =
      lstrip_set (lstr "www.") (lower (hostname (urlparse u).netloc)) :=
    dropWhile_idem _ _
  have hnetne : (urlparse u).netloc ≠ [] := by
    intro h
    exact hA2 (by rw [h]; decide)
  have hqh : ∀ x ∈ (urlparse u).query, x ≠ '#' :=
    fun x hx => urlsplit_query_no_h u [] x hx
  have hlowsch : lower (urlparse u).scheme = (urlparse u).scheme := by
    rcases split_scheme_fst u [] with h | ⟨x, h⟩
    · show lower (split_scheme u ([] : Str)).1 = (split_scheme u ([] : Str)).1
      rw [h]
      rfl
    · show lower (split_scheme u ([] : Str)).1 = (split_scheme u ([] : Str)).1
      rw [h, lower_idem]
  have hups : uses_params.contains (urlsplit u ([] : Str)).scheme = true := by
    show uses_params.contains (urlparse u).scheme = true
    rcases hst with h | h
    · rw [← hlowsch, h]
      decide
    · rw [← hlowsch, h]
      decide
  have hP : ((urlparse u).path = [] ∨ (urlparse u).path.take 1 = lstr "/") ∧
      ((urlparse u).path = [] → (urlparse u).params = []) ∧
      (∀ x ∈ (urlparse u).path, x ≠ '?' ∧ x ≠ '#') ∧
      (∀ x ∈ (urlparse u).params, x ≠ '?' ∧ x ≠ '#') ∧
      ((urlparse u).params ≠ [] →
        splitparams ((urlparse u).path ++ ';' :: (urlparse u).params) =
          ((urlparse u).path, (urlparse u).params)) ∧
      ((urlparse u).params = [] → (urlparse u).path.contains ';' = true →
        splitparams (urlparse u).path = ((urlparse u).path, [])) := by
    by_cases hcond : (uses_params.contains (urlsplit u ([] : Str)).scheme &&
        (urlsplit u ([] : Str)).path.contains ';') = true
    · have hpeq : (urlparse u).path =
          (splitparams (urlsplit u ([] : Str)).path).1 := by
        show (if uses_params.contains (urlsplit u ([] : Str)).scheme &&
            (urlsplit u ([] : Str)).path.contains ';' then
            splitparams (urlsplit u ([] : Str)).path
          else ((urlsplit u ([] : Str)).path, [])).1 =
          (splitparams (urlsplit u ([] : Str)).path).1
        rw [if_pos hcond]
      have hpareq : (urlparse u).params =
          (splitparams (urlsplit u ([] : Str)).path).2 := by
        show (if uses_params.contains (urlsplit u ([] : Str)).scheme &&
            (urlsplit u ([] : Str)).path.contains ';' then
            splitparams (urlsplit u ([] : Str)).path
          else ((urlsplit u ([] : Str)).path, [])).2 =
          (splitparams (urlsplit u ([] : Str)).path).2
        rw [if_pos hcond]
      have hsemi : (urlsplit u ([] : Str)).path.contains ';' = true := by
        have h2 := hcond
        simp only [Bool.and_eq_true] at h2
        exact h2.2
      have hshape := urlsplit_path_shape u [] hnetne
      have hpt : (urlsplit u ([] : Str)).path.take 1 = lstr "/" := by
        rcases hshape with h | h
        · rw [h] at hsemi
          exact absurd hsemi (by decide)
        · exact h
      have hpt2 : (urlparse u).path.take 1 = lstr "/" := by
        rw [hpeq]
        exact splitparams_fst_head _ hpt
      have hpne : (urlparse u).path ≠ [] := by
        intro h
        rw [h] at hpt2
        exact absurd hpt2 (by decide)
      refine ⟨Or.inr hpt2, fun h => absurd h hpne, ?_, ?_, ?_, ?_⟩
      · intro x hx
        rw [hpeq] at hx
        rcases mem_splitparams_fst _ x hx with hx | hx
        · exact urlsplit_path_no_qh u [] x hx
        · subst hx
          exact ⟨by decide, by decide⟩
      · intro x hx
        rw [hpareq] at hx
        exact urlsplit_path_no_qh u [] x (mem_splitparams_snd _ x hx)
      · intro hne
        rw [hpeq, hpareq]
        rw [hpareq] at hne
        exact (splitparams_found _ hne).trans Prod.mk.eta.symm
      · intro hpar _
        rw [hpeq]
        rw [hpareq] at hpar
        exact splitparams_empty_params _ hpar
    · have hpeq : (urlparse u).path = (urlsplit u ([] : Str)).path := by
        show (if uses_params.contains (urlsplit u ([] : Str)).scheme &&
            (urlsplit u ([] : Str)).path.contains ';' then
            splitparams (urlsplit u ([] : Str)).path
          else ((urlsplit u ([] : Str)).path, [])).1 =
          (urlsplit u ([] : Str)).path
        rw [if_neg hcond]
      have hpareq : (urlparse u).params = [] := by
        show (if uses_params.contains (urlsplit u ([] : Str)).scheme &&
            (urlsplit u ([] : Str)).path.contains ';' then
            splitparams (urlsplit u ([] : Str)).path
          else ((urlsplit u ([] : Str)).path, [])).2 = []
        rw [if_neg hcond]
      have hsemi : (urlsplit u ([] : Str)).path.contains ';' = false := by
        rcases hb : (urlsplit u ([] : Str)).path.contains ';' with _ | _
        · rfl
        · exfalso
          apply hcond
          rw [hups, hb]
          rfl
      refine ⟨?_, fun _ => hpareq, ?_, ?_, ?_, ?_⟩
      · rw [hpeq]
        exact urlsplit_path_shape u [] hnetne
      · intro x hx
        rw [hpeq] at hx
        exact urlsplit_path_no_qh u [] x hx
      · intro x hx
        rw [hpareq] at hx
        exact absurd hx (List.not_mem_nil x)
      · intro hne
        rw [hpareq] at hne
        exact absurd rfl hne
      · intro _ hcontains
        rw [hpeq] at hcontains
        rw [hcontains] at hsemi
        exact absurd hsemi (by decide)
  obtain ⟨hpath, hpe, hpnq, hparq, hstab1, hstab2⟩ := hP
  rcases portv with _ | p
  · have hru : r = urlunsplit (lower (urlparse u).scheme)
        (lstrip_set (lstr "www.")
          (lower (hostname (urlparse u).netloc)) ++ [])
        (if (urlparse u).params ≠ [] then
          (urlparse u).path ++ ';' :: (urlparse u).params
         else (urlparse u).path) (urlparse u).query [] := hreq
    rw [hru]
    exact normalize_reparse _ _ _ _ _ _ hst hA2 hhf hidem (Or.inl rfl)
      hpath hpe hpnq hparq hqh hstab1 hstab2
  · by_cases hp0 : p = 0
    · subst hp0
      have hru : r = urlunsplit (lower (urlparse u).scheme)
          (lstrip_set (lstr "www.")
            (lower (hostname (urlparse u).netloc)) ++ [])
          (if (urlparse u).params ≠ [] then
            (urlparse u).path ++ ';' :: (urlparse u).params
           else (urlparse u).path) (urlparse u).query [] := hreq
      rw [hru]
      exact normalize_reparse _ _ _ _ _ _ hst hA2 hhf hidem (Or.inl rfl)
        hpath hpe hpnq hparq hqh hstab1 hstab2
    · have hru : r = urlunsplit (lower (urlparse u).scheme)
          (lstrip_set (lstr "www.")
            (lower (hostname (urlparse u).netloc)) ++
            (if p ≠ 0 then ':' :: nat_render p else []))
          (if (urlparse u).params ≠ [] then
            (urlparse u).path ++ ';' :: (urlparse u).params
           else (urlparse u).path) (urlparse u).query [] := hreq
      rw [if_pos hp0] at hru
      rw [hru]
      exact normalize_reparse _ _ _ _ _ _ hst hA2 hhf hidem
        (Or.inr ⟨p, hp0, port_ok_le _ p hport, rfl⟩)
        hpath hpe hpnq hparq hqh hstab1 hstab2

/-- C5 counterexample to the unconditional claim: the bracketed IPv6
candidate `http://[::1]/x` is accepted, yet normalizing its output again
yields `none`, so `normalize (normalize u)) = normalize u` fails. -/
theorem c5_counterexample :
    normalize_url (lstr "http://[::1]/x") = some (lstr "http://::1/x") ∧
    normalize_url (lstr "http://::1/x") = none ∧
    (normalize_url (lstr "http://[::1]/x")).bind normalize_url ≠
      normalize_url (lstr "http://[::1]/x") := by
  refine ⟨by decide, by decide, by decide⟩

/-- C5 witness: the amended idempotence theorem applied at the accepted
candidate `http://WWW.Ex.com:80/A?q=1#frag`. -/
theorem c5_witness :
    normalize_url (lstr "http://WWW.Ex.com:80/A?q=1#frag") =
      some (lstr "http://ex.com:80/A?q=1") ∧
    normalize_url (lstr "http://ex.com:80/A?q=1") =
      some (lstr "http://ex.com:80/A?q=1") :=
  ⟨by decide,
   c5_normalize_idempotent (lstr "http://WWW.Ex.com:80/A?q=1#frag")
     (lstr "http://ex.com:80/A?q=1") (by decide) (by decide)⟩

end Crawler
